import Mathlib

/-!
Verification of the OLog logging library (Fantasime/OLog) against its
natural-language specification.

The development shallowly embeds the C++ sources:

* `src/log_info.h` — the compile-time printf-format analysis layer
  (`GetParamInfo`, `FormatParametersCount`, `ConversionSpecifiersCount`,
  `SizeConversionStorageNeeds`, `GetConversionSpecifierChar`,
  `MakeConversionStorage`, `GetConversionType`, positions/lengths and the
  argument codec `GetArgSize` / `StoreArgument`), and the `LogAssembler`;
* `src/log_info.cc` — `LogAssembler::write` and the `loadStaticInfo` /
  `loadDynamicInfo` / `setProducerId` precomputations;
* `src/buffers.h` / `src/buffers.cc` — the `StagingBuffer` SPSC byte pipe;
* `src/logger.cc` — `setLogLevelInternal` and `setLogFileInternal`.

Modelling conventions: C++ character arrays become `List Char` (including the
terminating NUL where the source array contains one); raw pointers into a
buffer become `Nat` offsets; machine integers become `Nat`/`Int` with explicit
wrap-arounds where the source can overflow; a C++ `throw` — and, inside a
`constexpr` evaluation, an out-of-bounds array read — is `Option.none`.
The C library formatter `snprintf` that `tryToWriteArgToBuffer` invokes is
external to the repository and is treated as a parameter (an arbitrary
`Renderer`); concrete scenarios instantiate it with a small model of the
stencils they use.
-/

namespace OLog

/-! ## Character classes (log_info.h:378-393) -/

/-- Conversion-final characters accepted by the scanner (log_info.h:378-383).
Note that '%' and 'n' are members; 'n' is rejected later as unsupported. -/
def IsConversionSpecifier (c : Char) : Bool :=
  c = 'd' || c = 'i' || c = 'u' || c = 'o' || c = 'x' ||
  c = 'X' || c = 'f' || c = 'F' || c = 'e' || c = 'E' ||
  c = 'g' || c = 'G' || c = 'a' || c = 'A' || c = 'c' ||
  c = 'p' || c = '%' || c = 's' || c = 'n'

/-- Flag characters (log_info.h:385-387). -/
def IsFlag (c : Char) : Bool :=
  c = '-' || c = '+' || c = ' ' || c = '#' || c = '0'

/-- Length-modifier characters (log_info.h:389-391). -/
def IsLength (c : Char) : Bool :=
  c = 'h' || c = 'l' || c = 'j' || c = 'z' || c = 't' || c = 'L'

/-- Decimal digits (log_info.h:393). -/
def IsDigit (c : Char) : Bool := '0' ≤ c && c ≤ '9'

/-! ## The parameter classifier (log_info.h:31-52) -/

/-- Parameter classification, `enum class ParamType : int32_t`
(log_info.h:31-52).  The non-negative values `STRING p` encode a static
string precision cap. -/
inductive ParamType where
  | INVALID
  | DYNAMIC_WIDTH
  | DYNAMIC_PRECISION
  | NON_STRING
  | STRING_WITH_DYNAMIC_PRECISION
  | STRING_WITH_NO_PRECISION
  | STRING (precision : Nat)
  deriving DecidableEq

/-- The underlying `int32_t` value of a `ParamType` (log_info.h:31-52),
used by the ordered comparisons in `GetArgSize` and `StoreArgument`. -/
def ParamType.toInt : ParamType → Int
  | .INVALID => -6
  | .DYNAMIC_WIDTH => -5
  | .DYNAMIC_PRECISION => -4
  | .NON_STRING => -3
  | .STRING_WITH_DYNAMIC_PRECISION => -2
  | .STRING_WITH_NO_PRECISION => -1
  | .STRING p => p

/-- Conversion data types, `enum class ConversionType` (log_info.h:58-86). -/
inductive ConversionType where
  | NONE
  | unsigned_char_t
  | unsigned_short_int_t
  | unsigned_int_t
  | unsigned_long_int_t
  | unsigned_long_long_int_t
  | uintmax_t_t
  | size_t_t
  | wint_t_t
  | signed_char_t
  | short_int_t
  | int_t
  | long_int_t
  | long_long_int_t
  | intmax_t_t
  | ptrdiff_t_t
  | double_t
  | long_double_t
  | const_void_ptr_t
  | const_char_ptr_t
  | const_wchar_t_ptr_t
  deriving DecidableEq

/-! ## Shared scanning helpers

Every analysis function in log_info.h consumes a conversion specifier with the
same sequence of loops (flags, width, precision, length, conversion letter).
The C++ loops test `fmt[index]` before checking the bound, so reading past the
end of the array — impossible in a well-formed `constexpr` evaluation — is a
failure (`none`), exactly like the `throw std::invalid_argument` paths. -/

/-- Consume the maximal run of characters satisfying `p`.  Running out of
input while the loop would still read `fmt[index]` is an out-of-bounds
failure. -/
def scanWhile (p : Char → Bool) : List Char → Option (List Char × List Char)
  | [] => none
  | c :: r =>
    if p c then (scanWhile p r).map (fun x => (c :: x.1, x.2))
    else some ([], c :: r)

/-- Width phase: either a single `*` or a (possibly empty) digit run
(for example log_info.h:433-443). -/
def scanWidth : List Char → Option (List Char × List Char)
  | [] => none
  | c :: r =>
    if c = '*' then some (['*'], r)
    else scanWhile IsDigit (c :: r)

/-- Precision phase: nothing, or a `.` followed by `*` or a digit run
(for example log_info.h:446-465). -/
def scanPrecision : List Char → Option (List Char × List Char)
  | [] => none
  | c :: r =>
    if c = '.' then
      match r with
      | [] => none
      | c2 :: r2 =>
        if c2 = '*' then some (['.', '*'], r2)
        else (scanWhile IsDigit (c2 :: r2)).map (fun x => ('.' :: x.1, x.2))
    else some ([], c :: r)

/-- Conversion-letter phase: the character must be a conversion specifier and
must not be the unsupported `n` (for example log_info.h:472-479). -/
def checkConversionChar : List Char → Option (Char × List Char)
  | [] => none
  | c :: r =>
    if ¬ IsConversionSpecifier c then none
    else if c = 'n' then none
    else some (c, r)

/-- The pieces of one conversion specifier, excluding the leading `%`. -/
structure SpecParts where
  flags : List Char
  width : List Char
  precision : List Char
  lengths : List Char
  conv : Char
  deriving DecidableEq

/-- Specifier characters after the leading `%`, in source order. -/
def SpecParts.body (p : SpecParts) : List Char :=
  p.flags ++ p.width ++ p.precision ++ p.lengths ++ [p.conv]

/-- Consume one full conversion specifier after its leading `%` (the shared
loop body of `ConversionSpecifiersCount`, `SizeConversionStorageNeeds`,
`GetConversionSpecifierPosition` and `GetConversionType`). -/
def consumeSpecifier (l : List Char) : Option (SpecParts × List Char) :=
  match scanWhile IsFlag l with
  | none => none
  | some (fs, l) =>
    match scanWidth l with
    | none => none
    | some (w, l) =>
      match scanPrecision l with
      | none => none
      | some (pr, l) =>
        match scanWhile IsLength l with
        | none => none
        | some (ls, l) =>
          match checkConversionChar l with
          | none => none
          | some (c, r) =>
            some ({ flags := fs, width := w, precision := pr, lengths := ls, conv := c }, r)

/-- Decimal accumulation `precision = precision * 10 + (fmt[index] - '0')`
(log_info.h:459-463). -/
def digitsToNat (ds : List Char) : Nat :=
  ds.foldl (fun a c => a * 10 + (c.toNat - 48)) 0

/-! ## GetParamInfo (log_info.h:410-497)

Unlike the other scanners, `GetParamInfo` returns from the middle of a
specifier as soon as the requested parameter position is identified, without
validating the remainder of the specifier, so it gets its own faithful
translation with early returns.  The result of scanning one specifier is
either a final answer (`Sum.inl`) or the `continue` with the decremented
parameter count and the rest of the format (`Sum.inr`). -/

/-- Length modifiers, conversion letter and final classification of
`GetParamInfo` (log_info.h:467-494).  `hasDyn` is `has_dynamic_precision`,
`precision = none` models the `-1` sentinel. -/
def gpiFinish (l : List Char) (n : Nat) (hasDyn : Bool) (precision : Option Nat) :
    Option (ParamType ⊕ (Nat × List Char)) :=
  match scanWhile IsLength l with
  | none => none
  | some (_, l) =>
    match l with
    | [] => none
    | c :: r =>
      if ¬ IsConversionSpecifier c then none
      else if c = 'n' then none
      else if 0 < n then some (.inr (n - 1, r))
      else if c ≠ 's' then some (.inl .NON_STRING)
      else if hasDyn then some (.inl .STRING_WITH_DYNAMIC_PRECISION)
      else
        match precision with
        | none => some (.inl .STRING_WITH_NO_PRECISION)
        | some p => some (.inl (.STRING p))

/-- Precision phase of `GetParamInfo` (log_info.h:445-465), with the early
return for a dynamic precision at the requested position. -/
def gpiAfterWidth (l : List Char) (n : Nat) :
    Option (ParamType ⊕ (Nat × List Char)) :=
  match l with
  | [] => none
  | c :: r =>
    if c = '.' then
      match r with
      | [] => none
      | c2 :: r2 =>
        if c2 = '*' then
          if n = 0 then some (.inl .DYNAMIC_PRECISION)
          else gpiFinish r2 (n - 1) true none
        else
          match scanWhile IsDigit (c2 :: r2) with
          | none => none
          | some (ds, l3) => gpiFinish l3 n false (some (digitsToNat ds))
    else gpiFinish (c :: r) n false none

/-- Flags and width phases of `GetParamInfo` (log_info.h:428-443), with the
early return for a dynamic width at the requested position.  `l` is the text
following the leading `%`. -/
def getParamInfoSpec (l : List Char) (n : Nat) :
    Option (ParamType ⊕ (Nat × List Char)) :=
  match scanWhile IsFlag l with
  | none => none
  | some (_, l) =>
    match l with
    | [] => none
    | c :: r =>
      if c = '*' then
        if n = 0 then some (.inl .DYNAMIC_WIDTH)
        else gpiAfterWidth r (n - 1)
      else
        match scanWhile IsDigit (c :: r) with
        | none => none
        | some (_, l2) => gpiAfterWidth l2 n

/-- Top-level loop of `GetParamInfo` (log_info.h:411-496).  `fuel` bounds the
number of loop iterations; every iteration consumes at least one character, so
`fmt.length + 1` is always enough (see the wrapper below). -/
def getParamInfoAux : Nat → List Char → Nat → Option ParamType
  | 0, _, _ => none
  | fuel + 1, l, n =>
    match l with
    | [] => some .INVALID
    | c :: rest =>
      if c = '%' then
        match rest with
        | [] => none
        | c2 :: r =>
          if c2 = '%' then getParamInfoAux fuel r n
          else
            match getParamInfoSpec (c2 :: r) n with
            | none => none
            | some (.inl t) => some t
            | some (.inr (n', r')) => getParamInfoAux fuel r' n'
      else getParamInfoAux fuel rest n

/-- The translation of `GetParamInfo(fmt, param_num)` (log_info.h:410-497).
The C++ template receives the whole character array, terminating NUL
included, so callers pass `fmt` with its final NUL. -/
def getParamInfo (fmt : List Char) (n : Nat) : Option ParamType :=
  getParamInfoAux (fmt.length + 1) fmt n

/-- Loop of `FormatParametersCount` (log_info.h:508-515): count up while
`GetParamInfo` keeps classifying parameter positions. -/
def formatParametersCountAux (fmt : List Char) : Nat → Nat → Option Nat
  | 0, _ => none
  | fuel + 1, n =>
    match getParamInfo fmt n with
    | none => none
    | some .INVALID => some n
    | some _ => formatParametersCountAux fmt fuel (n + 1)

/-- The translation of `FormatParametersCount` (log_info.h:508-515).  A
format never has more parameters than characters, so `fmt.length + 1` loop
iterations always suffice (proved below as `getParamInfo_param_lt_length`). -/
def formatParametersCount (fmt : List Char) : Option Nat :=
  formatParametersCountAux fmt (fmt.length + 1) 0

/-- Sequencing of `Option`s: the `std::array` builders of log_info.h evaluate
one `constexpr` call per index, and a single failed constant evaluation fails
the whole array. -/
def optionList {α : Type} : List (Option α) → Option (List α)
  | [] => some []
  | none :: _ => none
  | some a :: r => (optionList r).map (a :: ·)

/-- The translation of `AnalyzeFormatParameters` (log_info.h:529-553): the
array whose i-th entry is `GetParamInfo(fmt, i)`. -/
def analyzeFormatParameters (numParam : Nat) (fmt : List Char) :
    Option (List ParamType) :=
  optionList ((List.range numParam).map (getParamInfo fmt))

/-! ## The counting scanners (log_info.h:751-895) -/

/-- Top-level loop of `ConversionSpecifiersCount` (log_info.h:751-811). -/
def conversionSpecifiersCountAux : Nat → List Char → Option Nat
  | 0, _ => none
  | fuel + 1, l =>
    match l with
    | [] => some 0
    | c :: rest =>
      if c = '%' then
        match rest with
        | [] => none
        | c2 :: r =>
          if c2 = '%' then conversionSpecifiersCountAux fuel r
          else
            match consumeSpecifier (c2 :: r) with
            | none => none
            | some (_, r') => (conversionSpecifiersCountAux fuel r').map (· + 1)
      else conversionSpecifiersCountAux fuel rest

/-- The translation of `ConversionSpecifiersCount` (log_info.h:751-811). -/
def conversionSpecifiersCount (fmt : List Char) : Option Nat :=
  conversionSpecifiersCountAux (fmt.length + 1) fmt

/-- Top-level loop of `SizeConversionStorageNeeds` (log_info.h:825-895): each
specifier contributes one `need_size` unit per character including the
leading `%` (that is `body.length + 1`) plus one `count` unit for its NUL
terminator. -/
def sizeConversionStorageNeedsAux : Nat → List Char → Option Nat
  | 0, _ => none
  | fuel + 1, l =>
    match l with
    | [] => some 0
    | c :: rest =>
      if c = '%' then
        match rest with
        | [] => none
        | c2 :: r =>
          if c2 = '%' then sizeConversionStorageNeedsAux fuel r
          else
            match consumeSpecifier (c2 :: r) with
            | none => none
            | some (parts, r') =>
              (sizeConversionStorageNeedsAux fuel r').map (· + (parts.body.length + 2))
      else sizeConversionStorageNeedsAux fuel rest

/-- The translation of `SizeConversionStorageNeeds` (log_info.h:825-895). -/
def sizeConversionStorageNeeds (fmt : List Char) : Option Nat :=
  sizeConversionStorageNeedsAux (fmt.length + 1) fmt

/-- Specification-side description of the same scan, used for the round-trip
claim: the sequence of conversion specifiers occurring in the format string,
each including its leading `%` and all of its flags, width, precision and
length characters (spec section 4.A, `spec := '%' flag* width? ('.'
precision)? length? conversion`, with `%%` an escape). -/
def formatSpecifiersAux : Nat → List Char → Option (List (List Char))
  | 0, _ => none
  | fuel + 1, l =>
    match l with
    | [] => some []
    | c :: rest =>
      if c = '%' then
        match rest with
        | [] => none
        | c2 :: r =>
          if c2 = '%' then formatSpecifiersAux fuel r
          else
            match consumeSpecifier (c2 :: r) with
            | none => none
            | some (parts, r') =>
              (formatSpecifiersAux fuel r').map (('%' :: parts.body) :: ·)
      else formatSpecifiersAux fuel rest

/-- The list of conversion specifiers of a format string (see
`formatSpecifiersAux`). -/
def formatSpecifiers (fmt : List Char) : Option (List (List Char)) :=
  formatSpecifiersAux (fmt.length + 1) fmt

/-! ## GetConversionSpecifierChar (log_info.h:913-1005)

`GetConversionSpecifierChar(fmt, num)` walks the format and returns the
`num`-th character of the packed specifier storage; like `GetParamInfo` it
returns from the middle of a specifier as soon as the countdown hits zero,
before validating the rest, so the translation keeps the early returns. -/

/-- Early-return run scan: return the character at countdown zero inside a
run of characters satisfying `p`, or hand the remaining countdown and input to
the next phase (the flag/digit/length loops of log_info.h:935-985). -/
def searchSpan (p : Char → Bool) : List Char → Nat → Option (Char ⊕ (Nat × List Char))
  | [], _ => none
  | c :: r, num =>
    if p c then
      if num = 0 then some (.inl c) else searchSpan p r (num - 1)
    else some (.inr (num, c :: r))

/-- Width phase of `GetConversionSpecifierChar` (log_info.h:943-956). -/
def searchWidth : List Char → Nat → Option (Char ⊕ (Nat × List Char))
  | [], _ => none
  | c :: r, num =>
    if c = '*' then
      if num = 0 then some (.inl '*') else some (.inr (num - 1, r))
    else searchSpan IsDigit (c :: r) num

/-- Precision phase of `GetConversionSpecifierChar` (log_info.h:958-977). -/
def searchPrecision : List Char → Nat → Option (Char ⊕ (Nat × List Char))
  | [], _ => none
  | c :: r, num =>
    if c = '.' then
      if num = 0 then some (.inl '.')
      else
        match r with
        | [] => none
        | c2 :: r2 =>
          if c2 = '*' then
            if num - 1 = 0 then some (.inl '*') else some (.inr (num - 2, r2))
          else searchSpan IsDigit (c2 :: r2) (num - 1)
    else some (.inr (num, c :: r))

/-- Conversion-letter and NUL slots of `GetConversionSpecifierChar`
(log_info.h:987-1001): after validation the letter is returned at countdown
zero, the inserted terminating NUL at countdown one. -/
def searchConv : List Char → Nat → Option (Char ⊕ (Nat × List Char))
  | [], _ => none
  | c :: r, num =>
    if ¬ IsConversionSpecifier c then none
    else if c = 'n' then none
    else if num = 0 then some (.inl c)
    else if num - 1 = 0 then some (.inl '\x00')
    else some (.inr (num - 2, r))

/-- Chains one search phase into the next: an early answer short-circuits. -/
def searchStep (x : Option (Char ⊕ (Nat × List Char)))
    (k : Nat → List Char → Option (Char ⊕ (Nat × List Char))) :
    Option (Char ⊕ (Nat × List Char)) :=
  match x with
  | none => none
  | some (.inl c) => some (.inl c)
  | some (.inr (n, l)) => k n l

/-- One specifier of `GetConversionSpecifierChar` (log_info.h:930-1001);
`l` is the text following the leading `%`, whose own slot is countdown
zero. -/
def searchSpec (l : List Char) (num : Nat) : Option (Char ⊕ (Nat × List Char)) :=
  if num = 0 then some (.inl '%')
  else
    searchStep (searchSpan IsFlag l (num - 1)) fun n1 l1 =>
    searchStep (searchWidth l1 n1) fun n2 l2 =>
    searchStep (searchPrecision l2 n2) fun n3 l3 =>
    searchStep (searchSpan IsLength l3 n3) fun n4 l4 =>
    searchConv l4 n4

/-- Top-level loop of `GetConversionSpecifierChar` (log_info.h:916-1004);
falling off the end of the format returns `'\0'`. -/
def getConversionSpecifierCharAux : Nat → List Char → Nat → Option Char
  | 0, _, _ => none
  | fuel + 1, l, num =>
    match l with
    | [] => some '\x00'
    | c :: rest =>
      if c = '%' then
        match rest with
        | [] => none
        | c2 :: r =>
          if c2 = '%' then getConversionSpecifierCharAux fuel r num
          else
            match searchSpec (c2 :: r) num with
            | none => none
            | some (.inl ch) => some ch
            | some (.inr (num', r')) => getConversionSpecifierCharAux fuel r' num'
      else getConversionSpecifierCharAux fuel rest num

/-- The translation of `GetConversionSpecifierChar` (log_info.h:913-1005). -/
def getConversionSpecifierChar (fmt : List Char) (num : Nat) : Option Char :=
  getConversionSpecifierCharAux (fmt.length + 1) fmt num

/-- The translation of `MakeConversionStorage` (log_info.h:1019-1044): the
array whose i-th entry is `GetConversionSpecifierChar(fmt, i)`. -/
def makeConversionStorage (storageSize : Nat) (fmt : List Char) : Option (List Char) :=
  optionList ((List.range storageSize).map (getConversionSpecifierChar fmt))

/-! ## GetConversionType (log_info.h:569-738) -/

/-- Classification of a parsed specifier from its length modifiers and
conversion letter, mirroring the if-chains of log_info.h:668-737.  The
`h_cnt`/`l_cnt` counters and the `L/j/z/t` flags are recovered from the
scanned length-modifier run. -/
def classifyConversion (parts : SpecParts) : ConversionType :=
  let h_cnt := parts.lengths.count 'h'
  let l_cnt := parts.lengths.count 'l'
  let L_flag := parts.lengths.contains 'L'
  let j_flag := parts.lengths.contains 'j'
  let z_flag := parts.lengths.contains 'z'
  let t_flag := parts.lengths.contains 't'
  let s := parts.conv
  if s = 'd' ∨ s = 'i' then
    if 2 ≤ h_cnt then .signed_char_t
    else if 2 ≤ l_cnt then .long_long_int_t
    else if 1 ≤ h_cnt then .short_int_t
    else if 1 ≤ l_cnt then .long_int_t
    else if j_flag then .intmax_t_t
    else if z_flag then .size_t_t
    else if t_flag then .ptrdiff_t_t
    else .int_t
  else if s = 'u' ∨ s = 'o' ∨ s = 'x' ∨ s = 'X' then
    if 2 ≤ h_cnt then .unsigned_char_t
    else if 2 ≤ l_cnt then .unsigned_long_long_int_t
    else if 1 ≤ h_cnt then .unsigned_short_int_t
    else if 1 ≤ l_cnt then .unsigned_long_int_t
    else if j_flag then .uintmax_t_t
    else if z_flag then .size_t_t
    else if t_flag then .ptrdiff_t_t
    else .unsigned_int_t
  else if s = 's' then
    if 1 ≤ l_cnt then .const_wchar_t_ptr_t else .const_char_ptr_t
  else if s = 'p' then .const_void_ptr_t
  else if s = 'f' ∨ s = 'F' ∨ s = 'e' ∨ s = 'E' ∨
          s = 'g' ∨ s = 'G' ∨ s = 'a' ∨ s = 'A' then
    if L_flag then .long_double_t else .double_t
  else if s = 'c' then
    if 1 ≤ l_cnt then .wint_t_t else .int_t
  else .NONE

/-- Top-level loop of `GetConversionType` (log_info.h:580-666); falling off
the end leaves `specifier = 0`, classified as `NONE`. -/
def getConversionTypeAux : Nat → List Char → Nat → Option ConversionType
  | 0, _, _ => none
  | _ + 1, [], _ => some .NONE
  | fuel + 1, '%' :: rest, num =>
    match rest with
    | [] => none
    | '%' :: r => getConversionTypeAux fuel r num
    | _ =>
      match consumeSpecifier rest with
      | none => none
      | some (parts, r) =>
        if 0 < num then getConversionTypeAux fuel r (num - 1)
        else some (classifyConversion parts)
  | fuel + 1, _ :: rest, num => getConversionTypeAux fuel rest num

/-- The translation of `GetConversionType` (log_info.h:569-738). -/
def getConversionType (fmt : List Char) (num : Nat) : Option ConversionType :=
  getConversionTypeAux (fmt.length + 1) fmt num

/-! ## Specifier positions and lengths (log_info.h:1061-1178) -/

/-- Top-level loop of `GetConversionSpecifierPosition` (log_info.h:1061-1126);
`pos` is the running byte index; the position returned for the target
specifier is that of its `%`. -/
def getConversionSpecifierPositionAux : Nat → List Char → Nat → Nat → Option Nat
  | 0, _, _, _ => none
  | _ + 1, [], _, pos => some pos
  | fuel + 1, '%' :: rest, num, pos =>
    match rest with
    | [] => none
    | '%' :: r => getConversionSpecifierPositionAux fuel r num (pos + 2)
    | _ =>
      if num = 0 then some pos
      else
        match consumeSpecifier rest with
        | none => none
        | some (parts, r) =>
          getConversionSpecifierPositionAux fuel r (num - 1) (pos + 1 + parts.body.length)
  | fuel + 1, _ :: rest, num, pos => getConversionSpecifierPositionAux fuel rest num (pos + 1)

/-- The translation of `GetConversionSpecifierPosition` (log_info.h:1061-1126). -/
def getConversionSpecifierPosition (fmt : List Char) (num : Nat) : Option Nat :=
  getConversionSpecifierPositionAux (fmt.length + 1) fmt num 0

/-- The loop of `GetConversionSpecifierLength` (log_info.h:1128-1145): length
of the `num`-th NUL-separated run of the storage array. -/
def getConversionSpecifierLengthAux : List Char → Nat → Nat → Nat
  | [], _, len => len
  | c :: r, num, len =>
    if c = '\x00' then
      if num = 0 then len else getConversionSpecifierLengthAux r (num - 1) 0
    else getConversionSpecifierLengthAux r num (len + 1)

/-- The translation of `GetConversionSpecifierLength` (log_info.h:1128-1145). -/
def getConversionSpecifierLength (storage : List Char) (num : Nat) : Nat :=
  getConversionSpecifierLengthAux storage num 0

/-- The loop of `GetConversionSpecifierPositionInStorage`
(log_info.h:1162-1178): index of the `num`-th `%` of the storage array. -/
def getConversionSpecifierPositionInStorageAux : List Char → Nat → Nat → Nat
  | [], _, pos => pos
  | c :: r, num, pos =>
    if c = '%' then
      if num = 0 then pos
      else getConversionSpecifierPositionInStorageAux r (num - 1) (pos + 1)
    else getConversionSpecifierPositionInStorageAux r num (pos + 1)

/-- The translation of `GetConversionSpecifierPositionInStorage`
(log_info.h:1162-1178). -/
def getConversionSpecifierPositionInStorage (storage : List Char) (num : Nat) : Nat :=
  getConversionSpecifierPositionInStorageAux storage num 0

/-- Format descriptor fragment, `struct FormatFragment` (log_info.h:94-109). -/
structure FormatFragment where
  conversion_type : ConversionType
  specifier_length : Nat
  format_pos : Nat
  storage_pos : Nat
  deriving DecidableEq

/-- The translation of `GetFormatFragments` (log_info.h:1198-1234). -/
def getFormatFragments (numFragments : Nat) (fmt : List Char) (storage : List Char) :
    Option (List FormatFragment) :=
  optionList ((List.range numFragments).map fun i => do
    let ct ← getConversionType fmt i
    let pos ← getConversionSpecifierPosition fmt i
    pure { conversion_type := ct,
           specifier_length := getConversionSpecifierLength storage i,
           format_pos := pos,
           storage_pos := getConversionSpecifierPositionInStorage storage i })

/-- NUL-terminated character array of a string literal, as the C++ templates
receive it (`const char (&fmt)[N]` includes the terminating NUL). -/
def cstrArr (s : String) : List Char := s.toList ++ ['\x00']

example : getParamInfo (cstrArr "Hello World") 0 = some .INVALID := by decide
example : getParamInfo (cstrArr "%d") 0 = some .NON_STRING := by decide
example : getParamInfo (cstrArr "%*lf") 0 = some .DYNAMIC_WIDTH := by decide
example : getParamInfo (cstrArr "%*lf") 1 = some .NON_STRING := by decide
example : getParamInfo (cstrArr "%.*lu") 0 = some .DYNAMIC_PRECISION := by decide
example : getParamInfo (cstrArr "%.*s") 1 = some .STRING_WITH_DYNAMIC_PRECISION := by decide
example : getParamInfo (cstrArr "%.23s") 0 = some (.STRING 23) := by decide
example : getParamInfo (cstrArr "%") 0 = none := by decide
example : getParamInfo (cstrArr "%n") 0 = none := by decide
example : getParamInfo (cstrArr "pad%17.31lcing") 0 = some .NON_STRING := by decide
example : formatParametersCount (cstrArr "count: %d\n") = some 1 := by decide
example :
    formatParametersCount (cstrArr "Output a string with dynamic length: %20.*s") = some 2 := by
  decide
example :
    conversionSpecifiersCount (cstrArr "Current time is: %4u-%2u-%2u %2u:%2u:%2u") = some 6 := by
  decide
example : sizeConversionStorageNeeds (cstrArr "Hello World") = some 0 := by decide
example : sizeConversionStorageNeeds (cstrArr "pad%17.31lcing") = some 9 := by decide
example : getConversionType (cstrArr "pad%17.31hding") 0 = some .short_int_t := by decide
example : getConversionType (cstrArr "pad%17.31lcing") 0 = some .wint_t_t := by decide
example : getConversionType (cstrArr "pad%17.31Lfng") 0 = some .long_double_t := by decide
example :
    makeConversionStorage 9 (cstrArr "pad%17.31lcing") = some (cstrArr "%17.31lc") := by decide
example : getConversionSpecifierPosition (cstrArr "pad%17.31lcing") 0 = some 3 := by decide
example : getConversionSpecifierLength (cstrArr "%17.31lc") 0 = 8 := by decide

/-! ## StagingBuffer (buffers.h, buffers.cc)

Raw pointers into the storage region become byte offsets: `storage.get()` is
offset `0`, `storage.get() + capacity_` is offset `capacity`. -/

/-- State of a `StagingBuffer` (buffers.h:165-193). -/
structure StagingBuffer where
  producer_pos : Nat
  end_of_data : Nat
  consumer_pos : Nat
  capacity : Nat
  available_bytes : Nat
  should_be_destructed : Bool
  deriving DecidableEq

/-- Constructor of `StagingBuffer` (buffers.h:58-77). -/
def StagingBuffer.init (capacity : Nat) : StagingBuffer :=
  { producer_pos := 0, end_of_data := capacity, consumer_pos := 0,
    capacity := capacity, available_bytes := capacity,
    should_be_destructed := false }

/-- Outcome of one check-and-body pass of the `while` loop of
`reserveProducerSpaceInternal` (buffers.cc:35-58): a returned write offset, a
returned null (non-blocking failure), or another spin iteration. -/
inductive ReserveOutcome where
  | ptr (offset : Nat) (b : StagingBuffer)
  | null (b : StagingBuffer)
  | spin (b : StagingBuffer)
  deriving DecidableEq

/-- One pass of the loop of `StagingBuffer::reserveProducerSpaceInternal`
(buffers.cc:32-59): the `while` condition is re-checked (its failure returns
`producer_pos_`), then the body runs once.  The blocking spin is modelled by
iterating this step; the consumer may run between iterations. -/
def StagingBuffer.reserveInternalStep (b : StagingBuffer) (num_bytes : Nat)
    (blocking : Bool) : ReserveOutcome :=
  if b.available_bytes > num_bytes then .ptr b.producer_pos b
  else
    let cached := b.consumer_pos
    if cached ≤ b.producer_pos then
      let avail := b.capacity - b.producer_pos
      if avail > num_bytes then .ptr b.producer_pos { b with available_bytes := avail }
      else
        let b1 : StagingBuffer := { b with available_bytes := avail, end_of_data := b.producer_pos }
        let b2 : StagingBuffer :=
          if cached ≠ 0 then { b1 with producer_pos := 0, available_bytes := cached } else b1
        if ¬ blocking ∧ b2.available_bytes ≤ num_bytes then .null b2 else .spin b2
    else
      let b1 : StagingBuffer := { b with available_bytes := cached - b.consumer_pos }
      if ¬ blocking ∧ b1.available_bytes ≤ num_bytes then .null b1 else .spin b1

/-- Fast path of `reserveProducerSpace` (buffers.h:94-104): when the cached
free count strictly exceeds the request the write position is returned at
once; otherwise the caller enters `reserveProducerSpaceInternal`. -/
def StagingBuffer.reserveProducerSpaceFast (b : StagingBuffer) (num_bytes : Nat) : Option Nat :=
  if num_bytes < b.available_bytes then some b.producer_pos else none

/-- The translation of `finishReservation` (buffers.h:113-119). -/
def StagingBuffer.finishReservation (b : StagingBuffer) (num_bytes : Nat) : StagingBuffer :=
  { b with available_bytes := b.available_bytes - num_bytes,
           producer_pos := b.producer_pos + num_bytes }

/-- The translation of `StagingBuffer::peek` (buffers.cc:16-30): returns the
read offset, the available byte count, and the updated buffer state. -/
def StagingBuffer.peek (b : StagingBuffer) : Nat × Nat × StagingBuffer :=
  let cached := b.producer_pos
  if cached < b.consumer_pos then
    let avail := b.end_of_data - b.consumer_pos
    if avail > 0 then (b.consumer_pos, avail, b)
    else
      let b1 : StagingBuffer := { b with consumer_pos := 0 }
      (b1.consumer_pos, cached - b1.consumer_pos, b1)
  else (b.consumer_pos, cached - b.consumer_pos, b)

/-- The translation of `consume` (buffers.h:140-145). -/
def StagingBuffer.consume (b : StagingBuffer) (num_bytes : Nat) : StagingBuffer :=
  { b with consumer_pos := b.consumer_pos + num_bytes }

/-- The destructor of `StagingBuffer::DestructGuard` (buffers.cc:9-14) sets
the destruction mark of its bound buffer at producer-thread exit. -/
def StagingBuffer.markForDestruction (b : StagingBuffer) : StagingBuffer :=
  { b with should_be_destructed := true }

/-- The translation of `shouldBeDestructed` (buffers.h:149-151). -/
def StagingBuffer.shouldBeDestructed (b : StagingBuffer) : Bool :=
  b.should_be_destructed && b.consumer_pos == b.producer_pos

/-- Buffer states reachable from a fresh buffer by the producer and consumer
operations, each under the preconditions the source `assert`s
(buffers.h:96, 114-115, 141). -/
inductive StagingBuffer.Reachable : StagingBuffer → Prop where
  | init (capacity : Nat) : Reachable (StagingBuffer.init capacity)
  | finishRes {b : StagingBuffer} (num_bytes : Nat) :
      Reachable b →
      num_bytes < b.available_bytes →
      b.producer_pos + num_bytes < b.capacity →
      Reachable (b.finishReservation num_bytes)
  | peekStep {b : StagingBuffer} :
      Reachable b → Reachable b.peek.2.2
  | consumeStep {b : StagingBuffer} (num_bytes : Nat) :
      Reachable b →
      b.consumer_pos + num_bytes < b.capacity →
      Reachable (b.consume num_bytes)
  | reservePtr {b b' : StagingBuffer} {num_bytes p : Nat} {blocking : Bool} :
      Reachable b →
      b.reserveInternalStep num_bytes blocking = .ptr p b' →
      Reachable b'
  | reserveNull {b b' : StagingBuffer} {num_bytes : Nat} {blocking : Bool} :
      Reachable b →
      b.reserveInternalStep num_bytes blocking = .null b' →
      Reachable b'
  | reserveSpin {b b' : StagingBuffer} {num_bytes : Nat} {blocking : Bool} :
      Reachable b →
      b.reserveInternalStep num_bytes blocking = .spin b' →
      Reachable b'
  | mark {b : StagingBuffer} : Reachable b → Reachable b.markForDestruction

/-- Scenario of claim C1: capacity 16, producer reserved and committed 10
bytes, consumer peeked and consumed them. -/
def c1Scenario : StagingBuffer :=
  (((StagingBuffer.init 16).finishReservation 10).consume 10)

/-- State after the first pass of the blocking reservation loop: the wrap is
published (`end_of_data = 10`, `producer_pos = 0`). -/
def c1AfterWrap : StagingBuffer :=
  { producer_pos := 0, end_of_data := 10, consumer_pos := 10,
    capacity := 16, available_bytes := 10, should_be_destructed := false }

/-- State after the consumer's next poll snapped `consumer_pos` back to the
storage start. -/
def c1AfterPoll : StagingBuffer := { c1AfterWrap with consumer_pos := 0 }

/-- Final state of the reservation: the full initial region is free again. -/
def c1Done : StagingBuffer := { c1AfterPoll with available_bytes := 16 }

/-- C1: on a capacity-16 staging buffer where the producer committed 10 bytes
and the consumer consumed them, a blocking reservation of 10 further bytes
succeeds via wrap-around: the first pass of the reservation loop publishes
`end_of_data = storage_start + 10` and resets `producer_pos` to the storage
start, the consumer's concurrent poll (`peek`, as `consumerThreadMain` runs
continuously) snaps `consumer_pos` back to the start, and the next pass
returns the write offset with 16 > 10 contiguous writable bytes — neither a
null return nor a permanent spin. -/
theorem reserve_wraps_and_succeeds_after_consume :
    ((StagingBuffer.init 16).reserveProducerSpaceFast 10 = some 0) ∧
    ((StagingBuffer.init 16).finishReservation 10).peek.2.1 = 10 ∧
    c1Scenario.producer_pos = 10 ∧ c1Scenario.consumer_pos = 10 ∧
    c1Scenario.reserveProducerSpaceFast 10 = none ∧
    c1Scenario.reserveInternalStep 10 true = .spin c1AfterWrap ∧
    c1AfterWrap.end_of_data = 10 ∧ c1AfterWrap.producer_pos = 0 ∧
    c1AfterWrap.peek = (0, 0, c1AfterPoll) ∧
    c1AfterPoll.reserveInternalStep 10 true = .ptr 0 c1Done ∧
    10 < c1Done.available_bytes ∧
    c1Done.capacity - c1Done.producer_pos = 16 := by
  decide

/-- C6: `shouldBeDestructed` holds exactly when the destruction mark is set
and `consumer_pos` equals `producer_pos`; and in every reachable buffer state
this condition implies the buffer is empty: a `peek` yields zero available
bytes. -/
theorem destroyable_iff_marked_and_empty (b : StagingBuffer) (hreach : b.Reachable) :
    (b.shouldBeDestructed = true ↔
      (b.should_be_destructed = true ∧ b.consumer_pos = b.producer_pos)) ∧
    (b.shouldBeDestructed = true → b.peek.2.1 = 0) := by
  constructor
  · simp [StagingBuffer.shouldBeDestructed]
  · intro h
    simp only [StagingBuffer.shouldBeDestructed, Bool.and_eq_true, beq_iff_eq] at h
    simp [StagingBuffer.peek, h.2]

/-- Witness for C6 at a concrete reachable state: a fresh capacity-4 buffer
whose producer thread has exited. -/
theorem destroyable_iff_marked_and_empty_witness :
    ((StagingBuffer.init 4).markForDestruction).Reachable ∧
    ((StagingBuffer.init 4).markForDestruction).peek.2.1 = 0 :=
  ⟨.mark (.init 4),
   (destroyable_iff_marked_and_empty _ (.mark (.init 4))).2 (by decide)⟩

/-! ## Logger log level (logger.cc:78-83, logger.h:74-86)

`LogLevel` is an `enum class` over `uint8_t` (log_info.h:22-29) with
NONE = 0, ERROR = 1, WARNING = 2, INFO = 3, DEBUG = 4 and the count sentinel
NUMBER_OF_LOG_LEVELS = 5; levels are modelled by their underlying values. -/

/-- The sentinel `LogLevel::NUMBER_OF_LOG_LEVELS` (log_info.h:28). -/
def NUMBER_OF_LOG_LEVELS : Nat := 5

/-- Stored threshold of the logger, field `current_log_level_`
(logger.h:225). -/
structure LoggerLevelState where
  current_log_level : Nat
  deriving DecidableEq

/-- The translation of `Logger::setLogLevelInternal` (logger.cc:78-83). -/
def setLogLevelInternal (s : LoggerLevelState) (level : Nat) : LoggerLevelState :=
  if NUMBER_OF_LOG_LEVELS ≤ level then
    { current_log_level := NUMBER_OF_LOG_LEVELS - 1 }
  else
    { current_log_level := level }

/-- The translation of `Logger::getLogLevelInternal` (logger.h:155-157),
behind `GetLogLevel` (logger.h:84-86). -/
def getLogLevelInternal (s : LoggerLevelState) : Nat := s.current_log_level

/-- C9: `setLogLevelInternal` clamps every out-of-range `uint8` level value
to DEBUG (= `NUMBER_OF_LOG_LEVELS - 1` = 4), and stores every valid level
unchanged, as observed through `GetLogLevel`. -/
theorem set_log_level_clamps (s : LoggerLevelState) (level : Nat) (h : level < 256) :
    (NUMBER_OF_LOG_LEVELS ≤ level →
      getLogLevelInternal (setLogLevelInternal s level) = 4) ∧
    (level < NUMBER_OF_LOG_LEVELS →
      getLogLevelInternal (setLogLevelInternal s level) = level) := by
  refine ⟨fun hle => ?_, fun hlt => ?_⟩
  · simp only [NUMBER_OF_LOG_LEVELS] at hle
    simp [setLogLevelInternal, getLogLevelInternal, NUMBER_OF_LOG_LEVELS, hle]
  · simp only [NUMBER_OF_LOG_LEVELS] at hlt
    simp [setLogLevelInternal, getLogLevelInternal, NUMBER_OF_LOG_LEVELS, Nat.not_le.mpr hlt]

/-- Witness for C9: the out-of-range value 200 is stored as DEBUG. -/
theorem set_log_level_clamps_witness :
    getLogLevelInternal (setLogLevelInternal ⟨3⟩ 200) = 4 :=
  (set_log_level_clamps ⟨3⟩ 200 (by decide)).1 (by decide)

/-! ## Logger output file (logger.cc:85-106)

The file system is external to the repository; the outcomes of the three
calls `setLogFileInternal` makes are parameters. -/

/-- Outcomes of the system calls of `setLogFileInternal`: whether
`access(filename, F_OK) == 0`, whether `access(filename, R_OK | W_OK) == 0`,
and the descriptor returned by `open(filename, LOG_FILE_FLAGS, 0666)`
(negative on failure). -/
structure FileSysOutcome where
  access_f_ok : Bool
  access_rw_ok : Bool
  open_fd : Int
  deriving DecidableEq

/-- Descriptor state of the logger: the installed `output_fd_` (logger.h:228)
and the descriptors passed to `close` so far. -/
structure LoggerFdState where
  output_fd : Int
  closed : List Int
  deriving DecidableEq

/-- The translation of `Logger::setLogFileInternal` (logger.cc:85-106).  The
second component is `some message` when the C++ throws
`std::ios_base::failure`; the first component is the object state after the
call — both throws precede any mutation, so on a throw the state is returned
unchanged. -/
def setLogFileInternal (fs : FileSysOutcome) (st : LoggerFdState) :
    LoggerFdState × Option String :=
  if fs.access_f_ok = true ∧ fs.access_rw_ok = false then
    (st, some "Unable to read or write file")
  else if fs.open_fd < 0 then
    (st, some "Cannot open file")
  else
    ({ output_fd := fs.open_fd,
       closed := if 0 < st.output_fd then st.closed ++ [st.output_fd] else st.closed },
     none)

/-- C8: when the file cannot be accessed or opened, `setLogFileInternal`
throws and leaves `output_fd_` (indeed the whole descriptor state) unchanged;
only on a successful open does it close the previously installed descriptor
(when positive) and install the new one. -/
theorem set_log_file_error_atomic (fs : FileSysOutcome) (st : LoggerFdState) :
    ((fs.access_f_ok = true ∧ fs.access_rw_ok = false) ∨ fs.open_fd < 0 →
      (setLogFileInternal fs st).2.isSome = true ∧
      (setLogFileInternal fs st).1 = st) ∧
    (¬ ((fs.access_f_ok = true ∧ fs.access_rw_ok = false) ∨ fs.open_fd < 0) →
      (setLogFileInternal fs st).2 = none ∧
      (setLogFileInternal fs st).1.output_fd = fs.open_fd ∧
      (0 < st.output_fd →
        (setLogFileInternal fs st).1.closed = st.closed ++ [st.output_fd])) := by
  constructor
  · intro h
    rcases h with h | h
    · simp [setLogFileInternal, h]
    · by_cases hacc : fs.access_f_ok = true ∧ fs.access_rw_ok = false
      · simp [setLogFileInternal, hacc]
      · simp [setLogFileInternal, hacc, h]
  · intro h
    push_neg at h
    obtain ⟨hacc, hfd⟩ := h
    have hcond : ¬ (fs.access_f_ok = true ∧ fs.access_rw_ok = false) :=
      fun hx => hacc hx.1 hx.2
    have hfd' : ¬ fs.open_fd < 0 := Int.not_lt.mpr hfd
    simp [setLogFileInternal, hcond, hfd']

/-- Witness for C8: with an existing but unwritable file the call throws and
descriptor 1 (stdout) stays installed. -/
theorem set_log_file_error_atomic_witness :
    (setLogFileInternal ⟨true, false, 5⟩ ⟨1, []⟩).2.isSome = true ∧
    (setLogFileInternal ⟨true, false, 5⟩ ⟨1, []⟩).1 = ⟨1, []⟩ :=
  (set_log_file_error_atomic ⟨true, false, 5⟩ ⟨1, []⟩).1 (Or.inl (by decide))

/-! ## The argument codec (log_info.h:1236-1596, olog.h:14-81)

The codec templates are instantiated per argument type; the verified
scenarios use `int` and `const char*` arguments, embedded below.  A string
argument carries its machine address (used only when an argument is
explicitly formatted as a pointer) together with its characters. -/

/-- Argument values at the instantiating C++ types. -/
inductive NativeArg where
  | i32 (v : Int)
  | cstr (addr : Nat) (s : List Char)
  deriving DecidableEq

/-- Instantiated `sizeof` values (LP64: `sizeof(int) = 4`,
`sizeof(char*) = sizeof(size_t) = 8`). -/
def NativeArg.sizeofArg : NativeArg → Nat
  | .i32 _ => 4
  | .cstr _ _ => 8

/-- The translation of `GetParamSize` (log_info.h:1236-1256): a
string-pointer argument contributes `sizeof(void*)` when the parameter is
explicitly non-string and `0` otherwise; any other argument contributes its
own size. -/
def getParamSize (param_type : ParamType) (arg : NativeArg) : Nat :=
  match arg with
  | .cstr _ _ => if param_type.toInt ≤ ParamType.NON_STRING.toInt then 8 else 0
  | .i32 _ => arg.sizeofArg

/-- The translation of `GetParamSizes` (log_info.h:1274-1296). -/
def getParamSizes : List ParamType → List NativeArg → List Nat
  | t :: ts, a :: rest => getParamSize t a :: getParamSizes ts rest
  | _, _ => []

/-- The translation of `AsSizet` (log_info.h:1307-1330): an `int` converts
to `size_t` with the usual wrap modulo 2^64; a pointer is not implicitly
convertible and takes the zero overload. -/
def asSizet (arg : NativeArg) : Nat :=
  match arg with
  | .i32 v => (v % ((2 : Int) ^ 64)).toNat
  | .cstr _ _ => 0

/-- The translation of `GetArgSize` — the generic overload
(log_info.h:1345-1359) for `int` and the `const char*` overload
(log_info.h:1372-1393).  Returns the encoded size together with the updated
`string_size` and `pre_precision` reference parameters. -/
def getArgSize (param_type : ParamType) (string_size pre_precision : Nat)
    (arg : NativeArg) : Nat × Nat × Nat :=
  match arg with
  | .i32 _ =>
    if param_type = .DYNAMIC_PRECISION then (4, string_size, asSizet arg)
    else (4, string_size, pre_precision)
  | .cstr _ s =>
    if param_type.toInt ≤ ParamType.NON_STRING.toInt then
      (8, string_size, pre_precision)
    else
      let len0 := s.length
      let len1 :=
        match param_type with
        | .STRING cap => if cap < len0 then cap else len0
        | .STRING_WITH_DYNAMIC_PRECISION =>
          if pre_precision < len0 then pre_precision else len0
        | _ => len0
      (len1 + 8 + 1, len1, pre_precision)

/-- The translation of `GetArgSizes` (log_info.h:1467-1487): total encoded
argument size, the filled `string_sizes` array, threading `pre_precision`
left to right.  (The C++ leaves a non-string entry of `string_sizes`
uninitialised and never reads it; the model leaves it `0`.) -/
def getArgSizes : List ParamType → Nat → List NativeArg → Nat × List Nat
  | _, _, [] => (0, [])
  | [], _, _ => (0, [])
  | t :: ts, pre, a :: rest =>
    let x := getArgSize t 0 pre a
    let y := getArgSizes ts x.2.2 rest
    (x.1 + y.1, x.2.1 :: y.2)

/-- Little-endian byte image of an unsigned value in `n` bytes (a `memcpy`
of a native object). -/
def leBytes : Nat → Nat → List Nat
  | 0, _ => []
  | n + 1, v => v % 256 :: leBytes n (v / 256)

/-- Two's-complement unsigned image of an `Int` in `bits` bits. -/
def toUnsigned (bits : Nat) (v : Int) : Nat := (v % ((2 : Int) ^ bits)).toNat

/-- The translation of `StoreArgument` (log_info.h:1499-1553): a non-string
argument is stored as its raw bytes; a string parameter stores
`string_size` as a `size_t`, the first `string_size` string bytes, and one
terminating NUL; a string argument explicitly declared non-string stores its
address (log_info.h:1530-1533). -/
def storeArgument (param_type : ParamType) (string_size : Nat) (arg : NativeArg) :
    List Nat :=
  match arg with
  | .i32 v => leBytes 4 (toUnsigned 32 v)
  | .cstr addr s =>
    if param_type.toInt ≤ ParamType.NON_STRING.toInt then
      leBytes 8 addr
    else
      leBytes 8 string_size ++ ((s.map Char.toNat).take string_size) ++ [0]

/-- The translation of `StoreArguments` (log_info.h:1574-1596). -/
def storeArguments : List ParamType → List Nat → List NativeArg → List Nat
  | t :: ts, sz :: szs, a :: rest => storeArgument t sz a ++ storeArguments ts szs rest
  | _, _, _ => []

/-! ## LogAssembler (log_info.h:200-376, log_info.cc:15-387) -/

/-- Values handed to the runtime formatter, one family per arm of the
`switch` in `LogAssembler::write` (log_info.cc:234-346). -/
inductive ArgValue where
  | intVal (v : Int)
  | natVal (v : Nat)
  | floatBits (nbytes : Nat) (raw : Nat)
  | strVal (s : List Char)
  | wstrBytes (b : List Nat)
  | ptrAddr (offset : Nat)
  deriving DecidableEq

/-- The runtime formatter (`snprintf`) is external to the repository: a
renderer maps (stencil, width, precision, value) to the bytes the formatter
would produce, `snprintf`'s return value being their count; `-1` is the
no-width / no-precision sentinel of `tryToWriteArgToBuffer`
(log_info.h:314-334). -/
def Renderer : Type := List Char → Int → Int → ArgValue → List Char

/-- Assemble `n` little-endian bytes from the head of `bytes`; reading past
the end of the record is a failure. -/
def readLE : List Nat → Nat → Option Nat
  | _, 0 => some 0
  | [], _ + 1 => none
  | b :: r, n + 1 => (readLE r n).map (fun v => b + 256 * v)

/-- Signed interpretation of a `bits`-bit unsigned value. -/
def toSigned (bits : Nat) (v : Nat) : Int :=
  if 2 ^ (bits - 1) ≤ v then (v : Int) - 2 ^ bits else v

/-- The translation of the signed-integral `LoadArgument` overload
(log_info.h:1608-1635): reads 1, 2, 4 or 8 bytes sign-extended; any other
size throws. -/
def loadSigned (bytes : List Nat) (nbytes : Nat) : Option Int :=
  if nbytes = 1 ∨ nbytes = 2 ∨ nbytes = 4 ∨ nbytes = 8 then
    (readLE bytes nbytes).map (toSigned (8 * nbytes))
  else none

/-- The translation of the unsigned-integral `LoadArgument` overload
(log_info.h:1647-1674). -/
def loadUnsigned (bytes : List Nat) (nbytes : Nat) : Option Nat :=
  if nbytes = 1 ∨ nbytes = 2 ∨ nbytes = 4 ∨ nbytes = 8 then readLE bytes nbytes
  else none

/-- The `static_cast<_Tp>` a `LoadArgument` caller performs on a signed
target of `bits` bits. -/
def castSigned (bits : Nat) (v : Int) : Int := toSigned bits (toUnsigned bits v)

/-- The `static_cast<_Tp>` on an unsigned target of `bits` bits. -/
def castUnsigned (bits : Nat) (v : Nat) : Nat := v % 2 ^ bits

/-- The translation of the floating `LoadArgument` overload
(log_info.h:1676-1697): the raw object bytes are read (their numeric
reading is the formatter's concern); sizes other than those of `float`,
`double` and `long double` throw. -/
def loadFloatBits (bytes : List Nat) (nbytes : Nat) : Option ArgValue :=
  if nbytes = 4 ∨ nbytes = 8 ∨ nbytes = 16 then
    (readLE bytes nbytes).map (ArgValue.floatBits nbytes)
  else none

/-- The C string at the head of `bytes`: the characters up to the first NUL
(what the formatter dereferences for `%s`). -/
def cStringAt (bytes : List Nat) : List Char :=
  (bytes.takeWhile (fun b => b != 0)).map Char.ofNat

/-- The descriptor `struct StaticLogInfo` (log_info.h:123-176).  `filename`
and `line_number` reach the assembler only through the precomputed
`filename_and_linenum_` string; `log_level` is the underlying uint8
value. -/
structure StaticLogInfo where
  log_level : Nat
  format_len : Nat
  num_conversions : Nat
  num_parameters : Nat
  format_str : List Char
  conversion_storage : List Char
  format_fragments : List FormatFragment
  param_types : List ParamType
  param_sizes : List Nat
  deriving DecidableEq

/-- Mutable state of the `LogAssembler` (log_info.h:336-375).  `buffer` is
the committed output — the bytes between the installed region's start and
`write_pos_` — so `write_pos_` is its end and the source's control decisions
depend on the region only through `writed_count_` and `buffer_size_`. -/
structure AsmState where
  buffer : List Char
  buffer_size : Nat
  writed_count : Nat
  bytes_last_writed : Nat
  conversion_index : Nat
  parameter_index : Nat
  format_index : Nat
  args_read_pos : Nat
  is_full : Bool
  is_timestamp_writed : Bool
  is_filename_and_linenum_writed : Bool
  is_severity_writed : Bool
  is_producer_id_writed : Bool
  is_end_of_log_writed : Bool
  deriving DecidableEq

/-- The information `loadLogInfo` (log_info.h:216-224) binds before `write`
runs: the descriptor, the record's argument bytes, and the precomputed
strings. -/
structure LoadedInfo where
  static : StaticLogInfo
  arg_data : List Nat
  timestamp_str : List Char
  filename_and_linenum : List Char
  producer_id : List Char
  end_of_log : List Char
  deriving DecidableEq

/-- Decimal digits of a natural number, the model of `std::to_string`. -/
def natDecimalAux : Nat → Nat → List Char → List Char
  | 0, _, acc => acc
  | fuel + 1, n, acc =>
    if n < 10 then Char.ofNat (48 + n) :: acc
    else natDecimalAux fuel (n / 10) (Char.ofNat (48 + n % 10) :: acc)

/-- Decimal rendering of a natural number. -/
def natDecimal (n : Nat) : List Char := natDecimalAux (n + 1) n []

/-- The `filename:linenum ` string `loadStaticInfo` precomputes
(log_info.cc:34-41). -/
def mkFilenameLinenum (filename : List Char) (line_number : Nat) : List Char :=
  filename ++ ':' :: natDecimal line_number ++ [' ']

/-- The three millisecond digits `loadDynamicInfo` appends
(log_info.cc:62-68); `%` on `int64_t` is the truncated `Int.tmod`. -/
def msDigits (ms_timestamp : Int) : List Char :=
  let m := (ms_timestamp.tmod 1000).toNat
  [Char.ofNat (48 + m / 100), Char.ofNat (48 + m % 100 / 10), Char.ofNat (48 + m % 10)]

/-- The timestamp string `loadDynamicInfo` precomputes (log_info.cc:60-69):
the `strftime("%Y-%m-%d %H:%M:%S.", localtime(..))` text — environment
dependent (local time), hence the parameter `date_time_part`, 20 characters
when it fits — followed by the millisecond digits and a blank. -/
def mkTimestampStr (date_time_part : List Char) (ms_timestamp : Int) : List Char :=
  date_time_part ++ msDigits ms_timestamp ++ [' ']

/-- The `[producer_id]: ` string `setProducerId` precomputes
(log_info.cc:86-98). -/
def mkProducerId (id : Nat) : List Char :=
  '[' :: natDecimal id ++ ']' :: ':' :: [' ']

/-- The severity strings of `LogAssembler::write` (log_info.cc:130-135). -/
def severityTable : List (List Char) :=
  ["[<none>]".toList, "[ERROR]".toList, "[WARNING]".toList,
   "[INFO]".toList, "[DEBUG]".toList]

/-- The effect of `loadLogInfo` (log_info.h:216-224) on the loaded data:
bind the static descriptor, the record (argument bytes, millisecond
timestamp) and the producer id, precomputing the prefix strings
(log_info.cc:29-98). -/
def mkLoadedInfo (sinfo : StaticLogInfo) (filename : List Char) (line_number : Nat)
    (date_time_part : List Char) (ms_timestamp : Int) (arg_data : List Nat)
    (producer_id : Nat) : LoadedInfo :=
  { static := sinfo, arg_data := arg_data,
    timestamp_str := mkTimestampStr date_time_part ms_timestamp,
    filename_and_linenum := mkFilenameLinenum filename line_number,
    producer_id := mkProducerId producer_id,
    end_of_log := "\r\n".toList }

/-- The translation of `setBuffer` (log_info.h:210-214): install a fresh
region and zero `writed_count_`.  Note that `is_full_` is not touched. -/
def AsmState.setBuffer (st : AsmState) (size : Nat) : AsmState :=
  { st with buffer := [], buffer_size := size, writed_count := 0 }

/-- The translation of `getFreeBytes` (log_info.h:243). -/
def AsmState.getFreeBytes (st : AsmState) : Nat := st.buffer_size - st.writed_count

/-- The translation of `resetIndices` and `resetFlags` (log_info.h:273-283)
plus the argument-cursor reset of `loadDynamicInfo` (log_info.cc:78), the
state part of `loadLogInfo`.  `is_full_` is not among the reset flags. -/
def AsmState.loadLogInfo (st : AsmState) : AsmState :=
  { st with conversion_index := 0, parameter_index := 0, format_index := 0,
            args_read_pos := 0,
            is_timestamp_writed := false, is_filename_and_linenum_writed := false,
            is_severity_writed := false, is_producer_id_writed := false,
            is_end_of_log_writed := false }

/-- Fresh assembler (constructor log_info.cc:15-27) bound to a `size`-byte
region with a record loaded. -/
def AsmState.initial (size : Nat) : AsmState :=
  { buffer := [], buffer_size := size, writed_count := 0, bytes_last_writed := 0,
    conversion_index := 0, parameter_index := 0, format_index := 0, args_read_pos := 0,
    is_full := false, is_timestamp_writed := false,
    is_filename_and_linenum_writed := false, is_severity_writed := false,
    is_producer_id_writed := false, is_end_of_log_writed := false }

/-- The translation of `hasRemainingData` (log_info.h:235-239) once both
infos are loaded (the null checks cannot fire then). -/
def AsmState.hasRemainingData (st : AsmState) : Bool := ! st.is_end_of_log_writed

/-- The translation of `finishWriting` (log_info.h:285-289). -/
def AsmState.finishWriting (st : AsmState) (bytes_writed : Nat) : AsmState :=
  { st with bytes_last_writed := st.bytes_last_writed + bytes_writed,
            writed_count := st.writed_count + bytes_writed }

/-- The translation of `tryToWriteAStringToBuffer` (log_info.h:302-312).
The `memcpy` is the buffer append; the counters move in the caller's
`finishWriting`. -/
def AsmState.tryToWriteAStringToBuffer (st : AsmState) (src : List Char) :
    Nat × AsmState :=
  if st.is_full then (0, st)
  else if st.getFreeBytes ≤ src.length then (0, { st with is_full := true })
  else (src.length, { st with buffer := st.buffer ++ src })

/-- The translation of `tryToWriteArgToBuffer` (log_info.h:314-334): the
rendered length is `snprintf`'s return value; output meeting or exceeding
the free space is rejected (the truncated bytes `snprintf` placed are then
never committed). -/
def AsmState.tryToWriteArgToBuffer (st : AsmState) (render : Renderer)
    (fmt : List Char) (width precision : Int) (arg : ArgValue) : Nat × AsmState :=
  let rendered := render fmt width precision arg
  if st.getFreeBytes ≤ rendered.length then (0, { st with is_full := true })
  else (rendered.length, { st with buffer := st.buffer ++ rendered })

/-- Loaded value for the non-string arms of the argument `switch`
(log_info.cc:234-322): each arm reads `arg_size` bytes through the matching
`LoadArgument` overload and casts to the arm's native type. -/
def loadSwitchValue (ct : ConversionType) (bytes : List Nat) (arg_size : Nat) :
    Option ArgValue :=
  match ct with
  | .unsigned_char_t => (loadUnsigned bytes arg_size).map (fun v => .natVal (castUnsigned 8 v))
  | .unsigned_short_int_t => (loadUnsigned bytes arg_size).map (fun v => .natVal (castUnsigned 16 v))
  | .unsigned_int_t => (loadUnsigned bytes arg_size).map (fun v => .natVal (castUnsigned 32 v))
  | .unsigned_long_int_t => (loadUnsigned bytes arg_size).map (fun v => .natVal (castUnsigned 64 v))
  | .unsigned_long_long_int_t => (loadUnsigned bytes arg_size).map (fun v => .natVal (castUnsigned 64 v))
  | .uintmax_t_t => (loadUnsigned bytes arg_size).map (fun v => .natVal (castUnsigned 64 v))
  | .size_t_t => (loadUnsigned bytes arg_size).map (fun v => .natVal (castUnsigned 64 v))
  | .wint_t_t => (loadUnsigned bytes arg_size).map (fun v => .natVal (castUnsigned 32 v))
  | .signed_char_t => (loadSigned bytes arg_size).map (fun v => .intVal (castSigned 8 v))
  | .short_int_t => (loadSigned bytes arg_size).map (fun v => .intVal (castSigned 16 v))
  | .int_t => (loadSigned bytes arg_size).map (fun v => .intVal (castSigned 32 v))
  | .long_int_t => (loadSigned bytes arg_size).map (fun v => .intVal (castSigned 64 v))
  | .long_long_int_t => (loadSigned bytes arg_size).map (fun v => .intVal (castSigned 64 v))
  | .intmax_t_t => (loadSigned bytes arg_size).map (fun v => .intVal (castSigned 64 v))
  | .ptrdiff_t_t => (loadSigned bytes arg_size).map (fun v => .intVal (castSigned 64 v))
  | .double_t => loadFloatBits bytes arg_size
  | .long_double_t => loadFloatBits bytes arg_size
  | _ => none

/-- Dynamic width / dynamic precision load of the specifier branch
(log_info.cc:185-222): read an `int` of the recorded parameter size, advance
the argument cursor and the parameter index. -/
def loadDynamicInt (info : LoadedInfo) (st : AsmState) : Option (Int × AsmState) :=
  let sz := info.static.param_sizes.getD st.parameter_index 0
  match loadSigned (info.arg_data.drop st.args_read_pos) sz with
  | none => none
  | some v =>
    some ((castSigned 32 v : Int),
      { st with args_read_pos := st.args_read_pos + sz,
                parameter_index := st.parameter_index + 1 })

/-- The argument `switch` of the specifier branch (log_info.cc:227-346):
returns `tmp`, the possibly reassigned `arg_size`, and the state.  The
string arms load the stored length, pass the bytes after it to the formatter
and advance the cursor past the segment. -/
def writeArgSwitch (render : Renderer) (info : LoadedInfo) (fragment : FormatFragment)
    (width precision : Int) (st : AsmState) : Option (Nat × Nat × AsmState) :=
  let conversion_fmt :=
    (info.static.conversion_storage.drop fragment.storage_pos).takeWhile (fun c => c != '\x00')
  let arg_size := info.static.param_sizes.getD st.parameter_index 0
  match fragment.conversion_type with
  | .const_void_ptr_t =>
    let x := st.tryToWriteArgToBuffer render conversion_fmt width precision
      (.ptrAddr st.args_read_pos)
    some (x.1, arg_size, x.2)
  | .const_char_ptr_t =>
    match loadUnsigned (info.arg_data.drop st.args_read_pos) 8 with
    | none => none
    | some len =>
      let st1 : AsmState := { st with args_read_pos := st.args_read_pos + 8 }
      let x := st1.tryToWriteArgToBuffer render conversion_fmt width precision
        (.strVal (cStringAt (info.arg_data.drop st1.args_read_pos)))
      some (x.1, len, { x.2 with args_read_pos := x.2.args_read_pos + len + 1 })
  | .const_wchar_t_ptr_t =>
    match loadUnsigned (info.arg_data.drop st.args_read_pos) 8 with
    | none => none
    | some len =>
      let st1 : AsmState := { st with args_read_pos := st.args_read_pos + 8 }
      let x := st1.tryToWriteArgToBuffer render conversion_fmt width precision
        (.wstrBytes (info.arg_data.drop st1.args_read_pos))
      some (x.1, len, { x.2 with args_read_pos := x.2.args_read_pos + len + 1 })
  | .NONE => some (0, arg_size, st)
  | ct =>
    match loadSwitchValue ct (info.arg_data.drop st.args_read_pos) arg_size with
    | none => none
    | some v =>
      let x := st.tryToWriteArgToBuffer render conversion_fmt width precision v
      some (x.1, arg_size, x.2)

/-- The specifier branch of the body loop (log_info.cc:176-361): dynamic
width and precision, the argument `switch`, then either the rollback
(`Sum.inl`, a `return` out of `write`, log_info.cc:348-353) or the success
advance (`Sum.inr`, log_info.cc:355-360).  The `none` outcome is a
`LoadArgument` throw escaping the `noexcept`. -/
def writeOneSpecifier (render : Renderer) (info : LoadedInfo)
    (fragment : FormatFragment) (st : AsmState) : Option (AsmState ⊕ AsmState) :=
  let oc := st.conversion_index
  let op := st.parameter_index
  let orp := st.args_read_pos
  match
    if info.static.param_types.getD st.parameter_index .INVALID = .DYNAMIC_WIDTH then
      loadDynamicInt info st
    else some ((-1 : Int), st) with
  | none => none
  | some (width, st) =>
    match
      if info.static.param_types.getD st.parameter_index .INVALID = .DYNAMIC_PRECISION then
        loadDynamicInt info st
      else some ((-1 : Int), st) with
    | none => none
    | some (precision, st) =>
      match writeArgSwitch render info fragment width precision st with
      | none => none
      | some (tmp, arg_size, st) =>
        if tmp = 0 ∧ 0 < arg_size then
          some (.inl { st with conversion_index := oc, parameter_index := op,
                               args_read_pos := orp })
        else
          let st := st.finishWriting tmp
          some (.inr { st with
            args_read_pos :=
              st.args_read_pos + info.static.param_sizes.getD st.parameter_index 0,
            conversion_index := st.conversion_index + 1,
            parameter_index := st.parameter_index + 1,
            format_index := st.format_index + fragment.specifier_length })

/-- Result of the body loop of `write`: `ret` models a
`return bytes_last_writed_` from inside the loop, `done` the loop condition
turning false. -/
inductive BodyResult where
  | ret (st : AsmState)
  | done (st : AsmState)
  deriving DecidableEq

/-- The assembler state a body-loop result carries. -/
def BodyResult.state : BodyResult → AsmState
  | .ret s => s
  | .done s => s

/-- The body `while` loop of `write` (log_info.cc:159-374).  `fuel` bounds
the iteration count; `none` models a loop that does not finish within it. -/
def writeBody (render : Renderer) (info : LoadedInfo) : Nat → AsmState → Option BodyResult
  | 0, _ => none
  | fuel + 1, st =>
    if st.format_index < info.static.format_len then
      if st.conversion_index < info.static.num_conversions then
        let fragment := info.static.format_fragments.getD st.conversion_index ⟨.NONE, 0, 0, 0⟩
        if st.format_index < fragment.format_pos then
          -- literal run before the next specifier (log_info.cc:165-173)
          let len := fragment.format_pos - st.format_index
          let x := st.tryToWriteAStringToBuffer
            ((info.static.format_str.drop st.format_index).take len)
          if x.1 = 0 then some (.ret x.2)
          else
            let st' := x.2.finishWriting x.1
            writeBody render info fuel { st' with format_index := st'.format_index + x.1 }
        else
          -- specifier expansion (log_info.cc:176-361)
          match writeOneSpecifier render info fragment st with
          | none => none
          | some (.inl st') => some (.ret st')
          | some (.inr st') => writeBody render info fuel st'
      else
        -- trailing literal, no specifier left (log_info.cc:365-373)
        let len := info.static.format_len - st.format_index
        let x := st.tryToWriteAStringToBuffer
          ((info.static.format_str.drop st.format_index).take len)
        if x.1 = 0 then some (.ret x.2)
        else
          let st' := x.2.finishWriting x.1
          writeBody render info fuel { st' with format_index := st'.format_index + x.1 }
    else some (.done st)

/-- One atomic prefix phase of `write` (log_info.cc:107-156): when `flag` is
still unset, try to write `src` whole; a failed try returns out of
`write`. -/
def writePhase (st : AsmState) (flag : Bool) (src : List Char)
    (setFlag : AsmState → AsmState) : AsmState ⊕ AsmState :=
  if flag then .inr st
  else
    let x := st.tryToWriteAStringToBuffer src
    if x.1 = 0 then .inl x.2
    else .inr (setFlag (x.2.finishWriting x.1))

/-- The translation of `LogAssembler::write` (log_info.cc:100-387).  The
returned byte count is `bytes_last_writed`; `none` models a body loop
exceeding `fuel` iterations (impossible for well-formed descriptors) or a
`LoadArgument` throw escaping the `noexcept` (process termination). -/
def write (render : Renderer) (info : LoadedInfo) (fuel : Nat) (st : AsmState) :
    Option AsmState :=
  if st.is_full then some st
  else
    let st := { st with bytes_last_writed := 0 }
    match writePhase st st.is_timestamp_writed info.timestamp_str
        (fun s => { s with is_timestamp_writed := true }) with
    | .inl st => some st
    | .inr st =>
    match writePhase st st.is_filename_and_linenum_writed info.filename_and_linenum
        (fun s => { s with is_filename_and_linenum_writed := true }) with
    | .inl st => some st
    | .inr st =>
    match writePhase st st.is_severity_writed (severityTable.getD info.static.log_level [])
        (fun s => { s with is_severity_writed := true }) with
    | .inl st => some st
    | .inr st =>
    match writePhase st st.is_producer_id_writed info.producer_id
        (fun s => { s with is_producer_id_writed := true }) with
    | .inl st => some st
    | .inr st =>
    match writeBody render info fuel st with
    | none => none
    | some (.ret st) => some st
    | some (.done st) =>
      match writePhase st st.is_end_of_log_writed info.end_of_log
          (fun s => { s with is_end_of_log_writed := true }) with
      | .inl st => some st
      | .inr st => some st

/-! ## Concrete formatter model and scenario descriptors -/

/-- Decimal rendering of an `Int` (the formatter's `%d`). -/
def intDecimal (v : Int) : List Char :=
  if v < 0 then '-' :: natDecimal v.natAbs else natDecimal v.natAbs

/-- Modelled from the spec: the runtime formatter the assembler drives — the
C library `snprintf`, external to this repository — restricted to the
stencils the concrete scenarios use: `%d` renders the decimal integer and
`%.*s` renders the string truncated to the dynamic precision (spec 4.E:
"invoke the runtime-supplied specifier-driven formatter using the stencil
..., passing (width, precision, value)"). -/
def snprintfModel : Renderer := fun fmt width precision arg =>
  if fmt = "%d".toList then
    match arg with
    | .intVal v => intDecimal v
    | _ => []
  else if fmt = "%.*s".toList then
    match arg with
    | .strVal s => if width = -1 ∧ 0 ≤ precision then s.take precision.toNat else []
    | _ => []
  else []

/-- Modelled from the spec: the `strftime("%Y-%m-%d %H:%M:%S.", localtime)`
text for the scenario timestamp 1700000000000, which the spec fixes as
2023-11-14 22:13:20.000 UTC while noting that the local-time rendering is
environment dependent; this is the UTC environment's rendering, and no claim
under test depends on its content. -/
def dtpScenario : List Char := "2023-11-14 22:13:20.".toList

/-- Format array of the C2 scenario, `"Hello %d World\n"` — 15 characters
plus the terminating NUL, so `_FormatLength = 16`. -/
def fmtC2 : List Char := cstrArr "Hello %d World\n"

/-- Parameter types of the C2 callsite, as the `OLOG` macro computes them
(olog.h:124-127). -/
def paramTypesC2 : List ParamType := (analyzeFormatParameters 1 fmtC2).getD []

/-- Conversion storage of the C2 callsite (olog.h:130-132). -/
def storageC2 : List Char := (makeConversionStorage 3 fmtC2).getD []

/-- Format fragments of the C2 callsite (olog.h:134-138). -/
def fragmentsC2 : List FormatFragment := (getFormatFragments 1 fmtC2 storageC2).getD []

example : fmtC2.length = 16 := by decide
example : formatParametersCount fmtC2 = some 1 := by decide
example : conversionSpecifiersCount fmtC2 = some 1 := by decide
example : sizeConversionStorageNeeds fmtC2 = some 3 := by decide
example : paramTypesC2 = [.NON_STRING] := by decide
example : storageC2 = ['%', 'd', '\x00'] := by decide

/-- Descriptor of the C2 callsite: file `a.cc` line 10, severity INFO (= 3),
with the sizes the first invocation's `int` argument produces
(olog.h:32-40). -/
def staticC2 : StaticLogInfo :=
  { log_level := 3, format_len := 16, num_conversions := 1, num_parameters := 1,
    format_str := fmtC2, conversion_storage := storageC2,
    format_fragments := fragmentsC2, param_types := paramTypesC2,
    param_sizes := getParamSizes paramTypesC2 [NativeArg.i32 42] }

/-- Encoded argument bytes of the C2 record, produced by the
`GetArgSizes`/`StoreArguments` chain of `Log` (olog.h:45-73) on the single
argument `42`. -/
def argDataC2 : List Nat :=
  storeArguments paramTypesC2 (getArgSizes paramTypesC2 0 [NativeArg.i32 42]).2
    [NativeArg.i32 42]

/-- Loaded assembler input of the C2 scenario: producer id 0, millisecond
timestamp 1700000000000. -/
def infoC2 (dtp : List Char) : LoadedInfo :=
  mkLoadedInfo staticC2 "a.cc".toList 10 dtp 1700000000000 argDataC2 0

/-- C2 counterexample: assembling the C2 record (format `"Hello %d World\n"`,
argument 42, severity INFO, `a.cc:10`, producer 0, timestamp ending in 000)
into a 200-byte buffer yields a line in which `a.cc:10 [INFO][0]: Hello 42
World` is followed by the format's own `\n` and a copied NUL terminator
before `\r\n` — the byte sequence the claim requires (the text followed
immediately by `\r\n`) does not occur in the output. -/
theorem hello_world_lacks_claimed_terminator :
    ((write snprintfModel (infoC2 dtpScenario) 8 (.initial 200)).map AsmState.buffer =
      some (dtpScenario ++ "000 a.cc:10 [INFO][0]: Hello 42 World\n\x00\r\n".toList)) ∧
    ¬ ("a.cc:10 [INFO][0]: Hello 42 World\r\n".toList <:+:
        (dtpScenario ++ "000 a.cc:10 [INFO][0]: Hello 42 World\n\x00\r\n".toList)) :=
  ⟨by decide, by decide⟩

/-- C2 amended: the assembled output is the timestamp (date-time text, then
milliseconds `000` and a blank) followed by `a.cc:10 [INFO][0]: Hello 42
World`, the format's trailing `\n`, one NUL byte (the format array's
terminator, copied because `format_len_` counts it), and `\r\n`; and the
millisecond digits render as `000` for every nonnegative timestamp that is a
whole second. -/
theorem hello_world_output_amended :
    ((write snprintfModel (infoC2 dtpScenario) 8 (.initial 200)).map AsmState.buffer =
      some (dtpScenario ++ "000 a.cc:10 [INFO][0]: Hello 42 World\n\x00\r\n".toList)) ∧
    (∀ ms : Int, 0 ≤ ms → ms.tmod 1000 = 0 → msDigits ms = ['0', '0', '0']) := by
  refine ⟨by decide, fun ms h0 hm => ?_⟩
  simp [msDigits, hm]

/-- Witness for the C2 amended theorem at the scenario timestamp. -/
theorem hello_world_output_amended_witness :
    msDigits 1700000000000 = ['0', '0', '0'] :=
  hello_world_output_amended.2 1700000000000 (by decide) (by decide)

/-- Format array of the C7 scenario, `"val=%.*s|"` (10 bytes with NUL). -/
def fmtC7 : List Char := cstrArr "val=%.*s|"

/-- Arguments of the C7 scenario: dynamic precision 3 and the string
`"abcdef"` (its address is irrelevant to the scenario). -/
def argsC7 : List NativeArg := [NativeArg.i32 3, NativeArg.cstr 7777 "abcdef".toList]

/-- Parameter types of the C7 callsite. -/
def paramTypesC7 : List ParamType := (analyzeFormatParameters 2 fmtC7).getD []

/-- Conversion storage of the C7 callsite. -/
def storageC7 : List Char := (makeConversionStorage 5 fmtC7).getD []

/-- Format fragments of the C7 callsite. -/
def fragmentsC7 : List FormatFragment := (getFormatFragments 1 fmtC7 storageC7).getD []

/-- The `string_sizes` array `GetArgSizes` fills for the C7 arguments
(olog.h:45-55). -/
def stringSizesC7 : List Nat := (getArgSizes paramTypesC7 0 argsC7).2

example : fmtC7.length = 10 := by decide
example : formatParametersCount fmtC7 = some 2 := by decide
example : conversionSpecifiersCount fmtC7 = some 1 := by decide
example : sizeConversionStorageNeeds fmtC7 = some 5 := by decide
example : paramTypesC7 = [.DYNAMIC_PRECISION, .STRING_WITH_DYNAMIC_PRECISION] := by decide
example : storageC7 = cstrArr "%.*s" := by decide

/-- Descriptor of the C7 callsite. -/
def staticC7 : StaticLogInfo :=
  { log_level := 3, format_len := 10, num_conversions := 1, num_parameters := 2,
    format_str := fmtC7, conversion_storage := storageC7,
    format_fragments := fragmentsC7, param_types := paramTypesC7,
    param_sizes := getParamSizes paramTypesC7 argsC7 }

/-- Encoded argument bytes of the C7 record. -/
def argDataC7 : List Nat := storeArguments paramTypesC7 stringSizesC7 argsC7

/-- Loaded assembler input of the C7 scenario. -/
def infoC7 (dtp : List Char) : LoadedInfo :=
  mkLoadedInfo staticC7 "a.cc".toList 10 dtp 1700000000000 argDataC7 0

/-- C7 counterexample: the assembled body of `"val=%.*s|"` with arguments
`(3, "abcdef")` is not exactly `val=abc|` — the copied format-terminator NUL
follows it, so `val=abc|` directly followed by the line end does not occur
in the output. -/
theorem dynamic_precision_body_not_exact :
    ((write snprintfModel (infoC7 dtpScenario) 8 (.initial 200)).map AsmState.buffer =
      some (dtpScenario ++ "000 a.cc:10 [INFO][0]: val=abc|\x00\r\n".toList)) ∧
    ¬ ("val=abc|\r\n".toList <:+:
        (dtpScenario ++ "000 a.cc:10 [INFO][0]: val=abc|\x00\r\n".toList)) :=
  ⟨by decide, by decide⟩

/-- C7 amended: the string argument is encoded as claimed — `string_size`
is the dynamic precision 3, the segment after the 4-byte precision argument
is `[u64 = 3]['a']['b']['c'][0x00]` with the terminating NUL excluded from
the stored length, and the record totals 16 bytes — while the assembled body
is `val=abc|` followed by one NUL byte (the copied format-array
terminator). -/
theorem dynamic_precision_encoding_amended :
    (stringSizesC7 = [0, 3]) ∧
    (argDataC7 = leBytes 4 3 ++ (leBytes 8 3 ++ [97, 98, 99, 0])) ∧
    ((getArgSizes paramTypesC7 0 argsC7).1 = 16) ∧
    ((write snprintfModel (infoC7 dtpScenario) 8 (.initial 200)).map AsmState.buffer =
      some (dtpScenario ++ "000 a.cc:10 [INFO][0]: val=abc|\x00\r\n".toList)) := by
  decide

/-- Format array of the C3 escape scenario, `"a%%b"`. -/
def fmtC3 : List Char := cstrArr "a%%b"

example : formatParametersCount fmtC3 = some 0 := by decide
example : conversionSpecifiersCount fmtC3 = some 0 := by decide
example : sizeConversionStorageNeeds fmtC3 = some 0 := by decide

/-- Descriptor of the C3 callsite: no conversions, no parameters. -/
def staticC3 : StaticLogInfo :=
  { log_level := 3, format_len := 5, num_conversions := 0, num_parameters := 0,
    format_str := fmtC3, conversion_storage := [],
    format_fragments := [], param_types := [], param_sizes := [] }

/-- Loaded assembler input of the C3 scenario (no arguments). -/
def infoC3 (dtp : List Char) : LoadedInfo :=
  mkLoadedInfo staticC3 "a.cc".toList 10 dtp 1700000000000 [] 0

/-- C3 counterexample: assembling `"a%%b"` emits the escape verbatim — the
output contains `a%%b` (two per-cent characters) and does not contain `a%b`,
so the body does not emit a single `%` for the escape. -/
theorem percent_escape_copied_verbatim :
    ((write snprintfModel (infoC3 dtpScenario) 8 (.initial 200)).map AsmState.buffer =
      some (dtpScenario ++ "000 a.cc:10 [INFO][0]: a%%b\x00\r\n".toList)) ∧
    ("a%%b".toList <:+:
      (dtpScenario ++ "000 a.cc:10 [INFO][0]: a%%b\x00\r\n".toList)) ∧
    ¬ ("a%b".toList <:+:
      (dtpScenario ++ "000 a.cc:10 [INFO][0]: a%%b\x00\r\n".toList)) :=
  ⟨by decide, by decide, by decide⟩

/-! ## The storage round-trip (claim C5) -/

/-- NUL-separated tokens of a byte string: the maximal NUL-free runs, one
per terminating NUL (the reading a consumer of the packed specifier storage
applies to it). -/
def nulTokens : List Char → List (List Char)
  | [] => []
  | c :: r =>
    if c = '\x00' then [] :: nulTokens r
    else
      match nulTokens r with
      | [] => [[c]]
      | t :: ts => (c :: t) :: ts

theorem nulTokens_append (tok rest : List Char) (h : '\x00' ∉ tok) :
    nulTokens (tok ++ '\x00' :: rest) = tok :: nulTokens rest := by
  induction tok with
  | nil => simp [nulTokens]
  | cons c t ih =>
    have hc : ¬ c = '\x00' := fun hh => h (hh ▸ List.mem_cons_self c t)
    have ht : '\x00' ∉ t := fun hh => h (List.mem_cons_of_mem c hh)
    show nulTokens (c :: (t ++ '\x00' :: rest)) = (c :: t) :: nulTokens rest
    simp only [nulTokens, if_neg hc]
    rw [ih ht]

theorem nulTokens_flatten (specs : List (List Char))
    (h : ∀ s ∈ specs, '\x00' ∉ s) :
    nulTokens ((specs.map (fun s => s ++ ['\x00'])).flatten) = specs := by
  induction specs with
  | nil => rfl
  | cons s t ih =>
    simp only [List.map_cons, List.flatten_cons, List.append_assoc,
      List.singleton_append]
    rw [nulTokens_append s _ (h s (List.mem_cons_self s t)),
      ih (fun y hy => h y (List.mem_cons_of_mem s hy))]

theorem getD_here (a b : List Char) (n : Nat) (d : Char) (h : n < a.length) :
    (a ++ b).getD n d = a.getD n d :=
  List.getD_append a b d n h

theorem getD_skip (a b : List Char) (n : Nat) (d : Char) :
    (a ++ b).getD (a.length + n) d = b.getD n d := by
  induction a with
  | nil => simp
  | cons c t ih =>
    show (c :: (t ++ b)).getD (t.length + 1 + n) d = b.getD n d
    have harith : t.length + 1 + n = (t.length + n) + 1 := by omega
    rw [harith, List.getD_cons_succ, ih]

theorem range_map_getD (l : List Char) (d : Char) :
    (List.range l.length).map (fun i => l.getD i d) = l := by
  apply List.ext_getElem
  · simp
  · intro i h1 h2
    simp only [List.getElem_map, List.getElem_range]
    exact List.getD_eq_getElem l d h2

theorem optionList_map {α β : Type} (xs : List α) (f : α → Option β) (g : α → β)
    (h : ∀ x ∈ xs, f x = some (g x)) :
    optionList (xs.map f) = some (xs.map g) := by
  induction xs with
  | nil => rfl
  | cons x t ih =>
    simp only [List.map_cons]
    rw [h x (List.mem_cons_self x t)]
    show (optionList (t.map f)).map (g x :: ·) = _
    rw [ih (fun y hy => h y (List.mem_cons_of_mem x hy))]
    rfl

/-- Unpacking the phase chain of `consumeSpecifier`. -/
theorem consumeSpecifier_inv (l : List Char) (parts : SpecParts) (r : List Char)
    (h : consumeSpecifier l = some (parts, r)) :
    ∃ l1 l2 l3 l4,
      scanWhile IsFlag l = some (parts.flags, l1) ∧
      scanWidth l1 = some (parts.width, l2) ∧
      scanPrecision l2 = some (parts.precision, l3) ∧
      scanWhile IsLength l3 = some (parts.lengths, l4) ∧
      checkConversionChar l4 = some (parts.conv, r) := by
  unfold consumeSpecifier at h
  cases h1 : scanWhile IsFlag l with
  | none => rw [h1] at h; exact Option.noConfusion h
  | some x1 =>
    obtain ⟨fs, l1⟩ := x1
    rw [h1] at h
    dsimp only at h
    cases h2 : scanWidth l1 with
    | none => rw [h2] at h; exact Option.noConfusion h
    | some x2 =>
      obtain ⟨w, l2⟩ := x2
      rw [h2] at h
      dsimp only at h
      cases h3 : scanPrecision l2 with
      | none => rw [h3] at h; exact Option.noConfusion h
      | some x3 =>
        obtain ⟨pr, l3⟩ := x3
        rw [h3] at h
        dsimp only at h
        cases h4 : scanWhile IsLength l3 with
        | none => rw [h4] at h; exact Option.noConfusion h
        | some x4 =>
          obtain ⟨ls, l4⟩ := x4
          rw [h4] at h
          dsimp only at h
          cases h5 : checkConversionChar l4 with
          | none => rw [h5] at h; exact Option.noConfusion h
          | some x5 =>
            obtain ⟨cv, r5⟩ := x5
            rw [h5] at h
            simp only [Option.some.injEq, Prod.mk.injEq] at h
            obtain ⟨rfl, rfl⟩ := h
            exact ⟨l1, l2, l3, l4, rfl, h2, h3, h4, h5⟩

/-- The early-return run scan agrees with the run scan: inside the run it
returns the indexed character, past it the leftover countdown and input. -/
theorem searchSpan_spec (p : Char → Bool) :
    ∀ l toks rest, scanWhile p l = some (toks, rest) → ∀ num,
      searchSpan p l num =
        if num < toks.length then some (.inl (toks.getD num '\x00'))
        else some (.inr (num - toks.length, rest)) := by
  intro l
  induction l with
  | nil => intro toks rest h num; exact Option.noConfusion h
  | cons c r ih =>
    intro toks rest h num
    simp only [scanWhile] at h
    by_cases hp : p c
    · rw [if_pos hp] at h
      rw [Option.map_eq_some'] at h
      obtain ⟨⟨t2, r2⟩, hscan, hfx⟩ := h
      simp only [Prod.mk.injEq] at hfx
      obtain ⟨rfl, rfl⟩ := hfx
      simp only [searchSpan, if_pos hp]
      by_cases h0 : num = 0
      · subst h0
        rw [if_pos rfl, if_pos (by simp)]
        rfl
      · rw [if_neg h0, ih t2 r2 hscan (num - 1)]
        obtain ⟨m, rfl⟩ : ∃ m, num = m + 1 := ⟨num - 1, by omega⟩
        simp only [Nat.add_sub_cancel]
        by_cases hlt : m < t2.length
        · rw [if_pos hlt, if_pos (by simp only [List.length_cons]; omega)]
          rw [List.getD_cons_succ]
        · rw [if_neg hlt, if_neg (by simp only [List.length_cons]; omega)]
          have harith : m - t2.length = m + 1 - (c :: t2).length := by
            simp only [List.length_cons]; omega
          rw [harith]
    · rw [if_neg hp] at h
      simp only [Option.some.injEq, Prod.mk.injEq] at h
      obtain ⟨rfl, rfl⟩ := h
      simp [searchSpan, hp]

/-- Same statement for the width phase. -/
theorem searchWidth_spec (l toks rest : List Char)
    (h : scanWidth l = some (toks, rest)) (num : Nat) :
    searchWidth l num =
      if num < toks.length then some (.inl (toks.getD num '\x00'))
      else some (.inr (num - toks.length, rest)) := by
  cases l with
  | nil => exact Option.noConfusion h
  | cons c r =>
    simp only [scanWidth] at h
    by_cases hstar : c = '*'
    · rw [if_pos hstar] at h
      simp only [Option.some.injEq, Prod.mk.injEq] at h
      obtain ⟨rfl, rfl⟩ := h
      simp only [searchWidth]
      rw [if_pos hstar]
      by_cases h0 : num = 0
      · subst h0
        rw [if_pos rfl, if_pos (by simp)]
        rfl
      · rw [if_neg h0, if_neg (by simp only [List.length_cons, List.length_nil]; omega)]
        have harith : num - 1 = num - ('*' :: List.nil).length := by simp
        rw [harith]
    · rw [if_neg hstar] at h
      simp only [searchWidth]
      rw [if_neg hstar]
      exact searchSpan_spec IsDigit (c :: r) toks rest h num

/-- Same statement for the precision phase. -/
theorem searchPrecision_spec (l toks rest : List Char)
    (h : scanPrecision l = some (toks, rest)) (num : Nat) :
    searchPrecision l num =
      if num < toks.length then some (.inl (toks.getD num '\x00'))
      else some (.inr (num - toks.length, rest)) := by
  cases l with
  | nil => exact Option.noConfusion h
  | cons c r =>
    simp only [scanPrecision] at h
    by_cases hdot : c = '.'
    · rw [if_pos hdot] at h
      cases r with
      | nil => exact Option.noConfusion h
      | cons c2 r2 =>
        dsimp only at h
        by_cases hstar : c2 = '*'
        · rw [if_pos hstar] at h
          simp only [Option.some.injEq, Prod.mk.injEq] at h
          obtain ⟨rfl, rfl⟩ := h
          simp only [searchPrecision]
          rw [if_pos hdot]
          by_cases h0 : num = 0
          · subst h0
            rw [if_pos rfl, if_pos (by simp)]
            rfl
          · rw [if_neg h0, if_pos hstar]
            by_cases h1 : num - 1 = 0
            · have hnum : num = 1 := by omega
              subst hnum
              rw [if_pos rfl, if_pos (by simp)]
              rfl
            · rw [if_neg h1,
                if_neg (by simp only [List.length_cons, List.length_nil]; omega)]
              have harith : num - 2 = num - ('.' :: '*' :: List.nil).length := by simp
              rw [harith]
        · rw [if_neg hstar] at h
          rw [Option.map_eq_some'] at h
          obtain ⟨⟨ds, rr⟩, hscan, hfx⟩ := h
          simp only [Prod.mk.injEq] at hfx
          obtain ⟨rfl, rfl⟩ := hfx
          simp only [searchPrecision]
          rw [if_pos hdot]
          by_cases h0 : num = 0
          · subst h0
            rw [if_pos rfl, if_pos (by simp)]
            rfl
          · rw [if_neg h0, if_neg hstar,
              searchSpan_spec IsDigit (c2 :: r2) ds rr hscan (num - 1)]
            obtain ⟨m, rfl⟩ : ∃ m, num = m + 1 := ⟨num - 1, by omega⟩
            simp only [Nat.add_sub_cancel]
            by_cases hlt : m < ds.length
            · rw [if_pos hlt, if_pos (by simp only [List.length_cons]; omega)]
              rw [List.getD_cons_succ]
            · rw [if_neg hlt, if_neg (by simp only [List.length_cons]; omega)]
              have harith : m - ds.length = m + 1 - ('.' :: ds).length := by
                simp only [List.length_cons]; omega
              rw [harith]
    · rw [if_neg hdot] at h
      simp only [Option.some.injEq, Prod.mk.injEq] at h
      obtain ⟨rfl, rfl⟩ := h
      simp only [searchPrecision]
      rw [if_neg hdot]
      simp

/-- Same statement for the conversion-letter phase: the letter at zero, the
inserted NUL at one, the leftover countdown past both. -/
theorem searchConv_spec (l : List Char) (cv : Char) (rest : List Char)
    (h : checkConversionChar l = some (cv, rest)) (num : Nat) :
    searchConv l num =
      if num = 0 then some (.inl cv)
      else if num = 1 then some (.inl '\x00')
      else some (.inr (num - 2, rest)) := by
  cases l with
  | nil => exact Option.noConfusion h
  | cons c r =>
    simp only [checkConversionChar] at h
    by_cases hC : IsConversionSpecifier c = true
    · rw [if_neg (not_not_intro hC)] at h
      by_cases hn : c = 'n'
      · rw [if_pos hn] at h; exact Option.noConfusion h
      · rw [if_neg hn] at h
        simp only [Option.some.injEq, Prod.mk.injEq] at h
        obtain ⟨rfl, rfl⟩ := h
        simp only [searchConv]
        rw [if_neg (not_not_intro hC), if_neg hn]
        by_cases h0 : num = 0
        · rw [if_pos h0, if_pos h0]
        · rw [if_neg h0, if_neg h0]
          by_cases h1 : num = 1
          · subst h1
            rw [if_pos rfl, if_pos rfl]
          · rw [if_neg (by omega : ¬ num - 1 = 0), if_neg h1]
    · rw [if_pos hC] at h
      exact Option.noConfusion h

/-- Characters accepted by a run scan satisfy its predicate. -/
theorem scanWhile_mem (p : Char → Bool) :
    ∀ l toks rest, scanWhile p l = some (toks, rest) → ∀ c ∈ toks, p c = true := by
  intro l
  induction l with
  | nil => intro toks rest h; exact fun c hc => absurd h (by simp [scanWhile])
  | cons c r ih =>
    intro toks rest h d hd
    simp only [scanWhile] at h
    by_cases hp : p c
    · rw [if_pos hp] at h
      rw [Option.map_eq_some'] at h
      obtain ⟨⟨t2, r2⟩, hscan, hfx⟩ := h
      simp only [Prod.mk.injEq] at hfx
      obtain ⟨rfl, rfl⟩ := hfx
      rcases List.mem_cons.mp hd with rfl | hd2
      · exact hp
      · exact ih t2 r2 hscan d hd2
    · rw [if_neg hp] at h
      simp only [Option.some.injEq, Prod.mk.injEq] at h
      obtain ⟨rfl, rfl⟩ := h
      exact absurd hd (List.not_mem_nil d)

/-- The width text never holds a NUL byte. -/
theorem scanWidth_nul (l toks rest : List Char)
    (h : scanWidth l = some (toks, rest)) : '\x00' ∉ toks := by
  cases l with
  | nil => exact Option.noConfusion h
  | cons c r =>
    simp only [scanWidth] at h
    by_cases hstar : c = '*'
    · rw [if_pos hstar] at h
      simp only [Option.some.injEq, Prod.mk.injEq] at h
      obtain ⟨rfl, rfl⟩ := h
      decide
    · rw [if_neg hstar] at h
      intro hmem
      exact absurd (scanWhile_mem IsDigit (c :: r) toks rest h '\x00' hmem) (by decide)

/-- The precision text never holds a NUL byte. -/
theorem scanPrecision_nul (l toks rest : List Char)
    (h : scanPrecision l = some (toks, rest)) : '\x00' ∉ toks := by
  cases l with
  | nil => exact Option.noConfusion h
  | cons c r =>
    simp only [scanPrecision] at h
    by_cases hdot : c = '.'
    · rw [if_pos hdot] at h
      cases r with
      | nil => exact Option.noConfusion h
      | cons c2 r2 =>
        dsimp only at h
        by_cases hstar : c2 = '*'
        · rw [if_pos hstar] at h
          simp only [Option.some.injEq, Prod.mk.injEq] at h
          obtain ⟨rfl, rfl⟩ := h
          decide
        · rw [if_neg hstar] at h
          rw [Option.map_eq_some'] at h
          obtain ⟨⟨ds, rr⟩, hscan, hfx⟩ := h
          simp only [Prod.mk.injEq] at hfx
          obtain ⟨rfl, rfl⟩ := hfx
          intro hmem
          rcases List.mem_cons.mp hmem with heq | hmem2
          · exact absurd heq (by decide)
          · exact absurd (scanWhile_mem IsDigit (c2 :: r2) ds rr hscan '\x00' hmem2)
              (by decide)
    · rw [if_neg hdot] at h
      simp only [Option.some.injEq, Prod.mk.injEq] at h
      obtain ⟨rfl, rfl⟩ := h
      exact List.not_mem_nil _

/-- The accepted conversion letter is a conversion specifier. -/
theorem checkConversionChar_inv (l : List Char) (cv : Char) (rest : List Char)
    (h : checkConversionChar l = some (cv, rest)) :
    IsConversionSpecifier cv = true := by
  cases l with
  | nil => exact Option.noConfusion h
  | cons c r =>
    simp only [checkConversionChar] at h
    by_cases hC : IsConversionSpecifier c = true
    · rw [if_neg (not_not_intro hC)] at h
      by_cases hn : c = 'n'
      · rw [if_pos hn] at h; exact Option.noConfusion h
      · rw [if_neg hn] at h
        simp only [Option.some.injEq, Prod.mk.injEq] at h
        obtain ⟨rfl, rfl⟩ := h
        exact hC
    · rw [if_pos hC] at h
      exact Option.noConfusion h

/-- A parsed conversion specifier never holds a NUL byte. -/
theorem consumeSpecifier_nul_free (l : List Char) (parts : SpecParts)
    (r : List Char) (h : consumeSpecifier l = some (parts, r)) :
    '\x00' ∉ ('%' :: parts.body) := by
  obtain ⟨l1, l2, l3, l4, h1, h2, h3, h4, h5⟩ := consumeSpecifier_inv l parts r h
  intro hmem
  simp only [SpecParts.body, List.mem_cons, List.mem_append,
    List.not_mem_nil, or_false, or_assoc] at hmem
  rcases hmem with h0 | hf | hw | hp | hl | hc
  · exact absurd h0 (by decide)
  · exact absurd (scanWhile_mem IsFlag l parts.flags l1 h1 '\x00' hf) (by decide)
  · exact scanWidth_nul l1 parts.width l2 h2 hw
  · exact scanPrecision_nul l2 parts.precision l3 h3 hp
  · exact absurd (scanWhile_mem IsLength l3 parts.lengths l4 h4 '\x00' hl) (by decide)
  · have hconv := checkConversionChar_inv l4 parts.conv r h5
    rw [← hc] at hconv
    exact absurd hconv (by decide)

theorem getD_mid (pre mid post : List Char) (m : Nat) (hm : m < mid.length) (d : Char) :
    (pre ++ (mid ++ post)).getD (pre.length + m) d = mid.getD m d := by
  rw [getD_skip pre (mid ++ post) m d, getD_here mid post m d hm]

/-- One specifier of the early-return character search, against the shared
parser: countdown `num` indexes the packed token `'%' ++ body ++ NUL`, and a
countdown past the token leaves with the leftover and the parser's rest. -/
theorem searchSpec_spec (l : List Char) (parts : SpecParts) (r : List Char)
    (h : consumeSpecifier l = some (parts, r)) (num : Nat) :
    searchSpec l num =
      if num < parts.body.length + 2 then
        some (.inl ((('%' :: parts.body) ++ ['\x00']).getD num '\x00'))
      else some (.inr (num - (parts.body.length + 2), r)) := by
  obtain ⟨l1, l2, l3, l4, h1, h2, h3, h4, h5⟩ := consumeSpecifier_inv l parts r h
  have hbody : parts.body.length =
      parts.flags.length + parts.width.length + parts.precision.length +
        parts.lengths.length + 1 := by
    simp only [SpecParts.body, List.length_append, List.length_cons, List.length_nil]
    try omega
  unfold searchSpec
  by_cases h0 : num = 0
  · rw [if_pos h0, if_pos (by omega)]
    subst h0
    rw [getD_here _ _ _ _ (by simp), List.getD_cons_zero]
  · rw [if_neg h0, searchSpan_spec IsFlag l parts.flags l1 h1 (num - 1)]
    by_cases hA : num - 1 < parts.flags.length
    · rw [if_pos hA]
      simp only [searchStep]
      rw [if_pos (by omega)]
      obtain ⟨m, rfl⟩ : ∃ m, num = m + 1 := ⟨num - 1, by omega⟩
      simp only [Nat.add_sub_cancel] at hA ⊢
      rw [List.cons_append, List.getD_cons_succ]
      have hform : parts.body ++ ['\x00'] =
          parts.flags ++ (parts.width ++ (parts.precision ++ (parts.lengths ++
            ([parts.conv] ++ ['\x00'])))) := by
        simp [SpecParts.body, List.append_assoc]
      rw [hform, getD_here _ _ _ _ hA]
    · rw [if_neg hA]
      simp only [searchStep]
      obtain ⟨m, rfl⟩ : ∃ m, num = parts.flags.length + 1 + m :=
        ⟨num - 1 - parts.flags.length, by omega⟩
      have hm1 : parts.flags.length + 1 + m - 1 - parts.flags.length = m := by omega
      rw [hm1, searchWidth_spec l1 parts.width l2 h2 m]
      by_cases hB : m < parts.width.length
      · rw [if_pos hB]
        simp only [searchStep]
        rw [if_pos (by omega)]
        have hform : ('%' :: parts.body) ++ ['\x00'] =
            ('%' :: parts.flags) ++ (parts.width ++ (parts.precision ++
              (parts.lengths ++ ([parts.conv] ++ ['\x00'])))) := by
          simp [SpecParts.body, List.append_assoc]
        rw [hform]
        have hidx : parts.flags.length + 1 + m = ('%' :: parts.flags).length + m := by
          simp only [List.length_cons]; try omega
        rw [hidx, getD_mid _ parts.width _ m hB]
      · rw [if_neg hB]
        simp only [searchStep]
        obtain ⟨m2, rfl⟩ : ∃ m2, m = parts.width.length + m2 :=
          ⟨m - parts.width.length, by omega⟩
        have hm2 : parts.width.length + m2 - parts.width.length = m2 := by omega
        rw [hm2, searchPrecision_spec l2 parts.precision l3 h3 m2]
        by_cases hC : m2 < parts.precision.length
        · rw [if_pos hC]
          simp only [searchStep]
          rw [if_pos (by omega)]
          have hform : ('%' :: parts.body) ++ ['\x00'] =
              ('%' :: (parts.flags ++ parts.width)) ++ (parts.precision ++
                (parts.lengths ++ ([parts.conv] ++ ['\x00']))) := by
            simp [SpecParts.body, List.append_assoc]
          rw [hform]
          have hidx : parts.flags.length + 1 + (parts.width.length + m2) =
              ('%' :: (parts.flags ++ parts.width)).length + m2 := by
            simp only [List.length_cons, List.length_append]; try omega
          rw [hidx, getD_mid _ parts.precision _ m2 hC]
        · rw [if_neg hC]
          simp only [searchStep]
          obtain ⟨m3, rfl⟩ : ∃ m3, m2 = parts.precision.length + m3 :=
            ⟨m2 - parts.precision.length, by omega⟩
          have hm3 : parts.precision.length + m3 - parts.precision.length = m3 := by
            omega
          rw [hm3, searchSpan_spec IsLength l3 parts.lengths l4 h4 m3]
          by_cases hD : m3 < parts.lengths.length
          · rw [if_pos hD]
            simp only [searchStep]
            rw [if_pos (by omega)]
            have hform : ('%' :: parts.body) ++ ['\x00'] =
                ('%' :: ((parts.flags ++ parts.width) ++ parts.precision)) ++
                  (parts.lengths ++ ([parts.conv] ++ ['\x00'])) := by
              simp [SpecParts.body, List.append_assoc]
            rw [hform]
            have hidx : parts.flags.length + 1 +
                (parts.width.length + (parts.precision.length + m3)) =
                ('%' :: ((parts.flags ++ parts.width) ++ parts.precision)).length + m3 := by
              simp only [List.length_cons, List.length_append]; try omega
            rw [hidx, getD_mid _ parts.lengths _ m3 hD]
          · rw [if_neg hD]
            simp only [searchStep]
            obtain ⟨m4, rfl⟩ : ∃ m4, m3 = parts.lengths.length + m4 :=
              ⟨m3 - parts.lengths.length, by omega⟩
            have hm4 : parts.lengths.length + m4 - parts.lengths.length = m4 := by omega
            rw [hm4, searchConv_spec l4 parts.conv r h5 m4]
            by_cases hE : m4 = 0
            · rw [if_pos hE, if_pos (by omega)]
              subst hE
              have hform : ('%' :: parts.body) ++ ['\x00'] =
                  ('%' :: (((parts.flags ++ parts.width) ++ parts.precision) ++
                    parts.lengths)) ++ ([parts.conv] ++ ['\x00']) := by
                simp [SpecParts.body, List.append_assoc]
              rw [hform]
              have hidx : parts.flags.length + 1 +
                  (parts.width.length + (parts.precision.length +
                    (parts.lengths.length + 0))) =
                  ('%' :: (((parts.flags ++ parts.width) ++ parts.precision) ++
                    parts.lengths)).length + 0 := by
                simp only [List.length_cons, List.length_append]; try omega
              rw [hidx, getD_mid _ [parts.conv] _ 0 (by simp), List.getD_cons_zero]
            · rw [if_neg hE]
              by_cases hF : m4 = 1
              · rw [if_pos hF, if_pos (by omega)]
                subst hF
                have hidx : parts.flags.length + 1 +
                    (parts.width.length + (parts.precision.length +
                      (parts.lengths.length + 1))) =
                    ('%' :: parts.body).length + 0 := by
                  simp only [List.length_cons]; try omega
                rw [hidx, getD_skip ('%' :: parts.body) ['\x00'] 0 '\x00',
                  List.getD_cons_zero]
              · rw [if_neg hF, if_neg (by omega)]
                have harith : m4 - 2 =
                    parts.flags.length + 1 +
                      (parts.width.length + (parts.precision.length +
                        (parts.lengths.length + m4))) -
                      (parts.body.length + 2) := by
                  omega
                rw [harith]

/-- The storage-size scan accepts exactly when the specifier scan does, and
returns the total packed size: one slot per specifier character, leading `%`
and trailing NUL included. -/
theorem specsAux_of_sizeAux :
    ∀ fuel l sz, sizeConversionStorageNeedsAux fuel l = some sz →
      ∃ specs, formatSpecifiersAux fuel l = some specs ∧
        sz = (specs.map (fun s => s.length + 1)).sum := by
  intro fuel
  induction fuel with
  | zero => intro l sz h; exact Option.noConfusion h
  | succ fuel ih =>
    intro l sz h
    cases l with
    | nil =>
      simp only [sizeConversionStorageNeedsAux, Option.some.injEq] at h
      exact ⟨[], by simp [formatSpecifiersAux], by simp [← h]⟩
    | cons c rest =>
      by_cases hc : c = '%'
      · cases rest with
        | nil =>
          simp only [sizeConversionStorageNeedsAux] at h
          rw [if_pos hc] at h
          exact Option.noConfusion h
        | cons c2 r =>
          simp only [sizeConversionStorageNeedsAux] at h
          rw [if_pos hc] at h
          by_cases hc2 : c2 = '%'
          · rw [if_pos hc2] at h
            obtain ⟨specs, hs, hsz⟩ := ih r sz h
            refine ⟨specs, ?_, hsz⟩
            simp only [formatSpecifiersAux]
            rw [if_pos hc, if_pos hc2]
            exact hs
          · rw [if_neg hc2] at h
            cases heq : consumeSpecifier (c2 :: r) with
            | none => rw [heq] at h; exact Option.noConfusion h
            | some pr =>
              obtain ⟨parts, r2⟩ := pr
              rw [heq] at h
              rw [Option.map_eq_some'] at h
              obtain ⟨sz2, hsz2, rfl⟩ := h
              obtain ⟨specs, hs, rfl⟩ := ih r2 sz2 hsz2
              refine ⟨('%' :: parts.body) :: specs, ?_, ?_⟩
              · simp only [formatSpecifiersAux]
                rw [if_pos hc, if_neg hc2, heq]
                show (formatSpecifiersAux fuel r2).map (fun x => ('%' :: parts.body) :: x) = _
                rw [hs]
                rfl
              · simp only [List.map_cons, List.sum_cons, List.length_cons]
                omega
      · simp only [sizeConversionStorageNeedsAux] at h
        rw [if_neg hc] at h
        obtain ⟨specs, hs, hsz⟩ := ih rest sz h
        refine ⟨specs, ?_, hsz⟩
        simp only [formatSpecifiersAux]
        rw [if_neg hc]
        exact hs

/-- No conversion specifier of a format holds a NUL byte. -/
theorem specs_nul_free :
    ∀ fuel l specs, formatSpecifiersAux fuel l = some specs →
      ∀ s ∈ specs, '\x00' ∉ s := by
  intro fuel
  induction fuel with
  | zero => intro l specs h; exact Option.noConfusion h
  | succ fuel ih =>
    intro l specs h
    cases l with
    | nil =>
      simp only [formatSpecifiersAux, Option.some.injEq] at h
      subst h
      exact fun s hs => absurd hs (List.not_mem_nil s)
    | cons c rest =>
      by_cases hc : c = '%'
      · cases rest with
        | nil =>
          simp only [formatSpecifiersAux] at h
          rw [if_pos hc] at h
          exact Option.noConfusion h
        | cons c2 r =>
          simp only [formatSpecifiersAux] at h
          rw [if_pos hc] at h
          by_cases hc2 : c2 = '%'
          · rw [if_pos hc2] at h
            exact ih r specs h
          · rw [if_neg hc2] at h
            cases heq : consumeSpecifier (c2 :: r) with
            | none => rw [heq] at h; exact Option.noConfusion h
            | some pr =>
              obtain ⟨parts, r2⟩ := pr
              rw [heq] at h
              rw [Option.map_eq_some'] at h
              obtain ⟨specs2, hs2, rfl⟩ := h
              intro s hs
              rcases List.mem_cons.mp hs with rfl | hmem
              · exact consumeSpecifier_nul_free (c2 :: r) parts r2 heq
              · exact ih r2 specs2 hs2 s hmem
      · simp only [formatSpecifiersAux] at h
        rw [if_neg hc] at h
        exact ih rest specs h

/-- The character search indexes the packed concatenation of the format's
specifiers, each NUL-terminated; past the end it returns NUL. -/
theorem getCharAux_spec :
    ∀ fuel l specs, formatSpecifiersAux fuel l = some specs →
      ∀ num, getConversionSpecifierCharAux fuel l num =
        some (((specs.map (fun s => s ++ ['\x00'])).flatten).getD num '\x00') := by
  intro fuel
  induction fuel with
  | zero => intro l specs h num; exact Option.noConfusion h
  | succ fuel ih =>
    intro l specs h num
    cases l with
    | nil =>
      simp only [formatSpecifiersAux, Option.some.injEq] at h
      subst h
      simp [getConversionSpecifierCharAux]
    | cons c rest =>
      by_cases hc : c = '%'
      · cases rest with
        | nil =>
          simp only [formatSpecifiersAux] at h
          rw [if_pos hc] at h
          exact Option.noConfusion h
        | cons c2 r =>
          simp only [formatSpecifiersAux] at h
          simp only [getConversionSpecifierCharAux]
          rw [if_pos hc] at h ⊢
          by_cases hc2 : c2 = '%'
          · rw [if_pos hc2] at h ⊢
            exact ih r specs h num
          · rw [if_neg hc2] at h ⊢
            cases heq : consumeSpecifier (c2 :: r) with
            | none => rw [heq] at h; exact Option.noConfusion h
            | some pr =>
              obtain ⟨parts, r2⟩ := pr
              rw [heq] at h
              rw [Option.map_eq_some'] at h
              obtain ⟨specs2, hs2, rfl⟩ := h
              rw [searchSpec_spec (c2 :: r) parts r2 heq num]
              by_cases hnum : num < parts.body.length + 2
              · rw [if_pos hnum]
                simp only [List.map_cons, List.flatten_cons]
                rw [getD_here (('%' :: parts.body) ++ ['\x00'])
                  ((specs2.map (fun s => s ++ ['\x00'])).flatten) num '\x00' (by
                    simp only [List.length_append, List.length_cons, List.length_nil]
                    omega)]
              · rw [if_neg hnum]
                show getConversionSpecifierCharAux fuel r2
                  (num - (parts.body.length + 2)) = _
                rw [ih r2 specs2 hs2 (num - (parts.body.length + 2))]
                simp only [List.map_cons, List.flatten_cons]
                obtain ⟨m, rfl⟩ : ∃ m, num = (parts.body.length + 2) + m :=
                  ⟨num - (parts.body.length + 2), by omega⟩
                have hsub : parts.body.length + 2 + m - (parts.body.length + 2) = m := by
                  omega
                rw [hsub]
                have hidx : parts.body.length + 2 + m =
                    (('%' :: parts.body) ++ ['\x00']).length + m := by
                  simp only [List.length_append, List.length_cons, List.length_nil]
                  try omega
                rw [hidx, getD_skip]
      · simp only [formatSpecifiersAux] at h
        simp only [getConversionSpecifierCharAux]
        rw [if_neg hc] at h ⊢
        exact ih rest specs h num

theorem flatten_tokens_length (specs : List (List Char)) :
    ((specs.map (fun s => s ++ ['\x00'])).flatten).length =
      (specs.map (fun s => s.length + 1)).sum := by
  induction specs with
  | nil => rfl
  | cons s t ih =>
    simp only [List.map_cons, List.flatten_cons, List.length_append,
      List.sum_cons, List.length_cons, List.length_nil, ih]
    try omega

/-- C5: for every format string `F` that `SizeConversionStorageNeeds`
accepts, `MakeConversionStorage` packs exactly the conversion specifiers of
`F` in order, each with its leading `%`, flags, width, precision and length
characters and one terminating NUL, filling the declared size — so the k-th
NUL-separated token of the storage is byte-identical to the k-th conversion
specifier occurring in `F`. -/
theorem conversion_storage_roundtrip (fmt : List Char) (sz : Nat)
    (h : sizeConversionStorageNeeds fmt = some sz) :
    ∃ specs, formatSpecifiers fmt = some specs ∧
      makeConversionStorage sz fmt =
        some ((specs.map (fun s => s ++ ['\x00'])).flatten) ∧
      ((specs.map (fun s => s ++ ['\x00'])).flatten).length = sz ∧
      nulTokens ((specs.map (fun s => s ++ ['\x00'])).flatten) = specs := by
  obtain ⟨specs, hs, rfl⟩ := specsAux_of_sizeAux (fmt.length + 1) fmt _ h
  refine ⟨specs, hs, ?_, flatten_tokens_length specs,
    nulTokens_flatten specs (specs_nul_free (fmt.length + 1) fmt specs hs)⟩
  unfold makeConversionStorage
  rw [optionList_map (List.range ((specs.map (fun s => s.length + 1)).sum))
    (getConversionSpecifierChar fmt)
    (fun i => ((specs.map (fun s => s ++ ['\x00'])).flatten).getD i '\x00')
    (fun i _ => getCharAux_spec (fmt.length + 1) fmt specs hs i)]
  rw [← flatten_tokens_length specs, range_map_getD]

/-- C5 instantiated: the format `a%d b%.*s c` needs 8 storage slots, and
the storage splits back into its two specifiers. -/
theorem conversion_storage_roundtrip_witness :
    sizeConversionStorageNeeds (cstrArr "a%d b%.*s c") = some 8 ∧
    ∃ specs, formatSpecifiers (cstrArr "a%d b%.*s c") = some specs ∧
      makeConversionStorage 8 (cstrArr "a%d b%.*s c") =
        some ((specs.map (fun s => s ++ ['\x00'])).flatten) ∧
      ((specs.map (fun s => s ++ ['\x00'])).flatten).length = 8 ∧
      nulTokens ((specs.map (fun s => s ++ ['\x00'])).flatten) = specs :=
  ⟨by decide, conversion_storage_roundtrip (cstrArr "a%d b%.*s c") 8 (by decide)⟩

/-! ## The double-percent escape (claim C3) -/

theorem scanWhile_rest_le (p : Char → Bool) :
    ∀ l toks rest, scanWhile p l = some (toks, rest) → rest.length ≤ l.length := by
  intro l
  induction l with
  | nil => intro toks rest h; exact Option.noConfusion h
  | cons c r ih =>
    intro toks rest h
    simp only [scanWhile] at h
    by_cases hp : p c
    · rw [if_pos hp] at h
      rw [Option.map_eq_some'] at h
      obtain ⟨⟨t2, r2⟩, hscan, hfx⟩ := h
      simp only [Prod.mk.injEq] at hfx
      obtain ⟨rfl, rfl⟩ := hfx
      exact le_trans (ih t2 r2 hscan) (by simp)
    · rw [if_neg hp] at h
      simp only [Option.some.injEq, Prod.mk.injEq] at h
      obtain ⟨rfl, rfl⟩ := h
      exact le_refl _

theorem scanWidth_rest_le (l toks rest : List Char)
    (h : scanWidth l = some (toks, rest)) : rest.length ≤ l.length := by
  cases l with
  | nil => exact Option.noConfusion h
  | cons c r =>
    simp only [scanWidth] at h
    by_cases hstar : c = '*'
    · rw [if_pos hstar] at h
      simp only [Option.some.injEq, Prod.mk.injEq] at h
      obtain ⟨rfl, rfl⟩ := h
      simp
    · rw [if_neg hstar] at h
      exact scanWhile_rest_le IsDigit (c :: r) toks rest h

theorem scanPrecision_rest_le (l toks rest : List Char)
    (h : scanPrecision l = some (toks, rest)) : rest.length ≤ l.length := by
  cases l with
  | nil => exact Option.noConfusion h
  | cons c r =>
    simp only [scanPrecision] at h
    by_cases hdot : c = '.'
    · rw [if_pos hdot] at h
      cases r with
      | nil => exact Option.noConfusion h
      | cons c2 r2 =>
        dsimp only at h
        by_cases hstar : c2 = '*'
        · rw [if_pos hstar] at h
          simp only [Option.some.injEq, Prod.mk.injEq] at h
          obtain ⟨rfl, rfl⟩ := h
          simp only [List.length_cons]
          omega
        · rw [if_neg hstar] at h
          rw [Option.map_eq_some'] at h
          obtain ⟨⟨ds, rr⟩, hscan, hfx⟩ := h
          simp only [Prod.mk.injEq] at hfx
          obtain ⟨rfl, rfl⟩ := hfx
          have := scanWhile_rest_le IsDigit (c2 :: r2) ds rr hscan
          simp only [List.length_cons] at this ⊢
          omega
    · rw [if_neg hdot] at h
      simp only [Option.some.injEq, Prod.mk.injEq] at h
      obtain ⟨rfl, rfl⟩ := h
      exact le_refl _

theorem checkConversionChar_rest_lt (l : List Char) (cv : Char) (rest : List Char)
    (h : checkConversionChar l = some (cv, rest)) : rest.length < l.length := by
  cases l with
  | nil => exact Option.noConfusion h
  | cons c r =>
    simp only [checkConversionChar] at h
    by_cases hC : IsConversionSpecifier c = true
    · rw [if_neg (not_not_intro hC)] at h
      by_cases hn : c = 'n'
      · rw [if_pos hn] at h; exact Option.noConfusion h
      · rw [if_neg hn] at h
        simp only [Option.some.injEq, Prod.mk.injEq] at h
        obtain ⟨rfl, rfl⟩ := h
        simp
    · rw [if_pos hC] at h
      exact Option.noConfusion h

theorem consumeSpecifier_rest_lt (l : List Char) (parts : SpecParts)
    (r : List Char) (h : consumeSpecifier l = some (parts, r)) :
    r.length < l.length := by
  obtain ⟨l1, l2, l3, l4, h1, h2, h3, h4, h5⟩ := consumeSpecifier_inv l parts r h
  have e1 := scanWhile_rest_le IsFlag l parts.flags l1 h1
  have e2 := scanWidth_rest_le l1 parts.width l2 h2
  have e3 := scanPrecision_rest_le l2 parts.precision l3 h3
  have e4 := scanWhile_rest_le IsLength l3 parts.lengths l4 h4
  have e5 := checkConversionChar_rest_lt l4 parts.conv r h5
  omega

/-- The length-and-letter tail of `GetParamInfo` continues only by burning
exactly one position past a consumed conversion letter. -/
theorem gpiFinish_inr (l : List Char) (n : Nat) (hd : Bool) (p : Option Nat)
    (n' : Nat) (r' : List Char)
    (h : gpiFinish l n hd p = some (.inr (n', r'))) :
    n = n' + 1 ∧ r'.length + 1 ≤ l.length := by
  unfold gpiFinish at h
  cases hscan : scanWhile IsLength l with
  | none => rw [hscan] at h; exact Option.noConfusion h
  | some x =>
    obtain ⟨ls, lrest⟩ := x
    rw [hscan] at h
    dsimp only at h
    cases lrest with
    | nil => exact Option.noConfusion h
    | cons c r =>
      dsimp only at h
      have hle := scanWhile_rest_le IsLength l ls (c :: r) hscan
      by_cases hC : IsConversionSpecifier c = true
      · rw [if_neg (not_not_intro hC)] at h
        by_cases hn : c = 'n'
        · rw [if_pos hn] at h; exact Option.noConfusion h
        · rw [if_neg hn] at h
          by_cases h0 : 0 < n
          · rw [if_pos h0] at h
            simp only [Option.some.injEq, Sum.inr.injEq, Prod.mk.injEq] at h
            obtain ⟨rfl, rfl⟩ := h
            refine ⟨by omega, ?_⟩
            simp only [List.length_cons] at hle
            omega
          · rw [if_neg h0] at h
            by_cases hs : c = 's'
            · rw [if_neg (not_not_intro hs)] at h
              by_cases hdyn : hd = true
              · rw [if_pos hdyn] at h; simp at h
              · rw [if_neg hdyn] at h
                cases p with
                | none => simp at h
                | some pp => simp at h
            · rw [if_pos hs] at h
              simp at h
      · rw [if_pos hC] at h
        exact Option.noConfusion h

/-- The tail classifies a parameter type only with an exhausted count. -/
theorem gpiFinish_inl (l : List Char) (n : Nat) (hd : Bool) (p : Option Nat)
    (t : ParamType) (h : gpiFinish l n hd p = some (.inl t)) : n = 0 := by
  unfold gpiFinish at h
  cases hscan : scanWhile IsLength l with
  | none => rw [hscan] at h; exact Option.noConfusion h
  | some x =>
    obtain ⟨ls, lrest⟩ := x
    rw [hscan] at h
    dsimp only at h
    cases lrest with
    | nil => exact Option.noConfusion h
    | cons c r =>
      dsimp only at h
      by_cases hC : IsConversionSpecifier c = true
      · rw [if_neg (not_not_intro hC)] at h
        by_cases hn : c = 'n'
        · rw [if_pos hn] at h; exact Option.noConfusion h
        · rw [if_neg hn] at h
          by_cases h0 : 0 < n
          · rw [if_pos h0] at h; simp at h
          · omega
      · rw [if_pos hC] at h
        exact Option.noConfusion h

/-- The precision phase of `GetParamInfo` continues only by burning one or
two positions (a dynamic precision burns one extra), always past a consumed
conversion letter. -/
theorem gpiAfterWidth_inr (l : List Char) (n n' : Nat) (r' : List Char)
    (h : gpiAfterWidth l n = some (.inr (n', r'))) :
    (n = n' + 1 ∧ r'.length + 1 ≤ l.length) ∨
      (n = n' + 2 ∧ r'.length + 2 ≤ l.length) := by
  cases l with
  | nil => exact Option.noConfusion h
  | cons c r =>
    simp only [gpiAfterWidth] at h
    by_cases hdot : c = '.'
    · rw [if_pos hdot] at h
      cases r with
      | nil => exact Option.noConfusion h
      | cons c2 r2 =>
        dsimp only at h
        by_cases hstar : c2 = '*'
        · rw [if_pos hstar] at h
          by_cases h0 : n = 0
          · rw [if_pos h0] at h; simp at h
          · rw [if_neg h0] at h
            obtain ⟨hm, hr⟩ := gpiFinish_inr r2 (n - 1) true none n' r' h
            right
            refine ⟨by omega, ?_⟩
            simp only [List.length_cons]
            omega
        · rw [if_neg hstar] at h
          cases hscan : scanWhile IsDigit (c2 :: r2) with
          | none => rw [hscan] at h; exact Option.noConfusion h
          | some x =>
            obtain ⟨ds, l3⟩ := x
            rw [hscan] at h
            dsimp only at h
            have hle := scanWhile_rest_le IsDigit (c2 :: r2) ds l3 hscan
            obtain ⟨hm, hr⟩ := gpiFinish_inr l3 n false (some (digitsToNat ds)) n' r' h
            left
            refine ⟨hm, ?_⟩
            simp only [List.length_cons] at hle ⊢
            omega
    · rw [if_neg hdot] at h
      exact Or.inl (gpiFinish_inr (c :: r) n false none n' r' h)

/-- The precision phase classifies only with a count at most the input
length. -/
theorem gpiAfterWidth_inl (l : List Char) (n : Nat) (t : ParamType)
    (h : gpiAfterWidth l n = some (.inl t)) : n ≤ l.length := by
  cases l with
  | nil => exact Option.noConfusion h
  | cons c r =>
    simp only [gpiAfterWidth] at h
    by_cases hdot : c = '.'
    · rw [if_pos hdot] at h
      cases r with
      | nil => exact Option.noConfusion h
      | cons c2 r2 =>
        dsimp only at h
        by_cases hstar : c2 = '*'
        · rw [if_pos hstar] at h
          by_cases h0 : n = 0
          · omega
          · rw [if_neg h0] at h
            have := gpiFinish_inl r2 (n - 1) true none t h
            simp only [List.length_cons]
            omega
        · rw [if_neg hstar] at h
          cases hscan : scanWhile IsDigit (c2 :: r2) with
          | none => rw [hscan] at h; exact Option.noConfusion h
          | some x =>
            obtain ⟨ds, l3⟩ := x
            rw [hscan] at h
            dsimp only at h
            have := gpiFinish_inl l3 n false (some (digitsToNat ds)) t h
            omega
    · rw [if_neg hdot] at h
      have := gpiFinish_inl (c :: r) n false none t h
      omega

/-- One specifier of `GetParamInfo` continues only by burning between one
and three positions, each extra one matched by an extra consumed star, and
always past a consumed conversion letter. -/
theorem getParamInfoSpec_inr (l : List Char) (n n' : Nat) (r' : List Char)
    (h : getParamInfoSpec l n = some (.inr (n', r'))) :
    (n = n' + 1 ∧ r'.length + 1 ≤ l.length) ∨
      (n = n' + 2 ∧ r'.length + 2 ≤ l.length) ∨
      (n = n' + 3 ∧ r'.length + 3 ≤ l.length) := by
  unfold getParamInfoSpec at h
  cases hscan : scanWhile IsFlag l with
  | none => rw [hscan] at h; exact Option.noConfusion h
  | some x =>
    obtain ⟨fs, lf⟩ := x
    rw [hscan] at h
    dsimp only at h
    have hle := scanWhile_rest_le IsFlag l fs lf hscan
    cases lf with
    | nil => exact Option.noConfusion h
    | cons c r =>
      dsimp only at h
      simp only [List.length_cons] at hle
      by_cases hstar : c = '*'
      · rw [if_pos hstar] at h
        by_cases h0 : n = 0
        · rw [if_pos h0] at h; simp at h
        · rw [if_neg h0] at h
          rcases gpiAfterWidth_inr r (n - 1) n' r' h with ⟨hm, hr⟩ | ⟨hm, hr⟩
          · right; left
            exact ⟨by omega, by omega⟩
          · right; right
            exact ⟨by omega, by omega⟩
      · rw [if_neg hstar] at h
        cases hscan2 : scanWhile IsDigit (c :: r) with
        | none => rw [hscan2] at h; exact Option.noConfusion h
        | some x2 =>
          obtain ⟨ds, l2⟩ := x2
          rw [hscan2] at h
          dsimp only at h
          have hle2 := scanWhile_rest_le IsDigit (c :: r) ds l2 hscan2
          simp only [List.length_cons] at hle2
          rcases gpiAfterWidth_inr l2 n n' r' h with ⟨hm, hr⟩ | ⟨hm, hr⟩
          · exact Or.inl ⟨hm, by omega⟩
          · exact Or.inr (Or.inl ⟨hm, by omega⟩)

/-- One specifier of `GetParamInfo` classifies only with a count at most the
input length. -/
theorem getParamInfoSpec_inl (l : List Char) (n : Nat) (t : ParamType)
    (h : getParamInfoSpec l n = some (.inl t)) : n ≤ l.length := by
  unfold getParamInfoSpec at h
  cases hscan : scanWhile IsFlag l with
  | none => rw [hscan] at h; exact Option.noConfusion h
  | some x =>
    obtain ⟨fs, lf⟩ := x
    rw [hscan] at h
    dsimp only at h
    have hle := scanWhile_rest_le IsFlag l fs lf hscan
    cases lf with
    | nil => exact Option.noConfusion h
    | cons c r =>
      dsimp only at h
      simp only [List.length_cons] at hle
      by_cases hstar : c = '*'
      · rw [if_pos hstar] at h
        by_cases h0 : n = 0
        · omega
        · rw [if_neg h0] at h
          have := gpiAfterWidth_inl r (n - 1) t h
          omega
      · rw [if_neg hstar] at h
        cases hscan2 : scanWhile IsDigit (c :: r) with
        | none => rw [hscan2] at h; exact Option.noConfusion h
        | some x2 =>
          obtain ⟨ds, l2⟩ := x2
          rw [hscan2] at h
          dsimp only at h
          have hle2 := scanWhile_rest_le IsDigit (c :: r) ds l2 hscan2
          simp only [List.length_cons] at hle2
          have := gpiAfterWidth_inl l2 n t h
          omega

/-- A non-percent head is skipped by `GetParamInfo`. -/
theorem getParamInfoAux_skip (fuel : Nat) (c : Char) (rest : List Char) (n : Nat)
    (hc : ¬ c = '%') :
    getParamInfoAux (fuel + 1) (c :: rest) n = getParamInfoAux fuel rest n := by
  simp only [getParamInfoAux]
  rw [if_neg hc]

/-- The `%%` escape is stepped over by `GetParamInfo`. -/
theorem getParamInfoAux_pct_pct (fuel : Nat) (r : List Char) (n : Nat) :
    getParamInfoAux (fuel + 1) ('%' :: '%' :: r) n = getParamInfoAux fuel r n := rfl

/-- `GetParamInfo` does not depend on the loop fuel once it covers the
format length. -/
theorem getParamInfoAux_fuel :
    ∀ f1 f2 l n, l.length < f1 → l.length < f2 →
      getParamInfoAux f1 l n = getParamInfoAux f2 l n := by
  intro f1
  induction f1 with
  | zero => intro f2 l n h1 h2; exact absurd h1 (by omega)
  | succ f1 ih =>
    intro f2 l n h1 h2
    cases f2 with
    | zero => exact absurd h2 (by omega)
    | succ f2 =>
      cases l with
      | nil => rfl
      | cons c rest =>
        by_cases hc : c = '%'
        · cases rest with
          | nil =>
            simp only [getParamInfoAux]
            rw [if_pos hc, if_pos hc]
          | cons c2 r =>
            simp only [getParamInfoAux]
            rw [if_pos hc, if_pos hc]
            by_cases hc2 : c2 = '%'
            · rw [if_pos hc2, if_pos hc2]
              apply ih
              · simp only [List.length_cons] at h1; omega
              · simp only [List.length_cons] at h2; omega
            · rw [if_neg hc2, if_neg hc2]
              cases hspec : getParamInfoSpec (c2 :: r) n with
              | none => rfl
              | some val =>
                cases val with
                | inl t => rfl
                | inr pr =>
                  obtain ⟨n', r'⟩ := pr
                  show getParamInfoAux f1 r' n' = getParamInfoAux f2 r' n'
                  have hr : r'.length < r.length + 1 := by
                    rcases getParamInfoSpec_inr (c2 :: r) n n' r' hspec with
                      ⟨-, hr⟩ | ⟨-, hr⟩ | ⟨-, hr⟩ <;>
                      (simp only [List.length_cons] at hr; omega)
                  apply ih
                  · simp only [List.length_cons] at h1; omega
                  · simp only [List.length_cons] at h2; omega
        · simp only [getParamInfoAux]
          rw [if_neg hc, if_neg hc]
          apply ih
          · simp only [List.length_cons] at h1; omega
          · simp only [List.length_cons] at h2; omega

/-- Adequate fuel gives the wrapped `GetParamInfo`. -/
theorem getParamInfoAux_eq (fuel : Nat) (l : List Char) (n : Nat)
    (h : l.length < fuel) : getParamInfoAux fuel l n = getParamInfo l n :=
  getParamInfoAux_fuel fuel (l.length + 1) l n h (by omega)

/-- A non-percent head is skipped by `ConversionSpecifiersCount`. -/
theorem conversionSpecifiersCountAux_skip (fuel : Nat) (c : Char)
    (rest : List Char) (hc : ¬ c = '%') :
    conversionSpecifiersCountAux (fuel + 1) (c :: rest) =
      conversionSpecifiersCountAux fuel rest := by
  simp only [conversionSpecifiersCountAux]
  rw [if_neg hc]

/-- The `%%` escape is stepped over by `ConversionSpecifiersCount`. -/
theorem conversionSpecifiersCountAux_pct_pct (fuel : Nat) (r : List Char) :
    conversionSpecifiersCountAux (fuel + 1) ('%' :: '%' :: r) =
      conversionSpecifiersCountAux fuel r := rfl

/-- `ConversionSpecifiersCount` does not depend on the loop fuel once it
covers the format length. -/
theorem conversionSpecifiersCountAux_fuel :
    ∀ f1 f2 l, l.length < f1 → l.length < f2 →
      conversionSpecifiersCountAux f1 l = conversionSpecifiersCountAux f2 l := by
  intro f1
  induction f1 with
  | zero => intro f2 l h1 h2; exact absurd h1 (by omega)
  | succ f1 ih =>
    intro f2 l h1 h2
    cases f2 with
    | zero => exact absurd h2 (by omega)
    | succ f2 =>
      cases l with
      | nil => rfl
      | cons c rest =>
        by_cases hc : c = '%'
        · cases rest with
          | nil =>
            simp only [conversionSpecifiersCountAux]
            rw [if_pos hc, if_pos hc]
          | cons c2 r =>
            simp only [conversionSpecifiersCountAux]
            rw [if_pos hc, if_pos hc]
            by_cases hc2 : c2 = '%'
            · rw [if_pos hc2, if_pos hc2]
              apply ih
              · simp only [List.length_cons] at h1; omega
              · simp only [List.length_cons] at h2; omega
            · rw [if_neg hc2, if_neg hc2]
              cases hcs : consumeSpecifier (c2 :: r) with
              | none => rfl
              | some pr =>
                obtain ⟨parts, r'⟩ := pr
                show (conversionSpecifiersCountAux f1 r').map (· + 1) =
                  (conversionSpecifiersCountAux f2 r').map (· + 1)
                have hlt := consumeSpecifier_rest_lt (c2 :: r) parts r' hcs
                have hlt' : r'.length < r.length + 1 := by
                  simp only [List.length_cons] at hlt; omega
                rw [ih f2 r' (by simp only [List.length_cons] at h1; omega)
                  (by simp only [List.length_cons] at h2; omega)]
        · simp only [conversionSpecifiersCountAux]
          rw [if_neg hc, if_neg hc]
          apply ih
          · simp only [List.length_cons] at h1; omega
          · simp only [List.length_cons] at h2; omega

theorem conversionSpecifiersCountAux_eq_count (fuel : Nat) (l : List Char)
    (h : l.length < fuel) :
    conversionSpecifiersCountAux fuel l = conversionSpecifiersCount l :=
  conversionSpecifiersCountAux_fuel fuel (l.length + 1) l h (by omega)

/-- Every parameter position `GetParamInfo` classifies as valid lies inside
the format. -/
theorem getParamInfoAux_param_lt :
    ∀ fuel l n t, getParamInfoAux fuel l n = some t → t ≠ .INVALID →
      n < l.length := by
  intro fuel
  induction fuel with
  | zero => intro l n t h ht; exact Option.noConfusion h
  | succ fuel ih =>
    intro l n t h ht
    cases l with
    | nil =>
      simp only [getParamInfoAux, Option.some.injEq] at h
      exact absurd h.symm ht
    | cons c rest =>
      by_cases hc : c = '%'
      · cases rest with
        | nil =>
          simp only [getParamInfoAux] at h
          rw [if_pos hc] at h
          exact Option.noConfusion h
        | cons c2 r =>
          simp only [getParamInfoAux] at h
          rw [if_pos hc] at h
          by_cases hc2 : c2 = '%'
          · rw [if_pos hc2] at h
            have := ih r n t h ht
            simp only [List.length_cons]
            omega
          · rw [if_neg hc2] at h
            cases hspec : getParamInfoSpec (c2 :: r) n with
            | none => rw [hspec] at h; exact Option.noConfusion h
            | some val =>
              rw [hspec] at h
              cases val with
              | inl t2 =>
                have := getParamInfoSpec_inl (c2 :: r) n t2 hspec
                simp only [List.length_cons] at this ⊢
                omega
              | inr pr =>
                obtain ⟨n', r'⟩ := pr
                have hrec := ih r' n' t h ht
                rcases getParamInfoSpec_inr (c2 :: r) n n' r' hspec with
                  ⟨hm, hr⟩ | ⟨hm, hr⟩ | ⟨hm, hr⟩ <;>
                  (simp only [List.length_cons] at hr ⊢; omega)
      · simp only [getParamInfoAux] at h
        rw [if_neg hc] at h
        have := ih rest n t h ht
        simp only [List.length_cons]
        omega

/-- The parameter-count loop only sees the format through `GetParamInfo`. -/
theorem formatParametersCountAux_congr (f1 f2 : List Char)
    (hp : ∀ n, getParamInfo f1 n = getParamInfo f2 n) :
    ∀ fuel n, formatParametersCountAux f1 fuel n = formatParametersCountAux f2 fuel n := by
  intro fuel
  induction fuel with
  | zero => intro n; rfl
  | succ fuel ih =>
    intro n
    simp only [formatParametersCountAux]
    rw [hp n]
    cases hg : getParamInfo f2 n with
    | none => rfl
    | some t => cases t <;> first | rfl | exact ih (n + 1)

/-- The parameter-count loop does not depend on its fuel once it covers the
format length. -/
theorem formatParametersCountAux_fuel (fmt : List Char) :
    ∀ f1 f2 n, fmt.length - n < f1 → fmt.length - n < f2 →
      formatParametersCountAux fmt f1 n = formatParametersCountAux fmt f2 n := by
  intro f1
  induction f1 with
  | zero => intro f2 n h1 h2; exact absurd h1 (by omega)
  | succ f1 ih =>
    intro f2 n h1 h2
    cases f2 with
    | zero => exact absurd h2 (by omega)
    | succ f2 =>
      simp only [formatParametersCountAux]
      cases hg : getParamInfo fmt n with
      | none => rfl
      | some t =>
        cases t <;>
          first
          | rfl
          | (refine ih f2 (n + 1) ?_ ?_ <;>
              (have hb := getParamInfoAux_param_lt (fmt.length + 1) fmt n _ hg
                (fun hh => ParamType.noConfusion hh)
               omega))

/-- `GetParamInfo` gives the same classification with and without a `%%`
escape inserted outside any specifier. -/
theorem getParamInfo_skip_pct (u v : List Char) (n : Nat) :
    '%' ∉ u → getParamInfo (u ++ '%' :: '%' :: v) n = getParamInfo (u ++ v) n := by
  induction u with
  | nil =>
    intro _
    show getParamInfoAux (('%' :: '%' :: v).length + 1) ('%' :: '%' :: v) n =
      getParamInfoAux (v.length + 1) v n
    rw [getParamInfoAux_pct_pct]
    exact getParamInfoAux_eq (('%' :: '%' :: v).length) v n
      (by simp only [List.length_cons]; omega)
  | cons c u' ih =>
    intro hu
    have hc : ¬ c = '%' := fun hh => hu (hh ▸ List.mem_cons_self c u')
    have hu' : '%' ∉ u' := fun hh => hu (List.mem_cons_of_mem c hh)
    show getParamInfoAux ((c :: (u' ++ '%' :: '%' :: v)).length + 1)
        (c :: (u' ++ '%' :: '%' :: v)) n =
      getParamInfoAux ((c :: (u' ++ v)).length + 1) (c :: (u' ++ v)) n
    rw [getParamInfoAux_skip ((c :: (u' ++ '%' :: '%' :: v)).length) c
        (u' ++ '%' :: '%' :: v) n hc,
      getParamInfoAux_skip ((c :: (u' ++ v)).length) c (u' ++ v) n hc,
      getParamInfoAux_eq ((c :: (u' ++ '%' :: '%' :: v)).length) (u' ++ '%' :: '%' :: v) n
        (by simp only [List.length_cons, List.length_append]; omega),
      getParamInfoAux_eq ((c :: (u' ++ v)).length) (u' ++ v) n
        (by simp only [List.length_cons, List.length_append]; omega)]
    exact ih hu'

/-- `ConversionSpecifiersCount` gives the same count with and without a `%%`
escape inserted outside any specifier. -/
theorem conversionSpecifiersCount_skip_pct (u v : List Char) :
    '%' ∉ u → conversionSpecifiersCount (u ++ '%' :: '%' :: v) =
      conversionSpecifiersCount (u ++ v) := by
  induction u with
  | nil =>
    intro _
    show conversionSpecifiersCountAux (('%' :: '%' :: v).length + 1) ('%' :: '%' :: v) =
      conversionSpecifiersCountAux (v.length + 1) v
    rw [conversionSpecifiersCountAux_pct_pct]
    exact conversionSpecifiersCountAux_eq_count (('%' :: '%' :: v).length) v
      (by simp only [List.length_cons]; omega)
  | cons c u' ih =>
    intro hu
    have hc : ¬ c = '%' := fun hh => hu (hh ▸ List.mem_cons_self c u')
    have hu' : '%' ∉ u' := fun hh => hu (List.mem_cons_of_mem c hh)
    show conversionSpecifiersCountAux ((c :: (u' ++ '%' :: '%' :: v)).length + 1)
        (c :: (u' ++ '%' :: '%' :: v)) =
      conversionSpecifiersCountAux ((c :: (u' ++ v)).length + 1) (c :: (u' ++ v))
    rw [conversionSpecifiersCountAux_skip ((c :: (u' ++ '%' :: '%' :: v)).length) c
        (u' ++ '%' :: '%' :: v) hc,
      conversionSpecifiersCountAux_skip ((c :: (u' ++ v)).length) c (u' ++ v) hc,
      conversionSpecifiersCountAux_eq_count ((c :: (u' ++ '%' :: '%' :: v)).length)
        (u' ++ '%' :: '%' :: v)
        (by simp only [List.length_cons, List.length_append]; omega),
      conversionSpecifiersCountAux_eq_count ((c :: (u' ++ v)).length) (u' ++ v)
        (by simp only [List.length_cons, List.length_append]; omega)]
    exact ih hu'

/-- `FormatParametersCount` gives the same count with and without a `%%`
escape inserted outside any specifier. -/
theorem formatParametersCount_skip_pct (u v : List Char) (hu : '%' ∉ u) :
    formatParametersCount (u ++ '%' :: '%' :: v) = formatParametersCount (u ++ v) := by
  unfold formatParametersCount
  rw [formatParametersCountAux_congr (u ++ '%' :: '%' :: v) (u ++ v)
    (fun n => getParamInfo_skip_pct u v n hu) ((u ++ '%' :: '%' :: v).length + 1) 0]
  apply formatParametersCountAux_fuel
  · simp only [List.length_append, List.length_cons]; omega
  · simp only [List.length_append, List.length_cons]; omega

/-! ### Specifier replay

A prefix of a format that the `%`-walking scanners fully traverse need not
be percent-free: it may itself contain `%%` escapes and complete
conversion specifiers.  The lemmas below show that a successfully parsed
specifier is consumed identically whatever text follows it, so the escape
insertion of claim C3 holds for any such prefix. -/

/-- A successful run scan splits its input into the run and the rest. -/
theorem scanWhile_split (p : Char → Bool) :
    ∀ l toks rest, scanWhile p l = some (toks, rest) → l = toks ++ rest := by
  intro l
  induction l with
  | nil => intro toks rest h; exact Option.noConfusion h
  | cons c r ih =>
    intro toks rest h
    simp only [scanWhile] at h
    by_cases hp : p c
    · rw [if_pos hp] at h
      rw [Option.map_eq_some'] at h
      obtain ⟨⟨t2, r2⟩, hscan, hfx⟩ := h
      simp only [Prod.mk.injEq] at hfx
      obtain ⟨rfl, rfl⟩ := hfx
      rw [List.cons_append, ← ih t2 r2 hscan]
    · rw [if_neg hp] at h
      simp only [Option.some.injEq, Prod.mk.injEq] at h
      obtain ⟨rfl, rfl⟩ := h
      rfl

/-- The first unconsumed character of a run scan fails the predicate. -/
theorem scanWhile_stop (p : Char → Bool) :
    ∀ l toks c rest, scanWhile p l = some (toks, c :: rest) → p c = false := by
  intro l
  induction l with
  | nil => intro toks c rest h; exact Option.noConfusion h
  | cons c0 r ih =>
    intro toks c rest h
    simp only [scanWhile] at h
    by_cases hp : p c0
    · rw [if_pos hp] at h
      rw [Option.map_eq_some'] at h
      obtain ⟨⟨t2, r2⟩, hscan, hfx⟩ := h
      simp only [Prod.mk.injEq] at hfx
      obtain ⟨-, hr⟩ := hfx
      exact ih t2 c rest (hr ▸ hscan)
    · rw [if_neg hp] at h
      simp only [Option.some.injEq, Prod.mk.injEq] at h
      obtain ⟨-, hr⟩ := h
      injection hr with hc hr2
      subst hc
      simp only [Bool.not_eq_true] at hp
      exact hp

/-- Replaying a run scan: the recorded run followed by any stalled character
and any continuation scans to the same run. -/
theorem scanWhile_build (p : Char → Bool) :
    ∀ toks c w, (∀ x ∈ toks, p x = true) → p c = false →
      scanWhile p (toks ++ (c :: w)) = some (toks, c :: w) := by
  intro toks
  induction toks with
  | nil =>
    intro c w hmem hstop
    simp only [List.nil_append, scanWhile]
    rw [if_neg (by simp [hstop])]
  | cons t ts ih =>
    intro c w hmem hstop
    have hpt : p t = true := hmem t (List.mem_cons_self t ts)
    simp only [List.cons_append, scanWhile, List.append_eq]
    rw [if_pos hpt, ih c w (fun x hx => hmem x (List.mem_cons_of_mem t hx)) hstop]
    rfl

/-- A list followed by a cons has a head and a tail shape that do not depend
on the continuation. -/
theorem append_cons_head (mid : List Char) (cv : Char) :
    ∃ q0 qrest, ∀ X : List Char, mid ++ (cv :: X) = q0 :: (qrest ++ X) := by
  cases mid with
  | nil => exact ⟨cv, [], fun X => rfl⟩
  | cons m mt => exact ⟨m, mt ++ [cv], fun X => by simp⟩

/-- Shape of a successful width scan: a single star, or a digit run on an
input that does not start with a star. -/
theorem scanWidth_shape (l toks rest : List Char)
    (h : scanWidth l = some (toks, rest)) :
    (toks = ['*'] ∧ l = '*' :: rest) ∨
    ((∀ x ∈ toks, IsDigit x = true) ∧ l = toks ++ rest ∧
      (∀ c0 r0, l = c0 :: r0 → ¬ c0 = '*') ∧
      (∀ c0 r0, rest = c0 :: r0 → IsDigit c0 = false)) := by
  cases l with
  | nil => exact Option.noConfusion h
  | cons c r =>
    simp only [scanWidth] at h
    by_cases hstar : c = '*'
    · rw [if_pos hstar] at h
      simp only [Option.some.injEq, Prod.mk.injEq] at h
      obtain ⟨rfl, rfl⟩ := h
      subst hstar
      exact Or.inl ⟨rfl, rfl⟩
    · rw [if_neg hstar] at h
      refine Or.inr ⟨scanWhile_mem IsDigit (c :: r) toks rest h,
        scanWhile_split IsDigit (c :: r) toks rest h, ?_, ?_⟩
      · intro c0 r0 heq
        injection heq with h1 _
        subst h1
        exact hstar
      · exact fun c0 r0 hr => scanWhile_stop IsDigit (c :: r) toks c0 r0 (hr ▸ h)

/-- Shape of a successful precision scan: nothing on an input that does not
start with a dot, a dot-star, or a dot followed by a digit run that does not
start with a star. -/
theorem scanPrecision_shape (l toks rest : List Char)
    (h : scanPrecision l = some (toks, rest)) :
    (toks = [] ∧ rest = l ∧ (∀ c0 r0, l = c0 :: r0 → ¬ c0 = '.')) ∨
    (toks = ['.', '*'] ∧ l = '.' :: '*' :: rest) ∨
    (∃ ds, toks = '.' :: ds ∧ l = '.' :: (ds ++ rest) ∧
      (∀ x ∈ ds, IsDigit x = true) ∧
      (∀ c0 r0, rest = c0 :: r0 → IsDigit c0 = false) ∧
      (∀ c0 r0, ds ++ rest = c0 :: r0 → ¬ c0 = '*')) := by
  cases l with
  | nil => exact Option.noConfusion h
  | cons c r =>
    simp only [scanPrecision] at h
    by_cases hdot : c = '.'
    · rw [if_pos hdot] at h
      cases r with
      | nil => exact Option.noConfusion h
      | cons c2 r2 =>
        dsimp only at h
        by_cases hstar : c2 = '*'
        · rw [if_pos hstar] at h
          simp only [Option.some.injEq, Prod.mk.injEq] at h
          obtain ⟨rfl, rfl⟩ := h
          subst hdot hstar
          exact Or.inr (Or.inl ⟨rfl, rfl⟩)
        · rw [if_neg hstar] at h
          rw [Option.map_eq_some'] at h
          obtain ⟨⟨ds, rr⟩, hscan, hfx⟩ := h
          simp only [Prod.mk.injEq] at hfx
          obtain ⟨rfl, rfl⟩ := hfx
          subst hdot
          have hs := scanWhile_split IsDigit (c2 :: r2) ds rr hscan
          refine Or.inr (Or.inr ⟨ds, rfl, ?_,
            scanWhile_mem IsDigit (c2 :: r2) ds rr hscan, ?_, ?_⟩)
          · rw [← hs]
          · exact fun c0 r0 hr => scanWhile_stop IsDigit (c2 :: r2) ds c0 r0 (hr ▸ hscan)
          · intro c0 r0 heq
            rw [← hs] at heq
            injection heq with h1 _
            subst h1
            exact hstar
    · rw [if_neg hdot] at h
      simp only [Option.some.injEq, Prod.mk.injEq] at h
      obtain ⟨rfl, rfl⟩ := h
      refine Or.inl ⟨rfl, rfl, ?_⟩
      intro c0 r0 heq
      injection heq with h1 _
      subst h1
      exact hdot

/-- A successful precision scan splits its input into the text and the
rest. -/
theorem scanPrecision_split (l toks rest : List Char)
    (h : scanPrecision l = some (toks, rest)) : l = toks ++ rest := by
  rcases scanPrecision_shape l toks rest h with ⟨rfl, hrest, -⟩ | ⟨rfl, hl⟩ |
    ⟨ds, rfl, hl, -, -, -⟩
  · simpa using hrest.symm
  · exact hl
  · exact hl

/-- Shape of a successful conversion-letter check. -/
theorem checkConversionChar_shape (l : List Char) (cv : Char) (rest : List Char)
    (h : checkConversionChar l = some (cv, rest)) :
    l = cv :: rest ∧ IsConversionSpecifier cv = true ∧ ¬ cv = 'n' := by
  cases l with
  | nil => exact Option.noConfusion h
  | cons c r =>
    simp only [checkConversionChar] at h
    by_cases hC : IsConversionSpecifier c = true
    · rw [if_neg (not_not_intro hC)] at h
      by_cases hn : c = 'n'
      · rw [if_pos hn] at h; exact Option.noConfusion h
      · rw [if_neg hn] at h
        simp only [Option.some.injEq, Prod.mk.injEq] at h
        obtain ⟨rfl, rfl⟩ := h
        exact ⟨rfl, hC, hn⟩
    · rw [if_pos hC] at h
      exact Option.noConfusion h

/-- Replaying a conversion-letter check on any continuation. -/
theorem checkConversionChar_build (cv : Char) (hC : IsConversionSpecifier cv = true)
    (hn : ¬ cv = 'n') (w : List Char) :
    checkConversionChar (cv :: w) = some (cv, w) := by
  simp only [checkConversionChar]
  rw [if_neg (not_not_intro hC), if_neg hn]

/-- Replaying the length-and-classification phase of `GetParamInfo` on any
continuation: the outcome is a fixed classification, or the `continue` with
a fixed countdown and exactly the continuation. -/
theorem gpiFinish_replay (lens : List Char) (cv : Char)
    (hlen : ∀ x ∈ lens, IsLength x = true) (hstop : IsLength cv = false)
    (hC : IsConversionSpecifier cv = true) (hn : ¬ cv = 'n')
    (n : Nat) (hd : Bool) (p : Option Nat) :
    (∃ t, ∀ w, gpiFinish (lens ++ (cv :: w)) n hd p = some (.inl t)) ∨
    (∃ n', ∀ w, gpiFinish (lens ++ (cv :: w)) n hd p = some (.inr (n', w))) := by
  have hscan : ∀ w, scanWhile IsLength (lens ++ (cv :: w)) = some (lens, cv :: w) :=
    fun w => scanWhile_build IsLength lens cv w hlen hstop
  by_cases h0 : 0 < n
  · refine Or.inr ⟨n - 1, fun w => ?_⟩
    unfold gpiFinish
    rw [hscan w]
    dsimp only
    rw [if_neg (not_not_intro hC), if_neg hn, if_pos h0]
  · by_cases hs : cv = 's'
    · by_cases hdyn : hd = true
      · refine Or.inl ⟨.STRING_WITH_DYNAMIC_PRECISION, fun w => ?_⟩
        unfold gpiFinish
        rw [hscan w]
        dsimp only
        rw [if_neg (not_not_intro hC), if_neg hn, if_neg h0,
          if_neg (not_not_intro hs), if_pos hdyn]
      · cases p with
        | none =>
          refine Or.inl ⟨.STRING_WITH_NO_PRECISION, fun w => ?_⟩
          unfold gpiFinish
          rw [hscan w]
          dsimp only
          rw [if_neg (not_not_intro hC), if_neg hn, if_neg h0,
            if_neg (not_not_intro hs), if_neg hdyn]
        | some pp =>
          refine Or.inl ⟨.STRING pp, fun w => ?_⟩
          unfold gpiFinish
          rw [hscan w]
          dsimp only
          rw [if_neg (not_not_intro hC), if_neg hn, if_neg h0,
            if_neg (not_not_intro hs), if_neg hdyn]
    · refine Or.inl ⟨.NON_STRING, fun w => ?_⟩
      unfold gpiFinish
      rw [hscan w]
      dsimp only
      rw [if_neg (not_not_intro hC), if_neg hn, if_neg h0, if_pos hs]

/-- Replaying the precision phase of `GetParamInfo` on any continuation,
given the precision text recorded by a successful `scanPrecision` whose rest
decomposes into length modifiers, a conversion letter and a tail. -/
theorem gpiAfterWidth_replay (l2 prec lens : List Char) (cv : Char) (r : List Char)
    (hp : scanPrecision l2 = some (prec, lens ++ (cv :: r)))
    (hlen : ∀ x ∈ lens, IsLength x = true) (hstop : IsLength cv = false)
    (hC : IsConversionSpecifier cv = true) (hn : ¬ cv = 'n') (n : Nat) :
    (∃ t, ∀ w, gpiAfterWidth (prec ++ (lens ++ (cv :: w))) n = some (.inl t)) ∨
    (∃ n', ∀ w, gpiAfterWidth (prec ++ (lens ++ (cv :: w))) n = some (.inr (n', w))) := by
  obtain ⟨q0, qrest, hqX⟩ := append_cons_head lens cv
  have hfin := fun (n0 : Nat) (hd : Bool) (p : Option Nat) =>
    gpiFinish_replay lens cv hlen hstop hC hn n0 hd p
  rcases scanPrecision_shape l2 prec (lens ++ (cv :: r)) hp with
    ⟨rfl, hrest, hnodot⟩ | ⟨rfl, hl2⟩ | ⟨ds, rfl, hl2, hdmem, hdstop, hdnostar⟩
  · -- no precision text: the phase hands the input to the final phase
    have hq0 : ¬ q0 = '.' := hnodot q0 (qrest ++ r) (by rw [← hrest, hqX r])
    have hmain : ∀ w, gpiAfterWidth ([] ++ (lens ++ (cv :: w))) n =
        gpiFinish (lens ++ (cv :: w)) n false none := by
      intro w
      rw [List.nil_append, hqX w]
      simp only [gpiAfterWidth]
      rw [if_neg hq0, ← hqX w]
    rcases hfin n false none with ⟨t, hall⟩ | ⟨n', hall⟩
    · exact Or.inl ⟨t, fun w => (hmain w).trans (hall w)⟩
    · exact Or.inr ⟨n', fun w => (hmain w).trans (hall w)⟩
  · -- dynamic precision `.*`
    have hmain : ∀ w, gpiAfterWidth (('.' :: '*' :: []) ++ (lens ++ (cv :: w))) n =
        if n = 0 then some (.inl .DYNAMIC_PRECISION)
        else gpiFinish (lens ++ (cv :: w)) (n - 1) true none := by
      intro w
      simp only [List.cons_append, List.nil_append]
      simp only [gpiAfterWidth]
      rw [if_pos trivial, if_pos trivial]
    by_cases h0 : n = 0
    · exact Or.inl ⟨.DYNAMIC_PRECISION, fun w => by rw [hmain w, if_pos h0]⟩
    · rcases hfin (n - 1) true none with ⟨t, hall⟩ | ⟨n', hall⟩
      · exact Or.inl ⟨t, fun w => by rw [hmain w, if_neg h0]; exact hall w⟩
      · exact Or.inr ⟨n', fun w => by rw [hmain w, if_neg h0]; exact hall w⟩
  · -- static precision `.digits`
    have hq0dig : IsDigit q0 = false := hdstop q0 (qrest ++ r) (hqX r)
    have hdscan : ∀ w, scanWhile IsDigit (ds ++ (lens ++ (cv :: w))) =
        some (ds, lens ++ (cv :: w)) := by
      intro w
      rw [hqX w]
      exact scanWhile_build IsDigit ds q0 (qrest ++ w) hdmem hq0dig
    have hmain : ∀ w, gpiAfterWidth (('.' :: ds) ++ (lens ++ (cv :: w))) n =
        gpiFinish (lens ++ (cv :: w)) n false (some (digitsToNat ds)) := by
      intro w
      have hds := hdscan w
      cases ds with
      | nil =>
        rw [List.nil_append] at hds
        rw [hqX w] at hds
        have hq0star : ¬ q0 = '*' :=
          hdnostar q0 (qrest ++ r) (by rw [List.nil_append, hqX r])
        simp only [List.cons_append, List.nil_append]
        simp only [gpiAfterWidth]
        rw [hqX w]
        rw [if_pos trivial]
        dsimp only
        rw [if_neg hq0star, hds]
      | cons d0 ds2 =>
        simp only [List.cons_append] at hds ⊢
        have hd0star : ¬ d0 = '*' := hdnostar d0 (ds2 ++ (lens ++ (cv :: r)))
          (by simp only [List.cons_append])
        simp only [gpiAfterWidth]
        rw [if_pos trivial, if_neg hd0star, hds]
    rcases hfin n false (some (digitsToNat ds)) with ⟨t, hall⟩ | ⟨n', hall⟩
    · exact Or.inl ⟨t, fun w => (hmain w).trans (hall w)⟩
    · exact Or.inr ⟨n', fun w => (hmain w).trans (hall w)⟩

/-- A successful width scan splits its input into the text and the rest. -/
theorem scanWidth_split (l toks rest : List Char)
    (h : scanWidth l = some (toks, rest)) : l = toks ++ rest := by
  rcases scanWidth_shape l toks rest h with ⟨rfl, hl⟩ | ⟨-, hl, -, -⟩
  · exact hl
  · exact hl

/-- Replaying the specifier phases of `GetParamInfo` on any continuation of
a specifier body recorded by a successful `consumeSpecifier`: the outcome is
a fixed classification, or the `continue` with a fixed countdown and exactly
the continuation. -/
theorem getParamInfoSpec_replay (l0 : List Char) (parts : SpecParts) (r : List Char)
    (h : consumeSpecifier l0 = some (parts, r)) (n : Nat) :
    (∃ t, ∀ w, getParamInfoSpec (parts.body ++ w) n = some (.inl t)) ∨
    (∃ n', ∀ w, getParamInfoSpec (parts.body ++ w) n = some (.inr (n', w))) := by
  obtain ⟨l1, l2, l3, l4, h1, h2, h3, h4, h5⟩ := consumeSpecifier_inv l0 parts r h
  obtain ⟨hl4, hCv, hNv⟩ := checkConversionChar_shape l4 parts.conv r h5
  subst hl4
  have hlenmem := scanWhile_mem IsLength l3 parts.lengths (parts.conv :: r) h4
  have hlenstop : IsLength parts.conv = false :=
    scanWhile_stop IsLength l3 parts.lengths parts.conv r h4
  have hl3 := scanWhile_split IsLength l3 parts.lengths (parts.conv :: r) h4
  subst hl3
  have hl2 := scanPrecision_split l2 parts.precision _ h3
  subst hl2
  have hl1 := scanWidth_split l1 parts.width _ h2
  subst hl1
  have hgaw := fun (n0 : Nat) =>
    gpiAfterWidth_replay (parts.precision ++ (parts.lengths ++ (parts.conv :: r)))
      parts.precision parts.lengths parts.conv r h3 hlenmem hlenstop hCv hNv n0
  have hbw : ∀ w : List Char, parts.body ++ w =
      parts.flags ++ (parts.width ++ (parts.precision ++
        (parts.lengths ++ (parts.conv :: w)))) := by
    intro w
    simp only [SpecParts.body, List.append_assoc, List.cons_append, List.nil_append]
  obtain ⟨f0, frest, hfX⟩ := append_cons_head
    (parts.width ++ (parts.precision ++ parts.lengths)) parts.conv
  have hfX' : ∀ X, parts.width ++ (parts.precision ++ (parts.lengths ++
      (parts.conv :: X))) = f0 :: (frest ++ X) := by
    intro X
    rw [← hfX X]
    simp only [List.append_assoc]
  have hflagmem := scanWhile_mem IsFlag l0 parts.flags _ h1
  have hf0flag : IsFlag f0 = false := by
    have h1' := h1
    rw [hfX' r] at h1'
    exact scanWhile_stop IsFlag l0 parts.flags f0 (frest ++ r) h1'
  have hflags : ∀ w, scanWhile IsFlag (parts.flags ++ (parts.width ++
      (parts.precision ++ (parts.lengths ++ (parts.conv :: w))))) =
      some (parts.flags, parts.width ++ (parts.precision ++
        (parts.lengths ++ (parts.conv :: w)))) := by
    intro w
    rw [hfX' w]
    exact scanWhile_build IsFlag parts.flags f0 (frest ++ w) hflagmem hf0flag
  obtain ⟨p0, prest, hpX⟩ := append_cons_head (parts.precision ++ parts.lengths) parts.conv
  have hpX' : ∀ X, parts.precision ++ (parts.lengths ++ (parts.conv :: X)) =
      p0 :: (prest ++ X) := by
    intro X
    rw [← hpX X]
    simp only [List.append_assoc]
  rcases scanWidth_shape _ parts.width _ h2 with ⟨hwstar, -⟩ | ⟨hwdig, -, hwnostar, hwstop⟩
  · -- dynamic width `*`
    have hstep : ∀ w, getParamInfoSpec (parts.body ++ w) n =
        if n = 0 then some (.inl .DYNAMIC_WIDTH)
        else gpiAfterWidth (parts.precision ++ (parts.lengths ++ (parts.conv :: w)))
          (n - 1) := by
      intro w
      rw [hbw w]
      unfold getParamInfoSpec
      rw [hflags w]
      dsimp only
      rw [hwstar]
      simp only [List.cons_append, List.nil_append]
      rw [if_pos trivial]
    by_cases h0 : n = 0
    · exact Or.inl ⟨.DYNAMIC_WIDTH, fun w => by rw [hstep w, if_pos h0]⟩
    · rcases hgaw (n - 1) with ⟨t, hall⟩ | ⟨n', hall⟩
      · exact Or.inl ⟨t, fun w => by rw [hstep w, if_neg h0]; exact hall w⟩
      · exact Or.inr ⟨n', fun w => by rw [hstep w, if_neg h0]; exact hall w⟩
  · -- digit width
    have hp0dig : IsDigit p0 = false := hwstop p0 (prest ++ r) (hpX' r)
    have hwscan : ∀ w, scanWhile IsDigit (parts.width ++ (parts.precision ++
        (parts.lengths ++ (parts.conv :: w)))) = some (parts.width,
        parts.precision ++ (parts.lengths ++ (parts.conv :: w))) := by
      intro w
      rw [hpX' w]
      exact scanWhile_build IsDigit parts.width p0 (prest ++ w) hwdig hp0dig
    have hstep : ∀ w, getParamInfoSpec (parts.body ++ w) n =
        gpiAfterWidth (parts.precision ++ (parts.lengths ++ (parts.conv :: w))) n := by
      intro w
      rw [hbw w]
      unfold getParamInfoSpec
      rw [hflags w]
      dsimp only
      cases hww : parts.width with
      | nil =>
        have hp0star : ¬ p0 = '*' := hwnostar p0 (prest ++ r)
          (by rw [hww, List.nil_append, hpX' r])
        have hws := hwscan w
        rw [hww, List.nil_append, hpX' w] at hws
        simp only [List.nil_append]
        rw [hpX' w]
        dsimp only
        rw [if_neg hp0star, hws, ← hpX' w]
      | cons w0 wrest =>
        have hw0star : ¬ w0 = '*' := hwnostar w0 (wrest ++ (parts.precision ++
          (parts.lengths ++ (parts.conv :: r)))) (by rw [hww]; simp only [List.cons_append])
        have hws := hwscan w
        rw [hww] at hws
        simp only [List.cons_append] at hws
        simp only [List.cons_append]
        rw [if_neg hw0star, hws]
    rcases hgaw n with ⟨t, hall⟩ | ⟨n', hall⟩
    · exact Or.inl ⟨t, fun w => (hstep w).trans (hall w)⟩
    · exact Or.inr ⟨n', fun w => (hstep w).trans (hall w)⟩

/-- Replaying a full specifier parse on any continuation: the recorded body
is consumed again and the continuation is the leftover. -/
theorem consumeSpecifier_replay (l0 : List Char) (parts : SpecParts) (r : List Char)
    (h : consumeSpecifier l0 = some (parts, r)) :
    ∀ w, consumeSpecifier (parts.body ++ w) = some (parts, w) := by
  obtain ⟨l1, l2, l3, l4, h1, h2, h3, h4, h5⟩ := consumeSpecifier_inv l0 parts r h
  obtain ⟨hl4, hCv, hNv⟩ := checkConversionChar_shape l4 parts.conv r h5
  subst hl4
  have hlenmem := scanWhile_mem IsLength l3 parts.lengths (parts.conv :: r) h4
  have hlenstop : IsLength parts.conv = false :=
    scanWhile_stop IsLength l3 parts.lengths parts.conv r h4
  have hl3 := scanWhile_split IsLength l3 parts.lengths (parts.conv :: r) h4
  subst hl3
  have hl2 := scanPrecision_split l2 parts.precision _ h3
  subst hl2
  have hl1 := scanWidth_split l1 parts.width _ h2
  subst hl1
  have hbw : ∀ w : List Char, parts.body ++ w =
      parts.flags ++ (parts.width ++ (parts.precision ++
        (parts.lengths ++ (parts.conv :: w)))) := by
    intro w
    simp only [SpecParts.body, List.append_assoc, List.cons_append, List.nil_append]
  obtain ⟨f0, frest, hfX⟩ := append_cons_head
    (parts.width ++ (parts.precision ++ parts.lengths)) parts.conv
  have hfX' : ∀ X, parts.width ++ (parts.precision ++ (parts.lengths ++
      (parts.conv :: X))) = f0 :: (frest ++ X) := by
    intro X
    rw [← hfX X]
    simp only [List.append_assoc]
  have hflagmem := scanWhile_mem IsFlag l0 parts.flags _ h1
  have hf0flag : IsFlag f0 = false := by
    have h1' := h1
    rw [hfX' r] at h1'
    exact scanWhile_stop IsFlag l0 parts.flags f0 (frest ++ r) h1'
  have hflags : ∀ w, scanWhile IsFlag (parts.flags ++ (parts.width ++
      (parts.precision ++ (parts.lengths ++ (parts.conv :: w))))) =
      some (parts.flags, parts.width ++ (parts.precision ++
        (parts.lengths ++ (parts.conv :: w)))) := by
    intro w
    rw [hfX' w]
    exact scanWhile_build IsFlag parts.flags f0 (frest ++ w) hflagmem hf0flag
  obtain ⟨p0, prest, hpX⟩ := append_cons_head (parts.precision ++ parts.lengths) parts.conv
  have hpX' : ∀ X, parts.precision ++ (parts.lengths ++ (parts.conv :: X)) =
      p0 :: (prest ++ X) := by
    intro X
    rw [← hpX X]
    simp only [List.append_assoc]
  have hwidth : ∀ w, scanWidth (parts.width ++ (parts.precision ++
      (parts.lengths ++ (parts.conv :: w)))) = some (parts.width,
      parts.precision ++ (parts.lengths ++ (parts.conv :: w))) := by
    rcases scanWidth_shape _ parts.width _ h2 with ⟨hwstar, -⟩ | ⟨hwdig, -, hwnostar, hwstop⟩
    · intro w
      rw [hwstar]
      rfl
    · intro w
      have hp0dig : IsDigit p0 = false := hwstop p0 (prest ++ r) (hpX' r)
      rw [hpX' w]
      cases hww : parts.width with
      | nil =>
        have hp0star : ¬ p0 = '*' := hwnostar p0 (prest ++ r)
          (by rw [hww, List.nil_append, hpX' r])
        simp only [List.nil_append, scanWidth]
        rw [if_neg hp0star]
        have hb := scanWhile_build IsDigit [] p0 (prest ++ w)
          (fun x hx => absurd hx (List.not_mem_nil x)) hp0dig
        rw [List.nil_append] at hb
        exact hb
      | cons w0 wrest =>
        have hw0star : ¬ w0 = '*' := hwnostar w0 (wrest ++ (parts.precision ++
          (parts.lengths ++ (parts.conv :: r)))) (by rw [hww]; simp only [List.cons_append])
        have hwdig' := hwdig
        rw [hww] at hwdig'
        simp only [List.cons_append, scanWidth]
        rw [if_neg hw0star]
        have hb := scanWhile_build IsDigit (w0 :: wrest) p0 (prest ++ w) hwdig' hp0dig
        simp only [List.cons_append] at hb
        exact hb
  have hprec : ∀ w, scanPrecision (parts.precision ++ (parts.lengths ++
      (parts.conv :: w))) = some (parts.precision,
      parts.lengths ++ (parts.conv :: w)) := by
    obtain ⟨q0, qrest, hqX⟩ := append_cons_head parts.lengths parts.conv
    rcases scanPrecision_shape _ parts.precision _ h3 with
      ⟨hpe, hrest, hnodot⟩ | ⟨hpe, -⟩ | ⟨ds, hpe, -, hdmem, hdstop, hdnostar⟩
    · intro w
      have hq0 : ¬ q0 = '.' := hnodot q0 (qrest ++ r) (by rw [hpe, List.nil_append, hqX r])
      rw [hpe, List.nil_append, hqX w]
      simp only [scanPrecision]
      rw [if_neg hq0]
    · intro w
      rw [hpe]
      rfl
    · intro w
      have hq0dig : IsDigit q0 = false := hdstop q0 (qrest ++ r) (hqX r)
      have hdscan : scanWhile IsDigit (ds ++ (parts.lengths ++ (parts.conv :: w))) =
          some (ds, parts.lengths ++ (parts.conv :: w)) := by
        rw [hqX w]
        exact scanWhile_build IsDigit ds q0 (qrest ++ w) hdmem hq0dig
      rw [hpe]
      cases ds with
      | nil =>
        have hq0star : ¬ q0 = '*' := hdnostar q0 (qrest ++ r)
          (by rw [List.nil_append, hqX r])
        rw [List.nil_append, hqX w] at hdscan
        simp only [List.cons_append, List.nil_append]
        simp only [scanPrecision]
        rw [if_pos trivial, hqX w]
        dsimp only
        rw [if_neg hq0star, hdscan]
        rfl
      | cons d0 ds2 =>
        have hd0star : ¬ d0 = '*' := hdnostar d0 (ds2 ++ (parts.lengths ++
          (parts.conv :: r))) (by simp only [List.cons_append])
        simp only [List.cons_append] at hdscan
        simp only [List.cons_append]
        simp only [scanPrecision]
        rw [if_pos trivial, if_neg hd0star, hdscan]
        rfl
  intro w
  rw [hbw w]
  unfold consumeSpecifier
  rw [hflags w]
  dsimp only
  rw [hwidth w]
  dsimp only
  rw [hprec w]
  dsimp only
  rw [scanWhile_build IsLength parts.lengths parts.conv w hlenmem hlenstop]
  dsimp only
  rw [checkConversionChar_build parts.conv hCv hNv w]

/-- A format prefix that the `%`-walking scanners traverse completely:
literal characters, `%%` escapes, and complete conversion specifiers, in any
order.  A specifier body never starts with `%` in a traversal: the scanners
test `fmt[i+1] == '%'` first, so `%%` is always the escape. -/
inductive ScanClean : List Char → Prop
  | nil : ScanClean []
  | lit (c : Char) (u : List Char) (hc : ¬ c = '%') (hu : ScanClean u) :
      ScanClean (c :: u)
  | esc (u : List Char) (hu : ScanClean u) : ScanClean ('%' :: '%' :: u)
  | spec (parts : SpecParts) (c2 : Char) (b2 : List Char) (u : List Char)
      (hbody : parts.body = c2 :: b2) (hc2 : ¬ c2 = '%') (hu : ScanClean u)
      (h : consumeSpecifier (parts.body ++ u) = some (parts, u)) :
      ScanClean ('%' :: (parts.body ++ u))

/-- A percent-free prefix is a traversed prefix made of literals only. -/
theorem scanClean_of_no_pct (u : List Char) (hu : '%' ∉ u) : ScanClean u := by
  induction u with
  | nil => exact .nil
  | cons c u' ih =>
    exact .lit c u' (fun hh => hu (hh ▸ List.mem_cons_self c u'))
      (ih (fun hh => hu (List.mem_cons_of_mem c hh)))

/-- `GetParamInfo` classifies every parameter position identically with and
without a `%%` escape inserted after any fully traversed prefix. -/
theorem getParamInfo_insert_pct (u v : List Char) (hu : ScanClean u) :
    ∀ n, getParamInfo (u ++ '%' :: '%' :: v) n = getParamInfo (u ++ v) n := by
  induction hu with
  | nil => exact fun n => getParamInfo_skip_pct [] v n (List.not_mem_nil '%')
  | lit c u' hc hu' ih =>
    intro n
    show getParamInfoAux ((c :: (u' ++ '%' :: '%' :: v)).length + 1)
        (c :: (u' ++ '%' :: '%' :: v)) n =
      getParamInfoAux ((c :: (u' ++ v)).length + 1) (c :: (u' ++ v)) n
    rw [getParamInfoAux_skip ((c :: (u' ++ '%' :: '%' :: v)).length) c
        (u' ++ '%' :: '%' :: v) n hc,
      getParamInfoAux_skip ((c :: (u' ++ v)).length) c (u' ++ v) n hc,
      getParamInfoAux_eq ((c :: (u' ++ '%' :: '%' :: v)).length) (u' ++ '%' :: '%' :: v) n
        (by simp only [List.length_cons, List.length_append]; omega),
      getParamInfoAux_eq ((c :: (u' ++ v)).length) (u' ++ v) n
        (by simp only [List.length_cons, List.length_append]; omega)]
    exact ih n
  | esc u' hu' ih =>
    intro n
    show getParamInfoAux (('%' :: '%' :: (u' ++ '%' :: '%' :: v)).length + 1)
        ('%' :: '%' :: (u' ++ '%' :: '%' :: v)) n =
      getParamInfoAux (('%' :: '%' :: (u' ++ v)).length + 1) ('%' :: '%' :: (u' ++ v)) n
    rw [getParamInfoAux_pct_pct, getParamInfoAux_pct_pct,
      getParamInfoAux_eq (('%' :: '%' :: (u' ++ '%' :: '%' :: v)).length)
        (u' ++ '%' :: '%' :: v) n
        (by simp only [List.length_cons, List.length_append]; omega),
      getParamInfoAux_eq (('%' :: '%' :: (u' ++ v)).length) (u' ++ v) n
        (by simp only [List.length_cons, List.length_append]; omega)]
    exact ih n
  | spec parts c2 b2 u' hbody hc2 hu' h ih =>
    intro n
    have hrep := getParamInfoSpec_replay (parts.body ++ u') parts u' h n
    simp only [List.cons_append, List.append_assoc]
    rw [hbody]
    simp only [List.cons_append]
    unfold getParamInfo
    simp only [getParamInfoAux]
    rw [if_pos trivial, if_pos trivial, if_neg hc2, if_neg hc2]
    rcases hrep with ⟨t, hall⟩ | ⟨n2, hall⟩
    · have hw1 := hall (u' ++ '%' :: '%' :: v)
      have hw2 := hall (u' ++ v)
      rw [hbody] at hw1 hw2
      simp only [List.cons_append] at hw1 hw2
      rw [hw1, hw2]
    · have hw1 := hall (u' ++ '%' :: '%' :: v)
      have hw2 := hall (u' ++ v)
      rw [hbody] at hw1 hw2
      simp only [List.cons_append] at hw1 hw2
      rw [hw1, hw2]
      show getParamInfoAux (('%' :: c2 :: (b2 ++ (u' ++ '%' :: '%' :: v))).length)
          (u' ++ '%' :: '%' :: v) n2 =
        getParamInfoAux (('%' :: c2 :: (b2 ++ (u' ++ v))).length) (u' ++ v) n2
      rw [getParamInfoAux_eq (('%' :: c2 :: (b2 ++ (u' ++ '%' :: '%' :: v))).length)
          (u' ++ '%' :: '%' :: v) n2
          (by simp only [List.length_cons, List.length_append]; omega),
        getParamInfoAux_eq (('%' :: c2 :: (b2 ++ (u' ++ v))).length) (u' ++ v) n2
          (by simp only [List.length_cons, List.length_append]; omega)]
      exact ih n2

/-- `ConversionSpecifiersCount` gives the same count with and without a `%%`
escape inserted after any fully traversed prefix. -/
theorem conversionSpecifiersCount_insert_pct (u v : List Char) (hu : ScanClean u) :
    conversionSpecifiersCount (u ++ '%' :: '%' :: v) =
      conversionSpecifiersCount (u ++ v) := by
  induction hu with
  | nil => exact conversionSpecifiersCount_skip_pct [] v (List.not_mem_nil '%')
  | lit c u' hc hu' ih =>
    show conversionSpecifiersCountAux ((c :: (u' ++ '%' :: '%' :: v)).length + 1)
        (c :: (u' ++ '%' :: '%' :: v)) =
      conversionSpecifiersCountAux ((c :: (u' ++ v)).length + 1) (c :: (u' ++ v))
    rw [conversionSpecifiersCountAux_skip ((c :: (u' ++ '%' :: '%' :: v)).length) c
        (u' ++ '%' :: '%' :: v) hc,
      conversionSpecifiersCountAux_skip ((c :: (u' ++ v)).length) c (u' ++ v) hc,
      conversionSpecifiersCountAux_eq_count ((c :: (u' ++ '%' :: '%' :: v)).length)
        (u' ++ '%' :: '%' :: v)
        (by simp only [List.length_cons, List.length_append]; omega),
      conversionSpecifiersCountAux_eq_count ((c :: (u' ++ v)).length) (u' ++ v)
        (by simp only [List.length_cons, List.length_append]; omega)]
    exact ih
  | esc u' hu' ih =>
    show conversionSpecifiersCountAux (('%' :: '%' :: (u' ++ '%' :: '%' :: v)).length + 1)
        ('%' :: '%' :: (u' ++ '%' :: '%' :: v)) =
      conversionSpecifiersCountAux (('%' :: '%' :: (u' ++ v)).length + 1)
        ('%' :: '%' :: (u' ++ v))
    rw [conversionSpecifiersCountAux_pct_pct, conversionSpecifiersCountAux_pct_pct,
      conversionSpecifiersCountAux_eq_count
        (('%' :: '%' :: (u' ++ '%' :: '%' :: v)).length) (u' ++ '%' :: '%' :: v)
        (by simp only [List.length_cons, List.length_append]; omega),
      conversionSpecifiersCountAux_eq_count (('%' :: '%' :: (u' ++ v)).length) (u' ++ v)
        (by simp only [List.length_cons, List.length_append]; omega)]
    exact ih
  | spec parts c2 b2 u' hbody hc2 hu' h ih =>
    have hrep := consumeSpecifier_replay (parts.body ++ u') parts u' h
    have hw1 := hrep (u' ++ '%' :: '%' :: v)
    have hw2 := hrep (u' ++ v)
    rw [hbody] at hw1 hw2
    simp only [List.cons_append] at hw1 hw2
    simp only [List.cons_append, List.append_assoc]
    rw [hbody]
    simp only [List.cons_append]
    unfold conversionSpecifiersCount
    simp only [conversionSpecifiersCountAux]
    rw [if_pos trivial, if_pos trivial, if_neg hc2, if_neg hc2, hw1, hw2]
    show (conversionSpecifiersCountAux
        (('%' :: c2 :: (b2 ++ (u' ++ '%' :: '%' :: v))).length)
        (u' ++ '%' :: '%' :: v)).map (fun x => x + 1) =
      (conversionSpecifiersCountAux (('%' :: c2 :: (b2 ++ (u' ++ v))).length)
        (u' ++ v)).map (fun x => x + 1)
    rw [conversionSpecifiersCountAux_eq_count
        (('%' :: c2 :: (b2 ++ (u' ++ '%' :: '%' :: v))).length) (u' ++ '%' :: '%' :: v)
        (by simp only [List.length_cons, List.length_append]; omega),
      conversionSpecifiersCountAux_eq_count
        (('%' :: c2 :: (b2 ++ (u' ++ v))).length) (u' ++ v)
        (by simp only [List.length_cons, List.length_append]; omega),
      ih]

/-- `FormatParametersCount` gives the same count with and without a `%%`
escape inserted after any fully traversed prefix. -/
theorem formatParametersCount_insert_pct (u v : List Char) (hu : ScanClean u) :
    formatParametersCount (u ++ '%' :: '%' :: v) = formatParametersCount (u ++ v) := by
  unfold formatParametersCount
  rw [formatParametersCountAux_congr (u ++ '%' :: '%' :: v) (u ++ v)
    (getParamInfo_insert_pct u v hu) ((u ++ '%' :: '%' :: v).length + 1) 0]
  apply formatParametersCountAux_fuel
  · simp only [List.length_append, List.length_cons]; omega
  · simp only [List.length_append, List.length_cons]; omega

/-- A successful sub-write appends exactly its source text to the committed
output (the `memcpy` of log_info.h:308). -/
theorem tryString_appends (st : AsmState) (src : List Char) :
    (st.tryToWriteAStringToBuffer src).1 ≠ 0 →
    (st.tryToWriteAStringToBuffer src).2.buffer = st.buffer ++ src := by
  unfold AsmState.tryToWriteAStringToBuffer
  split_ifs with h1 h2
  · exact fun h => absurd rfl h
  · exact fun h => absurd rfl h
  · exact fun _ => rfl

/-- The body loop exits with `done` once the format cursor reaches the
format length. -/
theorem writeBody_done (render : Renderer) (info : LoadedInfo) (g : Nat)
    (s : AsmState) (h : ¬ s.format_index < info.static.format_len) :
    writeBody render info (g + 1) s = some (.done s) := by
  unfold writeBody
  rw [if_neg h]

/-- One successful trailing-literal pass of the body loop: the loop advances
with the committed try result. -/
theorem writeBody_trailing (render : Renderer) (info : LoadedInfo) (g : Nat)
    (s : AsmState)
    (h1 : s.format_index < info.static.format_len)
    (h2 : ¬ s.conversion_index < info.static.num_conversions)
    (k : Nat) (s2 : AsmState)
    (htry : s.tryToWriteAStringToBuffer ((info.static.format_str.drop
      s.format_index).take (info.static.format_len - s.format_index)) = (k, s2))
    (hk : ¬ k = 0) :
    writeBody render info (g + 1) s = writeBody render info g
      { s2.finishWriting k with
          format_index := (s2.finishWriting k).format_index + k } := by
  unfold writeBody
  rw [if_pos h1, if_neg h2]
  dsimp only
  rw [htry]
  dsimp only
  rw [if_neg hk, ← writeBody.eq_def]

/-- For every record whose descriptor has no conversion left (the
no-conversion format of the escape scenario among them), a body pass on a
non-full buffer with enough room copies the format text verbatim — one
character per format character, `%%` escapes included — and finishes. -/
theorem writeBody_format_verbatim (render : Renderer) (info : LoadedInfo)
    (fuel : Nat) (st : AsmState)
    (hconv : info.static.num_conversions = 0)
    (hlen : info.static.format_len = info.static.format_str.length)
    (hpos : 0 < info.static.format_len)
    (hidx : st.format_index = 0)
    (hfull : st.is_full = false)
    (hroom : st.writed_count + info.static.format_len < st.buffer_size) :
    ∃ st2, writeBody render info (fuel + 2) st = some (.done st2) ∧
      st2.buffer = st.buffer ++ info.static.format_str := by
  have hlen0 : info.static.format_str.length ≠ 0 := by omega
  have hslice : (info.static.format_str.drop st.format_index).take
      (info.static.format_len - st.format_index) = info.static.format_str := by
    rw [hidx, hlen]
    simp
  have htry : st.tryToWriteAStringToBuffer ((info.static.format_str.drop
      st.format_index).take (info.static.format_len - st.format_index)) =
      (info.static.format_str.length,
        { st with buffer := st.buffer ++ info.static.format_str }) := by
    rw [hslice]
    unfold AsmState.tryToWriteAStringToBuffer
    rw [if_neg (by simp [hfull]), if_neg (by unfold AsmState.getFreeBytes; omega)]
  have h1 : st.format_index < info.static.format_len := by omega
  have h2 : ¬ st.conversion_index < info.static.num_conversions := by omega
  refine ⟨{ ({ st with buffer := st.buffer ++ info.static.format_str }).finishWriting
      info.static.format_str.length with
      format_index := (({ st with buffer := st.buffer ++
          info.static.format_str }).finishWriting
        info.static.format_str.length).format_index +
        info.static.format_str.length }, ?_, ?_⟩
  · show writeBody render info (fuel + 1 + 1) st = _
    rw [writeBody_trailing render info (fuel + 1) st h1 h2
      info.static.format_str.length
      { st with buffer := st.buffer ++ info.static.format_str } htry hlen0]
    apply writeBody_done
    show ¬ st.format_index + info.static.format_str.length < info.static.format_len
    omega
  · rfl

/-- C3 (amended): the `%%` escape consumes no argument.  After any fully
traversed prefix — literals, escapes and complete specifiers in any order —
inserting `%%` changes nothing in `GetParamInfo`, `ConversionSpecifiersCount`
or `FormatParametersCount`.  But the assembler does not collapse the escape
to one `%`: a successful literal sub-write appends its source verbatim, a
no-conversion format that fits is copied to the output character for
character — `%%` escapes included — and the `"a%%b"` record's assembled
output shows the two characters `%%`. -/
theorem percent_escape_consumes_no_argument (u v : List Char) (hu : ScanClean u) :
    (∀ n, getParamInfo (u ++ '%' :: '%' :: v) n = getParamInfo (u ++ v) n) ∧
    conversionSpecifiersCount (u ++ '%' :: '%' :: v) =
      conversionSpecifiersCount (u ++ v) ∧
    formatParametersCount (u ++ '%' :: '%' :: v) = formatParametersCount (u ++ v) ∧
    (∀ (st : AsmState) (src : List Char),
      (st.tryToWriteAStringToBuffer src).1 ≠ 0 →
      (st.tryToWriteAStringToBuffer src).2.buffer = st.buffer ++ src) ∧
    (∀ (render : Renderer) (info : LoadedInfo) (fuel : Nat) (st : AsmState),
      info.static.num_conversions = 0 →
      info.static.format_len = info.static.format_str.length →
      0 < info.static.format_len →
      st.format_index = 0 → st.is_full = false →
      st.writed_count + info.static.format_len < st.buffer_size →
      ∃ st2, writeBody render info (fuel + 2) st = some (.done st2) ∧
        st2.buffer = st.buffer ++ info.static.format_str) ∧
    ((write snprintfModel (infoC3 dtpScenario) 8 (.initial 200)).map AsmState.buffer =
      some (dtpScenario ++ "000 a.cc:10 [INFO][0]: a%%b\x00\r\n".toList)) :=
  ⟨getParamInfo_insert_pct u v hu,
   conversionSpecifiersCount_insert_pct u v hu,
   formatParametersCount_insert_pct u v hu,
   tryString_appends,
   fun render info fuel st h1 h2 h3 h4 h5 h6 =>
     writeBody_format_verbatim render info fuel st h1 h2 h3 h4 h5 h6,
   by decide⟩

/-- C3 instantiated: inserting `%%` into `"a%d %%bc%s"` after the prefix
`a%d %%b` — a prefix holding a complete `%d` specifier and an earlier `%%`
escape — leaves every scanner unchanged. -/
theorem percent_escape_consumes_no_argument_witness :
    getParamInfo (('a' :: '%' :: 'd' :: ' ' :: '%' :: '%' :: 'b' :: []) ++
        '%' :: '%' :: "c%s\x00".toList) 1 =
      getParamInfo (('a' :: '%' :: 'd' :: ' ' :: '%' :: '%' :: 'b' :: []) ++
        "c%s\x00".toList) 1 ∧
    conversionSpecifiersCount (('a' :: '%' :: 'd' :: ' ' :: '%' :: '%' :: 'b' :: []) ++
        '%' :: '%' :: "c%s\x00".toList) =
      conversionSpecifiersCount (('a' :: '%' :: 'd' :: ' ' :: '%' :: '%' :: 'b' :: []) ++
        "c%s\x00".toList) ∧
    formatParametersCount (('a' :: '%' :: 'd' :: ' ' :: '%' :: '%' :: 'b' :: []) ++
        '%' :: '%' :: "c%s\x00".toList) =
      formatParametersCount (('a' :: '%' :: 'd' :: ' ' :: '%' :: '%' :: 'b' :: []) ++
        "c%s\x00".toList) :=
  have hu : ScanClean ('a' :: '%' :: 'd' :: ' ' :: '%' :: '%' :: 'b' :: []) :=
    .lit 'a' ('%' :: 'd' :: ' ' :: '%' :: '%' :: 'b' :: []) (by decide)
      (.spec ⟨[], [], [], [], 'd'⟩ 'd' [] (' ' :: '%' :: '%' :: 'b' :: []) rfl
        (by decide)
        (.lit ' ' ('%' :: '%' :: 'b' :: []) (by decide)
          (.esc ('b' :: []) (.lit 'b' [] (by decide) .nil)))
        (by decide))
  ⟨(percent_escape_consumes_no_argument
      ('a' :: '%' :: 'd' :: ' ' :: '%' :: '%' :: 'b' :: []) "c%s\x00".toList hu).1 1,
   (percent_escape_consumes_no_argument
      ('a' :: '%' :: 'd' :: ' ' :: '%' :: '%' :: 'b' :: []) "c%s\x00".toList hu).2.1,
   (percent_escape_consumes_no_argument
      ('a' :: '%' :: 'd' :: ' ' :: '%' :: '%' :: 'b' :: [])
      "c%s\x00".toList hu).2.2.1⟩

/-! ## Output-counter preservation (claim C10) -/

/-- Preservation of the output counters between two assembler states: the
region size is unchanged and strict under-fill is preserved. -/
def CountsPreserved (a b : AsmState) : Prop :=
  b.buffer_size = a.buffer_size ∧
  (a.writed_count < a.buffer_size → b.writed_count < b.buffer_size)

theorem countsPreserved_refl (a : AsmState) : CountsPreserved a a := ⟨rfl, id⟩

theorem countsPreserved_trans {a b c : AsmState} (h1 : CountsPreserved a b)
    (h2 : CountsPreserved b c) : CountsPreserved a c :=
  ⟨h2.1.trans h1.1, fun h => h2.2 (h1.2 h)⟩

/-- The string try-helper leaves the counters alone (they move in
`finishWriting`), and a nonzero return means the whole source fit strictly
below the free space. -/
theorem tryString_counts (st : AsmState) (src : List Char) :
    (st.tryToWriteAStringToBuffer src).2.buffer_size = st.buffer_size ∧
    (st.tryToWriteAStringToBuffer src).2.writed_count = st.writed_count ∧
    ((st.tryToWriteAStringToBuffer src).1 ≠ 0 →
      (st.tryToWriteAStringToBuffer src).1 = src.length ∧
      st.writed_count + src.length < st.buffer_size) := by
  unfold AsmState.tryToWriteAStringToBuffer AsmState.getFreeBytes
  split_ifs with h1 h2
  · exact ⟨rfl, rfl, fun h => absurd rfl h⟩
  · exact ⟨rfl, rfl, fun h => absurd rfl h⟩
  · exact ⟨rfl, rfl, fun _ => ⟨rfl, by omega⟩⟩

/-- The formatter try-helper likewise; a nonzero return fits strictly below
the free space. -/
theorem tryArg_counts (st : AsmState) (render : Renderer) (fmt : List Char)
    (w p : Int) (arg : ArgValue) :
    (st.tryToWriteArgToBuffer render fmt w p arg).2.buffer_size = st.buffer_size ∧
    (st.tryToWriteArgToBuffer render fmt w p arg).2.writed_count = st.writed_count ∧
    ((st.tryToWriteArgToBuffer render fmt w p arg).1 ≠ 0 →
      st.writed_count + (st.tryToWriteArgToBuffer render fmt w p arg).1 <
        st.buffer_size) := by
  simp only [AsmState.tryToWriteArgToBuffer, AsmState.getFreeBytes]
  split_ifs with h1
  · exact ⟨rfl, rfl, fun h => absurd rfl h⟩
  · exact ⟨rfl, rfl, fun _ => by omega⟩

/-- A dynamic width or precision load leaves the output fields alone. -/
theorem loadDynamicInt_counts (info : LoadedInfo) (st : AsmState) (v : Int)
    (st' : AsmState) (h : loadDynamicInt info st = some (v, st')) :
    st'.buffer_size = st.buffer_size ∧ st'.writed_count = st.writed_count := by
  unfold loadDynamicInt at h
  dsimp only at h
  split at h
  · exact Option.noConfusion h
  · simp only [Option.some.injEq, Prod.mk.injEq] at h
    obtain ⟨-, rfl⟩ := h
    exact ⟨rfl, rfl⟩

/-- The argument switch leaves the counters alone, and a nonzero `tmp` fits
strictly below the free space. -/
theorem writeArgSwitch_counts (render : Renderer) (info : LoadedInfo)
    (fragment : FormatFragment) (w p : Int) (st : AsmState)
    (tmp arg_size : Nat) (st' : AsmState)
    (h : writeArgSwitch render info fragment w p st = some (tmp, arg_size, st')) :
    st'.buffer_size = st.buffer_size ∧ st'.writed_count = st.writed_count ∧
    (tmp ≠ 0 → st.writed_count + tmp < st.buffer_size) := by
  obtain ⟨ct, slen, fpos, spos⟩ := fragment
  unfold writeArgSwitch at h
  cases ct <;> dsimp only at h
  case NONE =>
    simp only [Option.some.injEq, Prod.mk.injEq] at h
    obtain ⟨rfl, -, rfl⟩ := h
    exact ⟨rfl, rfl, fun hn => absurd rfl hn⟩
  case const_void_ptr_t =>
    simp only [Option.some.injEq, Prod.mk.injEq] at h
    obtain ⟨rfl, -, rfl⟩ := h
    exact tryArg_counts st render _ w p _
  case const_char_ptr_t =>
    split at h
    · exact Option.noConfusion h
    · simp only [Option.some.injEq, Prod.mk.injEq] at h
      obtain ⟨rfl, -, rfl⟩ := h
      obtain ⟨h1, h2, h3⟩ :=
        tryArg_counts { st with args_read_pos := st.args_read_pos + 8 } render _ w p _
      exact ⟨h1, h2, h3⟩
  case const_wchar_t_ptr_t =>
    split at h
    · exact Option.noConfusion h
    · simp only [Option.some.injEq, Prod.mk.injEq] at h
      obtain ⟨rfl, -, rfl⟩ := h
      obtain ⟨h1, h2, h3⟩ :=
        tryArg_counts { st with args_read_pos := st.args_read_pos + 8 } render _ w p _
      exact ⟨h1, h2, h3⟩
  all_goals split at h
  all_goals
    first
    | exact Option.noConfusion h
    | (simp only [Option.some.injEq, Prod.mk.injEq] at h
       obtain ⟨rfl, -, rfl⟩ := h
       exact tryArg_counts st render _ w p _)

/-- A dynamic-load `if` step (width or precision) leaves the counters
alone. -/
theorem dynIf_counts (info : LoadedInfo) (s : AsmState) (P : Prop) [Decidable P]
    (w : Int) (s' : AsmState)
    (h : (if P then loadDynamicInt info s else some ((-1 : Int), s)) = some (w, s')) :
    s'.buffer_size = s.buffer_size ∧ s'.writed_count = s.writed_count := by
  split at h
  · exact loadDynamicInt_counts info s w s' h
  · simp only [Option.some.injEq, Prod.mk.injEq] at h
    obtain ⟨-, rfl⟩ := h
    exact ⟨rfl, rfl⟩

/-- One specifier expansion preserves the counters: a rollback restores them
exactly, a success advances `writed_count` by a `tmp` that fit strictly
below the free space. -/
theorem writeOneSpecifier_counts (render : Renderer) (info : LoadedInfo)
    (fragment : FormatFragment) (st : AsmState) (r : AsmState ⊕ AsmState)
    (h : writeOneSpecifier render info fragment st = some r) :
    CountsPreserved st (r.elim id id) := by
  unfold writeOneSpecifier at h
  dsimp only at h
  split at h
  · exact Option.noConfusion h
  rename_i width st1 heq1
  split at h
  · exact Option.noConfusion h
  rename_i precision st2 heq2
  split at h
  · exact Option.noConfusion h
  rename_i tmp arg_size st3 heq3
  obtain ⟨e1b, e1c⟩ := dynIf_counts info st _ width st1 heq1
  obtain ⟨e2b, e2c⟩ := dynIf_counts info st1 _ precision st2 heq2
  obtain ⟨e3b, e3c, e3bound⟩ :=
    writeArgSwitch_counts render info fragment width precision st2 tmp arg_size st3 heq3
  split at h
  · simp only [Option.some.injEq] at h
    subst h
    refine ⟨?_, fun hlt => ?_⟩
    · show st3.buffer_size = st.buffer_size
      omega
    · show st3.writed_count < st3.buffer_size
      omega
  · rename_i hno
    simp only [Option.some.injEq] at h
    subst h
    refine ⟨?_, fun hlt => ?_⟩
    · show st3.buffer_size = st.buffer_size
      omega
    · show st3.writed_count + tmp < st3.buffer_size
      by_cases h0 : tmp = 0
      · omega
      · have := e3bound h0
        omega

/-- The state half of a string try is counter-preserving. -/
theorem tryString_pair_counts (st : AsmState) (src : List Char) :
    CountsPreserved st (st.tryToWriteAStringToBuffer src).2 := by
  obtain ⟨hb, hc, -⟩ := tryString_counts st src
  exact ⟨hb, fun hlt => by omega⟩

/-- A committed literal run is counter-preserving: the bytes written fit
strictly below the free space. -/
theorem literal_advance_counts (st : AsmState) (src : List Char) (n : Nat)
    (h0 : ¬ (st.tryToWriteAStringToBuffer src).1 = 0) :
    CountsPreserved st
      { (st.tryToWriteAStringToBuffer src).2.finishWriting
          (st.tryToWriteAStringToBuffer src).1 with
        format_index :=
          ((st.tryToWriteAStringToBuffer src).2.finishWriting
            (st.tryToWriteAStringToBuffer src).1).format_index + n } := by
  obtain ⟨hb, hc, hbound⟩ := tryString_counts st src
  obtain ⟨hlen, hfit⟩ := hbound h0
  refine ⟨?_, fun hlt => ?_⟩ <;> dsimp only [AsmState.finishWriting] <;> omega

/-- The body loop preserves the counters however it exits. -/
theorem writeBody_counts (render : Renderer) (info : LoadedInfo) :
    ∀ fuel st res, writeBody render info fuel st = some res →
      CountsPreserved st res.state := by
  intro fuel
  induction fuel with
  | zero => exact fun st res h => Option.noConfusion h
  | succ fuel ih =>
    intro st res h
    unfold writeBody at h
    dsimp only at h
    split at h
    · split at h
      · split at h
        · split at h
          · simp only [Option.some.injEq] at h
            subst h
            simp only [BodyResult.state]
            exact tryString_pair_counts st _
          · rename_i h0
            exact countsPreserved_trans (literal_advance_counts st _ _ h0) (ih _ _ h)
        · split at h
          · exact Option.noConfusion h
          · rename_i st1 heq
            simp only [Option.some.injEq] at h
            subst h
            simp only [BodyResult.state]
            exact writeOneSpecifier_counts render info _ st _ heq
          · rename_i st1 heq
            exact countsPreserved_trans
              (writeOneSpecifier_counts render info _ st _ heq) (ih _ _ h)
      · split at h
        · simp only [Option.some.injEq] at h
          subst h
          simp only [BodyResult.state]
          exact tryString_pair_counts st _
        · rename_i h0
          exact countsPreserved_trans (literal_advance_counts st _ _ h0) (ih _ _ h)
    · simp only [Option.some.injEq] at h
      subst h
      exact countsPreserved_refl st

/-- A prefix phase preserves the counters, provided its flag setter does. -/
theorem writePhase_counts (st : AsmState) (flag : Bool) (src : List Char)
    (setFlag : AsmState → AsmState)
    (hs : ∀ s, (setFlag s).buffer_size = s.buffer_size ∧
      (setFlag s).writed_count = s.writed_count) :
    CountsPreserved st ((writePhase st flag src setFlag).elim id id) := by
  obtain ⟨hb, hc, hbound⟩ := tryString_counts st src
  unfold writePhase
  by_cases hf : flag = true
  · rw [if_pos hf]
    exact countsPreserved_refl st
  · rw [if_neg hf]
    dsimp only
    by_cases h0 : (st.tryToWriteAStringToBuffer src).1 = 0
    · rw [if_pos h0]
      simp only [Sum.elim_inl, id_eq]
      exact ⟨hb, fun hlt => by omega⟩
    · rw [if_neg h0]
      simp only [Sum.elim_inr, id_eq]
      obtain ⟨hlen, hfit⟩ := hbound h0
      obtain ⟨sb, sc⟩ := hs (((st.tryToWriteAStringToBuffer src).2).finishWriting
        (st.tryToWriteAStringToBuffer src).1)
      refine ⟨?_, fun hlt => ?_⟩
      · rw [sb]
        show (st.tryToWriteAStringToBuffer src).2.buffer_size = st.buffer_size
        exact hb
      · rw [sc, sb]
        show (st.tryToWriteAStringToBuffer src).2.writed_count +
            (st.tryToWriteAStringToBuffer src).1 <
          (st.tryToWriteAStringToBuffer src).2.buffer_size
        omega

/-- A phase that returned out of `write` preserved the counters. -/
theorem writePhase_inl_counts (st : AsmState) (flag : Bool) (src : List Char)
    (setFlag : AsmState → AsmState)
    (stA : AsmState) (heq : writePhase st flag src setFlag = .inl stA)
    (hs : ∀ s, (setFlag s).buffer_size = s.buffer_size ∧
      (setFlag s).writed_count = s.writed_count) :
    CountsPreserved st stA := by
  have h := writePhase_counts st flag src setFlag hs
  rw [heq] at h
  exact h

/-- A phase that fell through to the next one preserved the counters. -/
theorem writePhase_inr_counts (st : AsmState) (flag : Bool) (src : List Char)
    (setFlag : AsmState → AsmState)
    (stA : AsmState) (heq : writePhase st flag src setFlag = .inr stA)
    (hs : ∀ s, (setFlag s).buffer_size = s.buffer_size ∧
      (setFlag s).writed_count = s.writed_count) :
    CountsPreserved st stA := by
  have h := writePhase_counts st flag src setFlag hs
  rw [heq] at h
  exact h

/-- `write` preserves the counters whatever state it returns. -/
theorem write_counts (render : Renderer) (info : LoadedInfo) (fuel : Nat)
    (st st' : AsmState) (h : write render info fuel st = some st') :
    CountsPreserved st st' := by
  unfold write at h
  dsimp only at h
  split at h
  · simp only [Option.some.injEq] at h
    subst h
    exact countsPreserved_refl st
  · have base : CountsPreserved st { st with bytes_last_writed := 0 } := ⟨rfl, id⟩
    split at h
    · rename_i stA heqA
      simp only [Option.some.injEq] at h
      subst h
      exact countsPreserved_trans base
        (writePhase_inl_counts _ _ _ _ _ heqA (fun s => ⟨rfl, rfl⟩))
    rename_i stA heqA
    have cA := countsPreserved_trans base
      (writePhase_inr_counts _ _ _ _ _ heqA (fun s => ⟨rfl, rfl⟩))
    split at h
    · rename_i stB heqB
      simp only [Option.some.injEq] at h
      subst h
      exact countsPreserved_trans cA
        (writePhase_inl_counts _ _ _ _ _ heqB (fun s => ⟨rfl, rfl⟩))
    rename_i stB heqB
    have cB := countsPreserved_trans cA
      (writePhase_inr_counts _ _ _ _ _ heqB (fun s => ⟨rfl, rfl⟩))
    split at h
    · rename_i stC heqC
      simp only [Option.some.injEq] at h
      subst h
      exact countsPreserved_trans cB
        (writePhase_inl_counts _ _ _ _ _ heqC (fun s => ⟨rfl, rfl⟩))
    rename_i stC heqC
    have cC := countsPreserved_trans cB
      (writePhase_inr_counts _ _ _ _ _ heqC (fun s => ⟨rfl, rfl⟩))
    split at h
    · rename_i stD heqD
      simp only [Option.some.injEq] at h
      subst h
      exact countsPreserved_trans cC
        (writePhase_inl_counts _ _ _ _ _ heqD (fun s => ⟨rfl, rfl⟩))
    rename_i stD heqD
    have cD := countsPreserved_trans cC
      (writePhase_inr_counts _ _ _ _ _ heqD (fun s => ⟨rfl, rfl⟩))
    split at h
    · exact Option.noConfusion h
    · rename_i stE heqE
      simp only [Option.some.injEq] at h
      subst h
      exact countsPreserved_trans cD (writeBody_counts render info fuel stD _ heqE)
    · rename_i stE heqE
      have cE := countsPreserved_trans cD (writeBody_counts render info fuel stD _ heqE)
      split at h
      · rename_i stF heqF
        simp only [Option.some.injEq] at h
        subst h
        exact countsPreserved_trans cE
          (writePhase_inl_counts _ _ _ _ _ heqF (fun s => ⟨rfl, rfl⟩))
      · rename_i stF heqF
        simp only [Option.some.injEq] at h
        subst h
        exact countsPreserved_trans cE
          (writePhase_inr_counts _ _ _ _ _ heqF (fun s => ⟨rfl, rfl⟩))

/-- C10: every sub-write of the assembler succeeds only when its byte count
is strictly below the free space — a sub-write of exactly `getFreeBytes()`
bytes is rejected and sets the full flag, for both `tryToWriteAStringToBuffer`
and `tryToWriteArgToBuffer` — so every call to `write` preserves the
invariant `writed_count_ < buffer_size_` and leaves `buffer_size_`
unchanged, and `setBuffer` with a positive size establishes the invariant:
the assembler never fills its output buffer to the last byte. -/
theorem assembler_never_fills_buffer (render : Renderer) (info : LoadedInfo)
    (fuel : Nat) (st st' : AsmState)
    (hstart : st.writed_count < st.buffer_size)
    (hw : write render info fuel st = some st') :
    (st'.writed_count < st'.buffer_size ∧ st'.buffer_size = st.buffer_size) ∧
    (∀ (s : AsmState) (src : List Char), s.is_full = false →
      src.length = s.getFreeBytes →
      s.tryToWriteAStringToBuffer src = (0, { s with is_full := true })) ∧
    (∀ (s : AsmState) (fmt : List Char) (w p : Int) (arg : ArgValue),
      (render fmt w p arg).length = s.getFreeBytes →
      s.tryToWriteArgToBuffer render fmt w p arg = (0, { s with is_full := true })) ∧
    (∀ (s : AsmState) (size : Nat), 0 < size →
      (s.setBuffer size).writed_count < (s.setBuffer size).buffer_size) := by
  obtain ⟨hbs, hpres⟩ := write_counts render info fuel st st' hw
  refine ⟨⟨hpres hstart, hbs⟩, ?_, ?_, ?_⟩
  · intro s src hfull hlen
    unfold AsmState.tryToWriteAStringToBuffer
    rw [if_neg (by simp [hfull]), if_pos (le_of_eq hlen.symm)]
  · intro s fmt w p arg hlen
    unfold AsmState.tryToWriteArgToBuffer
    dsimp only
    rw [if_pos (le_of_eq hlen.symm)]
  · intro s size hsize
    simpa [AsmState.setBuffer] using hsize

/-- The state the C2 record's assembly leaves behind in a 200-byte region;
a concrete instantiation point for the C10 invariant. -/
def c10Final : AsmState :=
  (write snprintfModel (infoC2 dtpScenario) 8 (.initial 200)).getD (.initial 0)

/-- C10 instantiated: a fresh 200-byte assembler satisfies the invariant and
a full assembly of the C2 record keeps it. -/
theorem assembler_never_fills_buffer_witness :
    (AsmState.initial 200).writed_count < (AsmState.initial 200).buffer_size ∧
    c10Final.writed_count < c10Final.buffer_size :=
  ⟨by decide, (assembler_never_fills_buffer snprintfModel (infoC2 dtpScenario) 8
      (.initial 200) c10Final (by decide) (by decide)).1.1⟩

/-- First `write` of the C4 demonstration: the C2 record against a 10-byte
output region, too small for the 24-byte timestamp. -/
def c4FirstWrite : Option AsmState := write snprintfModel (infoC2 dtpScenario) 8 (.initial 10)

/-- C4, evaluated at the failing input: the timestamp does not fit the
10-byte buffer, and the failure is byte-atomic — nothing is written, the
phase flag stays false, the full flag is set.  But after `setBuffer`
installs a fresh 100-byte region, the next `write` returns its state
unchanged (`is_full_` is cleared only in the constructor, never by
`setBuffer` or `loadLogInfo`), so no resume at the pending phase ever
happens even though the record still has remaining data — contradicting the
resumption the flags exist for (log_info.h:368-369) and leaving
`consumerThreadMain`'s drive loop (logger.cc:188-197) without progress. -/
theorem full_flag_never_cleared_on_fresh_buffer :
    (c4FirstWrite.map (fun st => (st.is_full, st.is_timestamp_writed, st.writed_count, st.buffer)) =
      some (true, false, 0, [])) ∧
    (c4FirstWrite.bind (fun st => write snprintfModel (infoC2 dtpScenario) 8 (st.setBuffer 100)) =
      c4FirstWrite.map (fun st => st.setBuffer 100)) ∧
    (c4FirstWrite.map (fun st => (st.setBuffer 100).hasRemainingData) = some true) := by
  refine ⟨by decide, by decide, by decide⟩

end OLog
